import Mathlib

/-!
# pr-analyzer: a shallow embedding of the fetch, cache and export pipeline

The Go packages `pkg/models`, `internal/cache`, `internal/github` and
`internal/export` are embedded as Lean definitions, one namespace per package.

Conventions of the embedding:

* a Go `string` is a Lean `String`; a Go slice is a `List` (a nil slice and an
  empty slice are both `[]`); a Go pointer that may be nil is an `Option`;
* Go `int` and `int64` values are `Int` (no arithmetic in the embedded code can
  overflow);
* a `time.Time` is the instant it denotes (`Time`);
* a function returning `error` returns `Except GoError _`;
* the text written by `json.Marshal` and read by `json.Unmarshal` is kept as
  the JSON value it denotes (`Json`), members in the order of the struct
  fields.
-/

namespace PrAnalyzer

/-! ## Go runtime values -/

/-- An instant of `time.Time`: nanoseconds elapsed since the zero time
(January 1, year 1, 00:00:00 UTC). The location and the monotonic reading of a
Go `time.Time` are not part of the instant and are not kept. -/
structure Time where
  nanos : Int
deriving DecidableEq, Repr

namespace Time

/-- The zero value `time.Time{}`. -/
def zero : Time := ⟨0⟩

/-- Go `t.IsZero()`. -/
def IsZero (t : Time) : Bool := decide (t.nanos = 0)

/-- Go `t.Before(u)`. -/
def Before (t u : Time) : Bool := decide (t.nanos < u.nanos)

/-- Go `t.Equal(u)`: the two values denote the same instant. -/
def Equal (t u : Time) : Bool := decide (t.nanos = u.nanos)

/-- The condition of `Time.MarshalJSON`: the year of the time, taken in UTC as
the API sends it, is within 0..9999. Year 0 has 366 days and the years 1 to
9999 have 3652059 days. -/
def jsonYearOK (t : Time) : Bool :=
  decide (-(366 * 86400 * 1000000000) ≤ t.nanos ∧ t.nanos < 3652059 * 86400 * 1000000000)

end Time

/-- A Go `error` value as built by `fmt.Errorf`: either a plain message, or a
message ending in the text of a wrapped error (the `%w` verb, always the last
verb of the format in this program). -/
inductive GoError where
  | plain (msg : String)
  | wrap (msg : String) (inner : GoError)
deriving DecidableEq, Repr

namespace GoError

/-- Go `err.Error()`. -/
def Error : GoError → String
  | plain msg => msg
  | wrap msg inner => msg ++ inner.Error

/-- Go `errors.Unwrap(err)`. -/
def Unwrap : GoError → Option GoError
  | plain _ => none
  | wrap _ inner => some inner

end GoError

/-- Go `strconv.Itoa` / the `%d` verb. -/
def Itoa (n : Int) : String := toString n

/-- A Go `map[string]int`, as the list of its entries. A nil map is the `none`
of `Option GoMap`; the empty non-nil map is `some []`. -/
abbrev GoMap := List (String × Int)

namespace GoMap

/-- Go `m[k] = v`: replaces the entry of `k` when there is one, adds an entry
otherwise. -/
def set : GoMap → String → Int → GoMap
  | [], k, v => [(k, v)]
  | (k0, v0) :: rest, k, v => if k0 = k then (k, v) :: rest else (k0, v0) :: set rest k v

/-- Go `v, ok := m[k]`. -/
def get? : GoMap → String → Option Int
  | [], _ => none
  | (k0, v0) :: rest, k => if k0 = k then some v0 else get? rest k

end GoMap

/-- Go `v, ok := m[k]` on a map that may be nil: a nil map has no entry. -/
def mapGet (m : Option GoMap) (k : String) : Option Int :=
  match m with
  | none => none
  | some entries => entries.get? k

/-- Go `len(m)` on a map that may be nil. -/
def mapLen (m : Option GoMap) : Nat :=
  match m with
  | none => 0
  | some entries => entries.length

/-- The entries of a map have distinct keys, as those of every Go map do. -/
def mapKeysDistinct : Option GoMap → Prop
  | none => True
  | some entries => (entries.map Prod.fst).Nodup

/-! ## JSON values -/

/-- A JSON value. `time` is a JSON string holding an RFC 3339 timestamp, kept
as the instant it denotes. -/
inductive Json where
  | null
  | bool (b : Bool)
  | num (n : Int)
  | str (s : String)
  | time (t : Time)
  | arr (items : List Json)
  | obj (members : List (String × Json))

namespace Json

/-- The value of member `k` of a JSON object, when the value is an object that
has it. -/
def member (k : String) : Json → Option Json
  | obj members => members.lookup k
  | _ => none

end Json

/-- Members written for a `string` field tagged `omitempty`. -/
def omitEmptyStr (k : String) (s : String) : List (String × Json) :=
  if s = "" then [] else [(k, Json.str s)]

/-- Members written for a `*int` / `*int64` field tagged `omitempty`. -/
def omitEmptyPtrInt (k : String) (p : Option Int) : List (String × Json) :=
  match p with
  | none => []
  | some n => [(k, Json.num n)]

/-- Members written for a `*time.Time` field tagged `omitempty`. -/
def omitEmptyPtrTime (k : String) (p : Option Time) : List (String × Json) :=
  match p with
  | none => []
  | some t => [(k, Json.time t)]

/-- Members written for a slice field tagged `omitempty`. -/
def omitEmptyArr (k : String) (items : List Json) : List (String × Json) :=
  if items.isEmpty then [] else [(k, Json.arr items)]

/-- Members written for a `map[string]int` field tagged `omitempty`: nothing
for a nil map and nothing for an empty one. -/
def omitEmptyMap (k : String) (m : Option GoMap) : List (String × Json) :=
  match m with
  | none => []
  | some [] => []
  | some entries => [(k, Json.obj (entries.map fun e => (e.1, Json.num e.2)))]

/-! ### Reading a member into a Go field

`none` is an `UnmarshalTypeError`. An absent member and a JSON `null` leave the
field at its zero value. -/

/-- Read into a `string` field. A `time` value read here would give the text of
the timestamp, which the embedding does not keep; nothing this program writes
puts a timestamp where a string field is read. -/
def readString : Option Json → Option String
  | none => some ""
  | some Json.null => some ""
  | some (Json.str s) => some s
  | some _ => none

/-- Read into an `int` / `int64` field. -/
def readInt : Option Json → Option Int
  | none => some 0
  | some Json.null => some 0
  | some (Json.num n) => some n
  | some _ => none

/-- Read into a `bool` field. -/
def readBool : Option Json → Option Bool
  | none => some false
  | some Json.null => some false
  | some (Json.bool b) => some b
  | some _ => none

/-- Read into a `time.Time` field. -/
def readTime : Option Json → Option Time
  | none => some Time.zero
  | some Json.null => some Time.zero
  | some (Json.time t) => some t
  | some _ => none

/-- Read into a `*int` / `*int64` field. -/
def readPtrInt : Option Json → Option (Option Int)
  | none => some none
  | some Json.null => some none
  | some (Json.num n) => some (some n)
  | some _ => none

/-- Read into a `*time.Time` field. -/
def readPtrTime : Option Json → Option (Option Time)
  | none => some none
  | some Json.null => some none
  | some (Json.time t) => some (some t)
  | some _ => none

/-- Decode every element of a JSON array with `f`. -/
def readAll {α : Type} (f : Json → Option α) : List Json → Option (List α)
  | [] => some []
  | j :: rest =>
    match f j, readAll f rest with
    | some a, some as => some (a :: as)
    | _, _ => none

/-- Read into a slice field whose elements are decoded by `f`. -/
def readSlice {α : Type} (f : Json → Option α) : Option Json → Option (List α)
  | none => some []
  | some Json.null => some []
  | some (Json.arr items) => readAll f items
  | some _ => none

/-- Insert the members of a JSON object into a map, one after the other. -/
def readEntries : List (String × Json) → GoMap → Option GoMap
  | [], m => some m
  | (k, Json.num n) :: rest, m => readEntries rest (m.set k n)
  | _ :: _, _ => none

/-- Read into a `map[string]int` field that is nil before the call: an object
allocates a new map. -/
def readMap : Option Json → Option (Option GoMap)
  | none => some none
  | some Json.null => some none
  | some (Json.obj members) => (readEntries members []).map some
  | some _ => none

/-- The map read back by `readMap` from the member `omitEmptyMap` writes for
`m`: a nil or empty map is not written and is read back nil, any other map is
rebuilt entry by entry. -/
def rereadMap (m : Option GoMap) : Option GoMap :=
  match m with
  | none => none
  | some [] => none
  | some entries => some (entries.foldl (fun acc e => acc.set e.1 e.2) [])

/-- Read into a struct field decoded by `f`, with zero value `zero`. -/
def readStruct {α : Type} (zero : α) (f : Json → Option α) : Option Json → Option α
  | none => some zero
  | some Json.null => some zero
  | some j => f j

/-- Sequencing of two decoding steps: the second runs on the value read by the
first, and an error of the first is the error of the whole. -/
@[noinline] def andThen {α β : Type} (x : Option α) (f : α → Option β) : Option β :=
  match x with
  | none => none
  | some a => f a

/-- The error of a failed `json.Unmarshal`. -/
def jsonError : GoError := GoError.plain "json: cannot unmarshal value into Go struct field"

/-! ## Package `pkg/models` -/

namespace models

structure User where
  Login : String
  Type_ : String
  IsBot : Bool
deriving DecidableEq, Repr

structure Label where
  Name : String
  Color : String
deriving DecidableEq, Repr

structure PullRequestStats where
  Additions : Int
  Deletions : Int
  ChangedFiles : Int
  Comments : Int
  ReviewComments : Int
  Reviews : Int
deriving DecidableEq, Repr

/-- The field `RawJSON` (tagged `json:"-"`, never assigned in the program) is
left out of `File`, `Review`, `Comment` and `PullRequest`. -/
structure File where
  PullNumber : Int
  Filename : String
  Status : String
  Additions : Int
  Deletions : Int
  Patch : String
deriving DecidableEq, Repr

structure Review where
  ID : Int
  PullNumber : Int
  Reviewer : User
  State : String
  SubmittedAt : Time
  Body : String
deriving DecidableEq, Repr

structure Comment where
  ID : Int
  PullNumber : Int
  ReviewID : Option Int
  Author : User
  Body : String
  Path : String
  Line : Option Int
  Side : String
  DiffHunk : String
  InReplyToID : Option Int
  Reactions : Option GoMap
  CreatedAt : Time
  UpdatedAt : Time
deriving DecidableEq, Repr

structure PullRequest where
  ID : Int
  Number : Int
  Title : String
  State : String
  Author : User
  Assignees : List User
  RequestedReviewers : List User
  Labels : List Label
  CreatedAt : Time
  UpdatedAt : Time
  MergedAt : Option Time
  Stats : PullRequestStats
  Files : List File
  Reviews : List Review
  Comments : List Comment
deriving DecidableEq, Repr

structure CodeContext where
  DiffHunk : String
  BeforeLines : List String
  TargetLine : String
  AfterLines : List String
deriving DecidableEq, Repr

structure SyncMetadata where
  Repo : String
  LastSyncAt : Time
  LastPRNumber : Int
  TotalPRs : Int
  OpenPRs : Int
  ClosedPRs : Int
deriving DecidableEq, Repr

/-- The zero value `User{}`. -/
def User.zero : User := ⟨"", "", false⟩

/-- The zero value `PullRequestStats{}`. -/
def PullRequestStats.zero : PullRequestStats := ⟨0, 0, 0, 0, 0, 0⟩

/-! ### `json.Marshal` and `json.Unmarshal`, following the struct tags -/

def User.marshal (u : User) : Json :=
  Json.obj [("login", Json.str u.Login), ("type", Json.str u.Type_), ("is_bot", Json.bool u.IsBot)]

def User.unmarshal (j : Json) : Option User :=
  match j with
  | Json.obj _ =>
    andThen (readString (j.member "login")) fun login =>
    andThen (readString (j.member "type")) fun type_ =>
    andThen (readBool (j.member "is_bot")) fun isBot =>
    some { Login := login, Type_ := type_, IsBot := isBot }
  | _ => none

def Label.marshal (l : Label) : Json :=
  Json.obj [("name", Json.str l.Name), ("color", Json.str l.Color)]

def Label.unmarshal (j : Json) : Option Label :=
  match j with
  | Json.obj _ =>
    andThen (readString (j.member "name")) fun name =>
    andThen (readString (j.member "color")) fun color =>
    some { Name := name, Color := color }
  | _ => none

def PullRequestStats.marshal (s : PullRequestStats) : Json :=
  Json.obj [("additions", Json.num s.Additions), ("deletions", Json.num s.Deletions),
    ("changed_files", Json.num s.ChangedFiles), ("comments", Json.num s.Comments),
    ("review_comments", Json.num s.ReviewComments), ("reviews", Json.num s.Reviews)]

def PullRequestStats.unmarshal (j : Json) : Option PullRequestStats :=
  match j with
  | Json.obj _ =>
    andThen (readInt (j.member "additions")) fun additions =>
    andThen (readInt (j.member "deletions")) fun deletions =>
    andThen (readInt (j.member "changed_files")) fun changedFiles =>
    andThen (readInt (j.member "comments")) fun comments =>
    andThen (readInt (j.member "review_comments")) fun reviewComments =>
    andThen (readInt (j.member "reviews")) fun reviews =>
    some { Additions := additions, Deletions := deletions, ChangedFiles := changedFiles,
           Comments := comments, ReviewComments := reviewComments, Reviews := reviews }
  | _ => none

/-- The field `PullNumber` is tagged `json:"-"`: it is not written. -/
def File.marshal (f : File) : Json :=
  Json.obj ([("filename", Json.str f.Filename), ("status", Json.str f.Status),
    ("additions", Json.num f.Additions), ("deletions", Json.num f.Deletions)]
    ++ omitEmptyStr "patch" f.Patch)

/-- The field `PullNumber` is tagged `json:"-"`: it is not read and keeps its
zero value. -/
def File.unmarshal (j : Json) : Option File :=
  match j with
  | Json.obj _ =>
    andThen (readString (j.member "filename")) fun filename =>
    andThen (readString (j.member "status")) fun status =>
    andThen (readInt (j.member "additions")) fun additions =>
    andThen (readInt (j.member "deletions")) fun deletions =>
    andThen (readString (j.member "patch")) fun patch =>
    some { PullNumber := 0, Filename := filename, Status := status,
           Additions := additions, Deletions := deletions, Patch := patch }
  | _ => none

/-- The field `PullNumber` is tagged `json:"-"`: it is not written. -/
def Review.marshal (r : Review) : Json :=
  Json.obj ([("id", Json.num r.ID), ("reviewer", r.Reviewer.marshal),
    ("state", Json.str r.State), ("submitted_at", Json.time r.SubmittedAt)]
    ++ omitEmptyStr "body" r.Body)

/-- The field `PullNumber` is tagged `json:"-"`: it is not read and keeps its
zero value. -/
def Review.unmarshal (j : Json) : Option Review :=
  match j with
  | Json.obj _ =>
    andThen (readInt (j.member "id")) fun id =>
    andThen (readStruct User.zero User.unmarshal (j.member "reviewer")) fun reviewer =>
    andThen (readString (j.member "state")) fun state =>
    andThen (readTime (j.member "submitted_at")) fun submittedAt =>
    andThen (readString (j.member "body")) fun body =>
    some { ID := id, PullNumber := 0, Reviewer := reviewer, State := state,
           SubmittedAt := submittedAt, Body := body }
  | _ => none

def Comment.marshal (c : Comment) : Json :=
  Json.obj ([("id", Json.num c.ID), ("pr_number", Json.num c.PullNumber)]
    ++ omitEmptyPtrInt "review_id" c.ReviewID
    ++ [("author", c.Author.marshal), ("body", Json.str c.Body)]
    ++ omitEmptyStr "file_path" c.Path
    ++ omitEmptyPtrInt "line" c.Line
    ++ omitEmptyStr "side" c.Side
    ++ omitEmptyStr "diff_hunk" c.DiffHunk
    ++ omitEmptyPtrInt "in_reply_to_id" c.InReplyToID
    ++ omitEmptyMap "reactions" c.Reactions
    ++ [("created_at", Json.time c.CreatedAt), ("updated_at", Json.time c.UpdatedAt)])

def Comment.unmarshal (j : Json) : Option Comment :=
  match j with
  | Json.obj _ =>
    andThen (readInt (j.member "id")) fun id =>
    andThen (readInt (j.member "pr_number")) fun pullNumber =>
    andThen (readPtrInt (j.member "review_id")) fun reviewID =>
    andThen (readStruct User.zero User.unmarshal (j.member "author")) fun author =>
    andThen (readString (j.member "body")) fun body =>
    andThen (readString (j.member "file_path")) fun path =>
    andThen (readPtrInt (j.member "line")) fun line =>
    andThen (readString (j.member "side")) fun side =>
    andThen (readString (j.member "diff_hunk")) fun diffHunk =>
    andThen (readPtrInt (j.member "in_reply_to_id")) fun inReplyToID =>
    andThen (readMap (j.member "reactions")) fun reactions =>
    andThen (readTime (j.member "created_at")) fun createdAt =>
    andThen (readTime (j.member "updated_at")) fun updatedAt =>
    some { ID := id, PullNumber := pullNumber, ReviewID := reviewID, Author := author,
           Body := body, Path := path, Line := line, Side := side, DiffHunk := diffHunk,
           InReplyToID := inReplyToID, Reactions := reactions, CreatedAt := createdAt,
           UpdatedAt := updatedAt }
  | _ => none

def PullRequest.marshal (pr : PullRequest) : Json :=
  Json.obj ([("id", Json.num pr.ID), ("number", Json.num pr.Number),
    ("title", Json.str pr.Title), ("state", Json.str pr.State),
    ("author", pr.Author.marshal),
    ("assignees", Json.arr (pr.Assignees.map User.marshal)),
    ("requested_reviewers", Json.arr (pr.RequestedReviewers.map User.marshal)),
    ("labels", Json.arr (pr.Labels.map Label.marshal)),
    ("created_at", Json.time pr.CreatedAt), ("updated_at", Json.time pr.UpdatedAt)]
    ++ omitEmptyPtrTime "merged_at" pr.MergedAt
    ++ [("stats", pr.Stats.marshal)]
    ++ omitEmptyArr "files" (pr.Files.map File.marshal)
    ++ omitEmptyArr "reviews" (pr.Reviews.map Review.marshal)
    ++ omitEmptyArr "comments" (pr.Comments.map Comment.marshal))

def PullRequest.unmarshal (j : Json) : Option PullRequest :=
  match j with
  | Json.obj _ =>
    andThen (readInt (j.member "id")) fun id =>
    andThen (readInt (j.member "number")) fun number =>
    andThen (readString (j.member "title")) fun title =>
    andThen (readString (j.member "state")) fun state =>
    andThen (readStruct User.zero User.unmarshal (j.member "author")) fun author =>
    andThen (readSlice User.unmarshal (j.member "assignees")) fun assignees =>
    andThen (readSlice User.unmarshal (j.member "requested_reviewers")) fun requestedReviewers =>
    andThen (readSlice Label.unmarshal (j.member "labels")) fun labels =>
    andThen (readTime (j.member "created_at")) fun createdAt =>
    andThen (readTime (j.member "updated_at")) fun updatedAt =>
    andThen (readPtrTime (j.member "merged_at")) fun mergedAt =>
    andThen (readStruct PullRequestStats.zero PullRequestStats.unmarshal (j.member "stats")) fun stats =>
    andThen (readSlice File.unmarshal (j.member "files")) fun files =>
    andThen (readSlice Review.unmarshal (j.member "reviews")) fun reviews =>
    andThen (readSlice Comment.unmarshal (j.member "comments")) fun comments =>
    some { ID := id, Number := number, Title := title, State := state, Author := author,
           Assignees := assignees, RequestedReviewers := requestedReviewers, Labels := labels,
           CreatedAt := createdAt, UpdatedAt := updatedAt, MergedAt := mergedAt, Stats := stats,
           Files := files, Reviews := reviews, Comments := comments }
  | _ => none

/-- The error of `json.Marshal` for a `time.Time` whose year is outside
0..9999. -/
def jsonTimeError : GoError :=
  GoError.plain ("json: error calling MarshalJSON for type time.Time: "
    ++ "Time.MarshalJSON: year outside of range [0,9999]")

/-- The same error for a field of type `*time.Time`. -/
def jsonTimePtrError : GoError :=
  GoError.plain ("json: error calling MarshalJSON for type *time.Time: "
    ++ "Time.MarshalJSON: year outside of range [0,9999]")

/-- The error of `json.Marshal(review)`, `none` when it returns the text. -/
def Review.marshalError (r : Review) : Option GoError :=
  if r.SubmittedAt.jsonYearOK then none else some jsonTimeError

/-- The error of `json.Marshal(comment)`, `none` when it returns the text. -/
def Comment.marshalError (c : Comment) : Option GoError :=
  if c.CreatedAt.jsonYearOK && c.UpdatedAt.jsonYearOK then none else some jsonTimeError

/-- The error of `json.Marshal(pr)`, `none` when it returns the text: the
first time field, in the order of the struct, whose year is out of range. -/
def PullRequest.marshalError (pr : PullRequest) : Option GoError :=
  if !(pr.CreatedAt.jsonYearOK && pr.UpdatedAt.jsonYearOK) then some jsonTimeError
  else if !(match pr.MergedAt with
            | none => true
            | some t => t.jsonYearOK) then some jsonTimePtrError
  else if pr.Reviews.all (fun r => r.marshalError.isNone)
      && pr.Comments.all (fun c => c.marshalError.isNone) then none
  else some jsonTimeError

end models

/-! ## Package `strings` -/

namespace strings

/-- Go `strings.ToLower(s)`, which is `strings.Map(unicode.ToLower, s)`; the
rune mapping `unicode.ToLower` is the parameter `unicodeToLower`. -/
def ToLower (unicodeToLower : Char → Char) (s : String) : String :=
  String.mk (s.data.map unicodeToLower)

/-- Whether `sub` occurs in `l` as a run of consecutive characters. -/
def hasRun : List Char → List Char → Bool
  | [], sub => sub.isEmpty
  | c :: cs, sub => sub.isPrefixOf (c :: cs) || hasRun cs sub

/-- Go `strings.Contains(s, substr)`. -/
def Contains (s substr : String) : Bool := hasRun s.data substr.data

/-- Go `strings.HasSuffix(s, suffix)`. -/
def HasSuffix (s suffix : String) : Bool := suffix.data.isSuffixOf s.data

end strings

/-! ## Package `internal/cache` -/

namespace cache

/-- Row of table `pulls`. The columns holding JSON text hold the JSON value. -/
structure Pull where
  ID : Int
  Number : Int
  Title : String
  State : String
  Author : String
  AuthorType : String
  AuthorIsBot : Bool
  Assignees : Json
  RequestedReviewers : Json
  Labels : Json
  CreatedAt : Time
  UpdatedAt : Time
  MergedAt : Option Time
  LastFetchedAt : Time
  RawJSON : Json

/-- Row of table `reviews`. -/
structure Review where
  ID : Int
  PullNumber : Int
  Reviewer : String
  ReviewerType : String
  ReviewerIsBot : Bool
  State : String
  SubmittedAt : Time
  RawJSON : Json

/-- Row of table `comments`. -/
structure Comment where
  ID : Int
  PullNumber : Int
  ReviewID : Option Int
  Author : String
  AuthorType : String
  AuthorIsBot : Bool
  Body : String
  Path : String
  Line : Option Int
  Side : String
  DiffHunk : String
  Reactions : Json
  CreatedAt : Time
  UpdatedAt : Time
  InReplyToID : Option Int
  RawJSON : Json

/-- Row of table `files`; the primary key is the pair of `PullNumber` and
`Filename`. -/
structure File where
  PullNumber : Int
  Filename : String
  Status : String
  Additions : Int
  Deletions : Int
  Patch : String
  RawJSON : Json

/-- Row of table `sync_metadata`. -/
structure SyncMetadata where
  Repo : String
  LastSyncAt : Time
  LastPRNumber : Int
  TotalPRs : Int
  OpenPRs : Int
  ClosedPRs : Int
deriving DecidableEq, Repr

/-- The patterns `Migrate` adds to table `bot_patterns`. -/
def seededBotPatterns : List String :=
  ["dependabot", "renovate", "snyk", "codecov", "github-actions", "vercel", "netlify"]

/-- The `Store`: the tables of the database behind `db`, rows in the order in
which they were inserted, and the bot patterns loaded when the store was
opened. `ticks` counts the readings of the wall clock recorded so far by the
program and by the database layer: the readings are `clock 0`, `clock 1`, … of
the clock the methods are given. -/
structure Store where
  botPatterns : List String
  pulls : List Pull
  reviews : List Review
  comments : List Comment
  files : List File
  syncMetadata : List SyncMetadata
  ticks : Nat

/-- The store `NewStore` opens on a new database file. -/
def Store.fresh : Store :=
  { botPatterns := seededBotPatterns, pulls := [], reviews := [], comments := [], files := [],
    syncMetadata := [], ticks := 0 }

/-- The write of gorm `db.Save(row)` for a row whose primary key `key` is set:
the row with that key is replaced (`UPDATE`), and the row is added when the
table has none (`INSERT`). -/
def dbSave {ρ κ : Type} [DecidableEq κ] (key : ρ → κ) (table : List ρ) (row : ρ) : List ρ :=
  if table.any (fun r => decide (key r = key row)) then
    table.map (fun r => if key r = key row then row else r)
  else
    table ++ [row]

/-- The key the database gives a row inserted without an `id` (the column is
`integer PRIMARY KEY AUTOINCREMENT`): one more than the largest in use, and 1
on a table that has none above zero. No method embedded here deletes a row, so
the largest key in use is the largest ever used. -/
def nextID (ids : List Int) : Int := ids.foldl max 0 + 1

/-- The error of gorm `First` when no row matches. -/
def ErrRecordNotFound : GoError := GoError.plain "record not found"

/-- The error of a write that breaks the unique index on `pulls.number`. -/
def ErrUniqueNumber : GoError := GoError.plain "UNIQUE constraint failed: pulls.number"

/-- The error of an insert of a file under a primary key in use. -/
def ErrUniqueFile : GoError :=
  GoError.plain "UNIQUE constraint failed: files.pull_number, files.filename"

/-- The error of an insert of a sync-metadata row under a primary key in use. -/
def ErrUniqueRepo : GoError := GoError.plain "UNIQUE constraint failed: sync_metadata.repo"

/-- The method `Store.isBot`. -/
def isBot (unicodeToLower : Char → Char) (s : Store) (username : String) : Bool :=
  let lowerUsername := strings.ToLower unicodeToLower username
  if s.botPatterns.any (fun pattern => strings.Contains lowerUsername pattern) then true
  else strings.HasSuffix lowerUsername "[bot]"

/-- The call `s.db.Save(cachePR)` on table `pulls`. gorm keeps the time stamps
of the fields named `CreatedAt` and `UpdatedAt` itself. With a zero `ID` the
row is inserted under a key the database chooses, a zero `CreatedAt` or
`UpdatedAt` set to the current time. With an `ID` that is set, `Save` first
updates the row of that key with every field of `row` and `UpdatedAt` set to
the current time, whatever `row.UpdatedAt` is; when no row has the key it
inserts the row so stamped, a zero `CreatedAt` set to the current time. A write
that would give two rows the same `Number` fails. -/
def savePull (clock : Nat → Time) (s : Store) (row : Pull) : Except GoError Store :=
  if row.ID = 0 then
    let curTime := clock s.ticks
    let created : Pull :=
      { row with
        ID := nextID (s.pulls.map fun r => r.ID)
        CreatedAt := if row.CreatedAt.IsZero then curTime else row.CreatedAt
        UpdatedAt := if row.UpdatedAt.IsZero then curTime else row.UpdatedAt }
    if s.pulls.any (fun r => decide (r.Number = row.Number)) then
      Except.error ErrUniqueNumber
    else
      Except.ok { s with pulls := s.pulls ++ [created], ticks := s.ticks + 1 }
  else
    let updated : Pull := { row with UpdatedAt := clock s.ticks }
    if s.pulls.any (fun r => decide (r.Number = row.Number ∧ r.ID ≠ row.ID)) then
      Except.error ErrUniqueNumber
    else if s.pulls.any (fun r => decide (r.ID = row.ID)) then
      Except.ok { s with pulls := dbSave (fun r => r.ID) s.pulls updated, ticks := s.ticks + 1 }
    else
      let created : Pull :=
        { updated with
          CreatedAt := if row.CreatedAt.IsZero then clock (s.ticks + 1) else row.CreatedAt }
      Except.ok { s with pulls := dbSave (fun r => r.ID) s.pulls created, ticks := s.ticks + 2 }

/-- The method `Store.SavePullRequest`; `clock` gives the readings of the wall
clock, the next one being `clock s.ticks`. `json.Marshal` fails on a time whose
year is outside 0..9999. -/
def SavePullRequest (unicodeToLower : Char → Char) (clock : Nat → Time) (s : Store)
    (pr : models.PullRequest) : Except GoError Store :=
  match pr.marshalError with
  | some err => Except.error (GoError.wrap "marshaling raw JSON: " err)
  | none =>
    let rawJSON := pr.marshal
    let assignees := Json.arr (pr.Assignees.map models.User.marshal)
    let reviewers := Json.arr (pr.RequestedReviewers.map models.User.marshal)
    let labels := Json.arr (pr.Labels.map models.Label.marshal)
    let cachePR : Pull :=
      { ID := pr.ID
        Number := pr.Number
        Title := pr.Title
        State := pr.State
        Author := pr.Author.Login
        AuthorType := pr.Author.Type_
        AuthorIsBot := isBot unicodeToLower s pr.Author.Login
        Assignees := assignees
        RequestedReviewers := reviewers
        Labels := labels
        CreatedAt := pr.CreatedAt
        UpdatedAt := pr.UpdatedAt
        MergedAt := pr.MergedAt
        LastFetchedAt := clock s.ticks
        RawJSON := rawJSON }
    savePull clock { s with ticks := s.ticks + 1 } cachePR

/-- The method `Store.SaveReview`. The table has no time stamp gorm keeps; a
review saved with a zero `ID` is inserted under a key the database chooses. -/
def SaveReview (unicodeToLower : Char → Char) (s : Store) (review : models.Review) :
    Except GoError Store :=
  match review.marshalError with
  | some err => Except.error (GoError.wrap "marshaling raw JSON: " err)
  | none =>
    let rawJSON := review.marshal
    let cacheReview : Review :=
      { ID := review.ID
        PullNumber := review.PullNumber
        Reviewer := review.Reviewer.Login
        ReviewerType := review.Reviewer.Type_
        ReviewerIsBot := isBot unicodeToLower s review.Reviewer.Login
        State := review.State
        SubmittedAt := review.SubmittedAt
        RawJSON := rawJSON }
    if cacheReview.ID = 0 then
      Except.ok { s with reviews := s.reviews ++
        [{ cacheReview with ID := nextID (s.reviews.map fun r => r.ID) }] }
    else
      Except.ok { s with reviews := dbSave (fun r => r.ID) s.reviews cacheReview }

/-- The text `json.Marshal` writes for a map that is not behind `omitempty`. -/
def marshalMap (m : Option GoMap) : Json :=
  match m with
  | none => Json.null
  | some entries => Json.obj (entries.map fun e => (e.1, Json.num e.2))

/-- The call `s.db.Save(cacheComment)` on table `comments`, whose fields
`CreatedAt` and `UpdatedAt` gorm stamps as it does those of `pulls`. -/
def saveComment (clock : Nat → Time) (s : Store) (row : Comment) : Store :=
  if row.ID = 0 then
    let curTime := clock s.ticks
    let created : Comment :=
      { row with
        ID := nextID (s.comments.map fun r => r.ID)
        CreatedAt := if row.CreatedAt.IsZero then curTime else row.CreatedAt
        UpdatedAt := if row.UpdatedAt.IsZero then curTime else row.UpdatedAt }
    { s with comments := s.comments ++ [created], ticks := s.ticks + 1 }
  else
    let updated : Comment := { row with UpdatedAt := clock s.ticks }
    if s.comments.any (fun r => decide (r.ID = row.ID)) then
      { s with comments := dbSave (fun r => r.ID) s.comments updated, ticks := s.ticks + 1 }
    else
      let created : Comment :=
        { updated with
          CreatedAt := if row.CreatedAt.IsZero then clock (s.ticks + 1) else row.CreatedAt }
      { s with comments := dbSave (fun r => r.ID) s.comments created, ticks := s.ticks + 2 }

/-- The method `Store.SaveComment`. -/
def SaveComment (unicodeToLower : Char → Char) (clock : Nat → Time) (s : Store)
    (comment : models.Comment) : Except GoError Store :=
  match comment.marshalError with
  | some err => Except.error (GoError.wrap "marshaling raw JSON: " err)
  | none =>
    let rawJSON := comment.marshal
    let reactions := marshalMap comment.Reactions
    let cacheComment : Comment :=
      { ID := comment.ID
        PullNumber := comment.PullNumber
        ReviewID := comment.ReviewID
        Author := comment.Author.Login
        AuthorType := comment.Author.Type_
        AuthorIsBot := isBot unicodeToLower s comment.Author.Login
        Body := comment.Body
        Path := comment.Path
        Line := comment.Line
        Side := comment.Side
        DiffHunk := comment.DiffHunk
        Reactions := reactions
        CreatedAt := comment.CreatedAt
        UpdatedAt := comment.UpdatedAt
        InReplyToID := comment.InReplyToID
        RawJSON := rawJSON }
    Except.ok (saveComment clock s cacheComment)

/-- The method `Store.SaveFile`. `json.Marshal` of a file, which holds no time,
does not fail. A file whose `PullNumber` is zero or whose `Filename` is empty
has a zero primary-key field: `Save` inserts it, and the insert fails when the
key is in use. -/
def SaveFile (s : Store) (file : models.File) : Except GoError Store :=
  let rawJSON := file.marshal
  let cacheFile : File :=
    { PullNumber := file.PullNumber
      Filename := file.Filename
      Status := file.Status
      Additions := file.Additions
      Deletions := file.Deletions
      Patch := file.Patch
      RawJSON := rawJSON }
  if cacheFile.PullNumber = 0 ∨ cacheFile.Filename = "" then
    if s.files.any (fun r => decide ((r.PullNumber, r.Filename)
        = (cacheFile.PullNumber, cacheFile.Filename))) then
      Except.error ErrUniqueFile
    else Except.ok { s with files := s.files ++ [cacheFile] }
  else
    Except.ok { s with files := dbSave (fun r => (r.PullNumber, r.Filename)) s.files cacheFile }

/-- The loop of the `Get*` methods over the rows found: each `RawJSON` is
unmarshalled, and the first row that fails gives the error of the call. -/
def decodeRows {ρ α : Type} (raw : ρ → Json) (unmarshal : Json → Option α)
    (errFor : ρ → GoError) : List ρ → Except GoError (List α)
  | [] => Except.ok []
  | row :: rest =>
    match unmarshal (raw row) with
    | none => Except.error (errFor row)
    | some a =>
      match decodeRows raw unmarshal errFor rest with
      | Except.error e => Except.error e
      | Except.ok as => Except.ok (a :: as)

/-- The rows of `pulls` as a scan of the table meets them: by ascending
primary key. -/
def scanPulls (s : Store) : List Pull := s.pulls.insertionSort (fun a b => a.ID ≤ b.ID)

/-- The method `Store.GetPullRequest`. `First` takes the row of least primary
key among those with the number; the unique index leaves at most one. -/
def GetPullRequest (s : Store) (number : Int) : Except GoError models.PullRequest :=
  match (scanPulls s).find? (fun r => decide (r.Number = number)) with
  | none => Except.error ErrRecordNotFound
  | some pull =>
    match models.PullRequest.unmarshal pull.RawJSON with
    | none => Except.error (GoError.wrap "unmarshaling PR: " jsonError)
    | some pr => Except.ok pr

/-- The method `Store.GetPullRequests`: the rows ordered by column `updated_at`
descending, those whose `updated_at` is before `since` left out when `since` is
not the zero time. Rows of equal `updated_at` come in the order of the scan. -/
def GetPullRequests (s : Store) (_repo : String) (since : Time) :
    Except GoError (List models.PullRequest) :=
  let ordered := (scanPulls s).insertionSort (fun a b => b.UpdatedAt.nanos ≤ a.UpdatedAt.nanos)
  let pulls := if !since.IsZero then ordered.filter (fun r => !r.UpdatedAt.Before since)
               else ordered
  decodeRows (fun r => r.RawJSON) models.PullRequest.unmarshal
    (fun r => GoError.wrap ("unmarshaling PR " ++ Itoa r.Number ++ ": ") jsonError) pulls

/-- The method `Store.GetReviews`: the rows of the pull request, which the
query, having no `ORDER BY`, returns by ascending primary key. -/
def GetReviews (s : Store) (prNumber : Int) : Except GoError (List models.Review) :=
  decodeRows (fun r => r.RawJSON) models.Review.unmarshal
    (fun r => GoError.wrap ("unmarshaling review " ++ Itoa r.ID ++ ": ") jsonError)
    ((s.reviews.filter (fun r => decide (r.PullNumber = prNumber))).insertionSort
      (fun a b => a.ID ≤ b.ID))

/-- The method `Store.GetComments`: the rows of the pull request ordered by
`created_at`, rows of equal `created_at` by ascending primary key. -/
def GetComments (s : Store) (prNumber : Int) : Except GoError (List models.Comment) :=
  decodeRows (fun r => r.RawJSON) models.Comment.unmarshal
    (fun r => GoError.wrap ("unmarshaling comment " ++ Itoa r.ID ++ ": ") jsonError)
    (((s.comments.filter (fun r => decide (r.PullNumber = prNumber))).insertionSort
      (fun a b => a.ID ≤ b.ID)).insertionSort
      (fun a b => a.CreatedAt.nanos ≤ b.CreatedAt.nanos))

/-- The method `Store.GetFiles`: the rows of the pull request, returned by
ascending primary key, that is by `filename` in byte order. -/
def GetFiles (s : Store) (prNumber : Int) : Except GoError (List models.File) :=
  decodeRows (fun r => r.RawJSON) models.File.unmarshal
    (fun r => GoError.wrap ("unmarshaling file " ++ r.Filename ++ ": ") jsonError)
    ((s.files.filter (fun r => decide (r.PullNumber = prNumber))).insertionSort
      (fun a b => a.Filename ≤ b.Filename))

/-- The method `Store.SaveSyncMetadata`. A row with an empty `Repo` has a zero
primary key: `Save` inserts it, and the insert fails when the key is in use. -/
def SaveSyncMetadata (s : Store) (meta : models.SyncMetadata) : Except GoError Store :=
  let cacheMeta : SyncMetadata :=
    { Repo := meta.Repo
      LastSyncAt := meta.LastSyncAt
      LastPRNumber := meta.LastPRNumber
      TotalPRs := meta.TotalPRs
      OpenPRs := meta.OpenPRs
      ClosedPRs := meta.ClosedPRs }
  if cacheMeta.Repo = "" then
    if s.syncMetadata.any (fun r => decide (r.Repo = cacheMeta.Repo)) then
      Except.error ErrUniqueRepo
    else Except.ok { s with syncMetadata := s.syncMetadata ++ [cacheMeta] }
  else
    Except.ok { s with syncMetadata := dbSave (fun r => r.Repo) s.syncMetadata cacheMeta }

/-- Every row of `reviews`, `comments` and `files` holds in `RawJSON` a text
that `json.Unmarshal` accepts, as every row written by the `Save*` methods
does. -/
def Store.Readable (s : Store) : Prop :=
  (∀ r ∈ s.reviews, (models.Review.unmarshal r.RawJSON).isSome = true) ∧
  (∀ r ∈ s.comments, (models.Comment.unmarshal r.RawJSON).isSome = true) ∧
  (∀ r ∈ s.files, (models.File.unmarshal r.RawJSON).isSome = true)

/-- The method `Store.GetSyncMetadata`: `nil` without error when the
repository has no row. -/
def GetSyncMetadata (s : Store) (repo : String) : Except GoError (Option models.SyncMetadata) :=
  match s.syncMetadata.find? (fun r => decide (r.Repo = repo)) with
  | none => Except.ok none
  | some row =>
    Except.ok (some
      { Repo := row.Repo
        LastSyncAt := row.LastSyncAt
        LastPRNumber := row.LastPRNumber
        TotalPRs := row.TotalPRs
        OpenPRs := row.OpenPRs
        ClosedPRs := row.ClosedPRs })

end cache

/-! ## The GitHub API, as the library `go-github` presents it -/

namespace http

/-- The part of a `*http.Response` the program reads. -/
structure Response where
  StatusCode : Int
deriving DecidableEq, Repr

end http

namespace gogithub

set_option linter.dupNamespace false in
/-- A `*github.Response`: the embedded `*http.Response` and the number of the
next page, `0` when there is none. -/
structure Response where
  Response : Option http.Response
  NextPage : Nat
deriving DecidableEq, Repr

/-- What a list call returns: the items, the response (`nil` when no HTTP
response was received) and the error (`nil` on success). -/
structure ListResult (α : Type) where
  items : List α
  resp : Option Response
  err : Option GoError

/-- What a get call returns. -/
structure GetResult (α : Type) where
  item : α
  resp : Option Response
  err : Option GoError

/-! The payload types. A field the program reads through a `Get…` accessor
holds the value the accessor returns (the zero value for an absent field); a
pointer the program tests against `nil` is an `Option`. The program
dereferences `pr.Number` and `pr.UpdatedAt` of a listed pull request without a
test: the list endpoint always sends both, and both are held as values. -/

structure User where
  Login : String
  Type_ : String
deriving DecidableEq, Repr

structure Label where
  Name : String
  Color : String
deriving DecidableEq, Repr

structure PullRequest where
  ID : Int
  Number : Int
  Title : String
  State : String
  CreatedAt : Time
  UpdatedAt : Time
  MergedAt : Option Time
  Additions : Int
  Deletions : Int
  ChangedFiles : Int
  Comments : Int
  ReviewComments : Int
  Assignees : List User
  RequestedReviewers : List User
  Labels : List Label
  User : Option User
deriving DecidableEq, Repr

structure PullRequestReview where
  ID : Int
  State : String
  Body : String
  SubmittedAt : Time
  User : Option User
deriving DecidableEq, Repr

structure Reactions where
  PlusOne : Int
  MinusOne : Int
  Laugh : Int
  Confused : Int
  Heart : Int
  Hooray : Int
  Rocket : Int
  Eyes : Int
deriving DecidableEq, Repr

structure IssueComment where
  ID : Int
  Body : String
  CreatedAt : Time
  UpdatedAt : Time
  Reactions : Option Reactions
  User : Option User
deriving DecidableEq, Repr

structure PullRequestComment where
  ID : Int
  Body : String
  Path : String
  DiffHunk : String
  CreatedAt : Time
  UpdatedAt : Time
  Reactions : Option Reactions
  Line : Option Int
  Side : Option String
  InReplyTo : Option Int
  PullRequestReviewID : Option Int
  User : Option User
deriving DecidableEq, Repr

structure CommitFile where
  Filename : String
  Status : String
  Additions : Int
  Deletions : Int
  Patch : String
deriving DecidableEq, Repr

/-- The endpoints the client calls, each a function of the arguments of the
call (for a list call the last argument is `opts.Page`). The repository does
not change while a fetch runs. -/
structure Api where
  ListPullRequests : Nat → ListResult PullRequest
  GetPullRequest : Int → GetResult PullRequest
  ListReviews : Int → Nat → ListResult PullRequestReview
  ListIssueComments : Int → Nat → ListResult IssueComment
  ListReviewComments : Int → Nat → ListResult PullRequestComment
  ListFiles : Int → Nat → ListResult CommitFile

/-- Asked for page number `page`, and then for each `NextPage` in turn, the
list endpoint `list` answers without error with the pages `pages`, in this
order, and announces no further page after the last. -/
inductive Serves {α : Type} (list : Nat → ListResult α) : Nat → List (List α) → Prop where
  | last (page : Nat) (items : List α) (r : Option http.Response)
      (h : list page = { items := items, resp := some { Response := r, NextPage := 0 },
                         err := none }) :
      Serves list page [items]
  | more (page next : Nat) (items : List α) (rest : List (List α)) (r : Option http.Response)
      (h : list page = { items := items, resp := some { Response := r, NextPage := next },
                         err := none })
      (hnext : next ≠ 0) (hrest : Serves list next rest) :
      Serves list page (items :: rest)

end gogithub

/-! ## Package `internal/github` -/

namespace github

open cache

/-- The fields of `Client` read by the embedded methods. -/
structure Client where
  owner : String
  repo : String
deriving DecidableEq, Repr

/-- How a call of a method returning `error` ends. -/
inductive Exit where
  | nil
  | err (e : GoError)
  | panicked
deriving DecidableEq, Repr

/-- The method `Client.GetRepository`. -/
def GetRepository (c : Client) : String := c.owner ++ "/" ++ c.repo

/-- The method `Client.handleError`; `resp` is the `*http.Response`. -/
def handleError (c : Client) (err : GoError) (resp : Option http.Response) : GoError :=
  match resp with
  | some r =>
    if r.StatusCode = 401 then
      GoError.plain "GitHub authentication failed: please check your token"
    else if r.StatusCode = 403 then
      GoError.plain "GitHub API rate limit exceeded or forbidden access"
    else if r.StatusCode = 404 then
      GoError.plain ("repository not found: " ++ c.owner ++ "/" ++ c.repo)
    else
      GoError.wrap "GitHub API error: " err
  | none => GoError.wrap "GitHub API error: " err

/-- The conversion of a `*github.User` the converters share. -/
def convertUser (u : gogithub.User) : models.User :=
  { Login := u.Login, Type_ := u.Type_, IsBot := false }

/-- The method `Client.convertPullRequest`. -/
def convertPullRequest (pr : gogithub.PullRequest) : models.PullRequest :=
  { ID := pr.ID
    Number := pr.Number
    Title := pr.Title
    State := pr.State
    CreatedAt := pr.CreatedAt
    UpdatedAt := pr.UpdatedAt
    Stats :=
      { Additions := pr.Additions
        Deletions := pr.Deletions
        ChangedFiles := pr.ChangedFiles
        Comments := pr.Comments
        ReviewComments := pr.ReviewComments
        Reviews := 0 }
    MergedAt := pr.MergedAt
    Author :=
      match pr.User with
      | some u => convertUser u
      | none => models.User.zero
    Assignees := pr.Assignees.map convertUser
    RequestedReviewers := pr.RequestedReviewers.map convertUser
    Labels := pr.Labels.map fun label => { Name := label.Name, Color := label.Color }
    Files := []
    Reviews := []
    Comments := [] }

/-- The method `Client.convertReview`. -/
def convertReview (review : gogithub.PullRequestReview) (prNumber : Int) : models.Review :=
  { ID := review.ID
    PullNumber := prNumber
    State := review.State
    Body := review.Body
    SubmittedAt := review.SubmittedAt
    Reviewer :=
      match review.User with
      | some u => convertUser u
      | none => models.User.zero }

/-- The method `Client.convertFile`. -/
def convertFile (file : gogithub.CommitFile) (prNumber : Int) : models.File :=
  { PullNumber := prNumber
    Filename := file.Filename
    Status := file.Status
    Additions := file.Additions
    Deletions := file.Deletions
    Patch := file.Patch }

/-- The statement `if count > 0 { result[kind] = count }` of `convertReactions`. -/
def addReaction (result : GoMap) (kind : String) (count : Int) : GoMap :=
  if count > 0 then result.set kind count else result

/-- The method `Client.convertReactions`. -/
def convertReactions (reactions : Option gogithub.Reactions) : Option GoMap :=
  match reactions with
  | none => none
  | some r =>
    let result : GoMap := []
    let result := addReaction result "+1" r.PlusOne
    let result := addReaction result "-1" r.MinusOne
    let result := addReaction result "laugh" r.Laugh
    let result := addReaction result "confused" r.Confused
    let result := addReaction result "heart" r.Heart
    let result := addReaction result "hooray" r.Hooray
    let result := addReaction result "rocket" r.Rocket
    let result := addReaction result "eyes" r.Eyes
    if result.length = 0 then none else some result

/-- The reaction kinds, each with the field of the payload that holds its
count. -/
def reactionKinds : List (String × (gogithub.Reactions → Int)) :=
  [("+1", fun r => r.PlusOne), ("-1", fun r => r.MinusOne), ("laugh", fun r => r.Laugh),
   ("confused", fun r => r.Confused), ("heart", fun r => r.Heart),
   ("hooray", fun r => r.Hooray), ("rocket", fun r => r.Rocket), ("eyes", fun r => r.Eyes)]

/-- The method `Client.convertIssueComment`. -/
def convertIssueComment (comment : gogithub.IssueComment) (prNumber : Int) : models.Comment :=
  { ID := comment.ID
    PullNumber := prNumber
    Body := comment.Body
    CreatedAt := comment.CreatedAt
    UpdatedAt := comment.UpdatedAt
    Reactions := convertReactions comment.Reactions
    Author :=
      match comment.User with
      | some u => convertUser u
      | none => models.User.zero
    ReviewID := none
    Path := ""
    Line := none
    Side := ""
    DiffHunk := ""
    InReplyToID := none }

/-- The method `Client.convertReviewComment`. -/
def convertReviewComment (comment : gogithub.PullRequestComment) (prNumber : Int) :
    models.Comment :=
  { ID := comment.ID
    PullNumber := prNumber
    Body := comment.Body
    Path := comment.Path
    DiffHunk := comment.DiffHunk
    CreatedAt := comment.CreatedAt
    UpdatedAt := comment.UpdatedAt
    Reactions := convertReactions comment.Reactions
    Line := comment.Line
    Side :=
      match comment.Side with
      | some side => side
      | none => ""
    InReplyToID := comment.InReplyTo
    ReviewID := comment.PullRequestReviewID
    Author :=
      match comment.User with
      | some u => convertUser u
      | none => models.User.zero }

/-- An error return with `fmt.Errorf(msg + "%w", err)` around the error of a
callee; a nil return and a panic pass through. -/
def Exit.wrap (msg : String) : Exit → Exit
  | Exit.nil => Exit.nil
  | Exit.err e => Exit.err (GoError.wrap msg e)
  | Exit.panicked => Exit.panicked

/-- The loop `for _, item := range items` of the detail fetchers: each item is
saved by `save`; a save that fails ends the fetch with the error wrapped after
`describe item`. -/
def saveEach {α : Type} (save : Store → α → Except GoError Store) (describe : α → String) :
    Store → List α → Store × Option GoError
  | s, [] => (s, none)
  | s, item :: rest =>
    match save s item with
    | Except.error e => (s, some (GoError.wrap (describe item) e))
    | Except.ok s1 => saveEach save describe s1 rest

/-- The loop `for { … }` over the pages of a list endpoint, as written in
`FetchReviews`, `fetchIssueComments`, `fetchReviewComments` and `FetchFiles`.
`list` is the list call as a function of `opts.Page`; the first argument
bounds the number of iterations, and `none` is a loop that has not ended
within the bound. Reading `resp.Response` or `resp.NextPage` of a nil `resp`
panics. -/
def fetchPages {α : Type} (c : Client) (list : Nat → gogithub.ListResult α)
    (save : Store → α → Except GoError Store) (describe : α → String) :
    Nat → Nat → Store → Option (Store × Exit)
  | 0, _, _ => none
  | fuel + 1, page, s =>
    match (list page).err with
    | some err =>
      match (list page).resp with
      | none => some (s, Exit.panicked)
      | some resp => some (s, Exit.err (handleError c err resp.Response))
    | none =>
      match saveEach save describe s (list page).items with
      | (s1, some e) => some (s1, Exit.err e)
      | (s1, none) =>
        match (list page).resp with
        | none => some (s1, Exit.panicked)
        | some resp =>
          if resp.NextPage = 0 then some (s1, Exit.nil)
          else fetchPages c list save describe fuel resp.NextPage s1

/-- The method `Client.FetchReviews`. -/
def FetchReviews (api : gogithub.Api) (c : Client) (unicodeToLower : Char → Char) (fuel : Nat)
    (prNumber : Int) (s : Store) : Option (Store × Exit) :=
  fetchPages c (api.ListReviews prNumber)
    (fun s review => SaveReview unicodeToLower s (convertReview review prNumber))
    (fun review => "saving review " ++ Itoa review.ID ++ ": ") fuel 0 s

/-- The method `Client.fetchIssueComments`. -/
def fetchIssueComments (api : gogithub.Api) (c : Client) (unicodeToLower : Char → Char)
    (clock : Nat → Time) (fuel : Nat) (prNumber : Int) (s : Store) : Option (Store × Exit) :=
  fetchPages c (api.ListIssueComments prNumber)
    (fun s comment => SaveComment unicodeToLower clock s (convertIssueComment comment prNumber))
    (fun comment => "saving comment " ++ Itoa comment.ID ++ ": ") fuel 0 s

/-- The method `Client.fetchReviewComments`. -/
def fetchReviewComments (api : gogithub.Api) (c : Client) (unicodeToLower : Char → Char)
    (clock : Nat → Time) (fuel : Nat) (prNumber : Int) (s : Store) : Option (Store × Exit) :=
  fetchPages c (api.ListReviewComments prNumber)
    (fun s comment => SaveComment unicodeToLower clock s (convertReviewComment comment prNumber))
    (fun comment => "saving review comment " ++ Itoa comment.ID ++ ": ") fuel 0 s

/-- The method `Client.FetchFiles`. -/
def FetchFiles (api : gogithub.Api) (c : Client) (fuel : Nat) (prNumber : Int) (s : Store) :
    Option (Store × Exit) :=
  fetchPages c (api.ListFiles prNumber)
    (fun s file => SaveFile s (convertFile file prNumber))
    (fun file => "saving file " ++ file.Filename ++ ": ") fuel 0 s

/-- Two steps in a row: the second runs when the first returned nil; an error
of either is returned wrapped after its message. -/
def thenFetch (first : Option (Store × Exit)) (firstMsg : String)
    (second : Store → Option (Store × Exit)) (secondMsg : String) : Option (Store × Exit) :=
  match first with
  | none => none
  | some (s1, Exit.nil) =>
    match second s1 with
    | none => none
    | some (s2, e) => some (s2, e.wrap secondMsg)
  | some (s1, e) => some (s1, e.wrap firstMsg)

/-- The method `Client.FetchComments`. -/
def FetchComments (api : gogithub.Api) (c : Client) (unicodeToLower : Char → Char)
    (clock : Nat → Time) (fuel : Nat) (prNumber : Int) (s : Store) : Option (Store × Exit) :=
  thenFetch (fetchIssueComments api c unicodeToLower clock fuel prNumber s) "fetching issue comments: "
    (fun s1 => fetchReviewComments api c unicodeToLower clock fuel prNumber s1)
    "fetching review comments: "

/-- The method `Client.fetchPRDetails`. -/
def fetchPRDetails (api : gogithub.Api) (c : Client) (unicodeToLower : Char → Char)
    (clock : Nat → Time) (fuel : Nat) (number : Int) (s : Store) : Option (Store × Exit) :=
  match FetchReviews api c unicodeToLower fuel number s with
  | none => none
  | some (s1, Exit.nil) =>
    thenFetch (FetchComments api c unicodeToLower clock fuel number s1) "fetching comments: "
      (fun s2 => FetchFiles api c fuel number s2) "fetching files: "
  | some (s1, e) => some (s1, e.wrap "fetching reviews: ")

/-- The state a fetch works on: the store, and two records of what the fetch
has done so far, the number of `PullRequests.List` calls made and the pull
requests `SavePullRequest` has saved, oldest first. -/
structure Run where
  store : Store
  listCalls : Nat
  saved : List models.PullRequest

/-- The loop `for i, pr := range prs` of `FetchPullRequests` over one page.
The second component is `none` when the loop ran to its end and `some e` when
the method returned from inside the loop. -/
def fetchListed (api : gogithub.Api) (c : Client) (unicodeToLower : Char → Char)
    (clock : Nat → Time)
    (fuel : Nat) (since : Time) : List gogithub.PullRequest → Run → Option (Run × Option Exit)
  | [], run => some (run, none)
  | pr :: rest, run =>
    if !since.IsZero && pr.UpdatedAt.Before since then
      some (run, some Exit.nil)
    else
      let pullRequest := convertPullRequest pr
      match SavePullRequest unicodeToLower clock run.store pullRequest with
      | Except.error e =>
        some (run, some (Exit.err (GoError.wrap ("saving PR " ++ Itoa pr.Number ++ ": ") e)))
      | Except.ok s1 =>
        match fetchPRDetails api c unicodeToLower clock fuel pr.Number s1 with
        | none => none
        | some (s2, Exit.nil) =>
          fetchListed api c unicodeToLower clock fuel since rest
            { store := s2, listCalls := run.listCalls, saved := run.saved ++ [pullRequest] }
        | some (s2, e) =>
          some ({ store := s2, listCalls := run.listCalls, saved := run.saved ++ [pullRequest] },
            some (e.wrap ("fetching details for PR " ++ Itoa pr.Number ++ ": ")))

/-- The loop `for { … }` of `FetchPullRequests` over the pages of the list
endpoint. The first argument bounds the number of iterations; the second is
`opts.Page`. The second component of the result is `none` when the loop ended
by `break`. -/
def fetchListPages (api : gogithub.Api) (c : Client) (unicodeToLower : Char → Char)
    (clock : Nat → Time)
    (fuel : Nat) (since : Time) : Nat → Nat → Run → Option (Run × Option Exit)
  | 0, _, _ => none
  | bound + 1, page, run =>
    let called : Run := { run with listCalls := run.listCalls + 1 }
    match (api.ListPullRequests page).err with
    | some err =>
      match (api.ListPullRequests page).resp with
      | none => some (called, some Exit.panicked)
      | some resp => some (called, some (Exit.err (handleError c err resp.Response)))
    | none =>
      match fetchListed api c unicodeToLower clock fuel since (api.ListPullRequests page).items
          called with
      | none => none
      | some (run1, some e) => some (run1, some e)
      | some (run1, none) =>
        match (api.ListPullRequests page).resp with
        | none => some (run1, some Exit.panicked)
        | some resp =>
          if resp.NextPage = 0 then some (run1, none)
          else fetchListPages api c unicodeToLower clock fuel since bound resp.NextPage run1

/-- The method `Client.fetchSinglePR`. -/
def fetchSinglePR (api : gogithub.Api) (c : Client) (unicodeToLower : Char → Char)
    (clock : Nat → Time)
    (fuel : Nat) (number : Int) (run : Run) : Option (Run × Exit) :=
  match (api.GetPullRequest number).err with
  | some err =>
    match (api.GetPullRequest number).resp with
    | none => some (run, Exit.panicked)
    | some resp => some (run, Exit.err (handleError c err resp.Response))
  | none =>
    let pullRequest := convertPullRequest (api.GetPullRequest number).item
    match SavePullRequest unicodeToLower clock run.store pullRequest with
    | Except.error e =>
      some (run, Exit.err (GoError.wrap ("saving PR " ++ Itoa number ++ ": ") e))
    | Except.ok s1 =>
      match fetchPRDetails api c unicodeToLower clock fuel number s1 with
      | none => none
      | some (s2, e) =>
        some ({ store := s2, listCalls := run.listCalls, saved := run.saved ++ [pullRequest] }, e)

/-- The method `Client.FetchPullRequests`. `clock` gives the readings of the
wall clock; `fuel` bounds the iterations of each `for { … }` loop, and the
result is `none` when a loop has not ended within the bound. -/
def FetchPullRequests (api : gogithub.Api) (c : Client) (unicodeToLower : Char → Char)
    (clock : Nat → Time) (fuel : Nat) (since : Time) (prNumber : Int) (run : Run) :
    Option (Run × Exit) :=
  if prNumber > 0 then
    fetchSinglePR api c unicodeToLower clock fuel prNumber run
  else
    match fetchListPages api c unicodeToLower clock fuel since fuel 0 run with
    | none => none
    | some (run1, some e) => some (run1, e)
    | some (run1, none) =>
      let meta : models.SyncMetadata :=
        { Repo := GetRepository c, LastSyncAt := clock run1.store.ticks, LastPRNumber := 0,
          TotalPRs := 0, OpenPRs := 0, ClosedPRs := 0 }
      match SaveSyncMetadata { run1.store with ticks := run1.store.ticks + 1 } meta with
      | Except.error e => some (run1, Exit.err e)
      | Except.ok s => some ({ run1 with store := s }, Exit.nil)

/-- A pull-request number names one pull request: a row of table `pulls` and
a listed pull request with the same number have the same id, and so have two
listed pull requests with the same number. -/
def NumbersAgree (table : List Pull) (prs : List gogithub.PullRequest) : Prop :=
  (∀ r ∈ table, ∀ p ∈ prs, r.Number = p.Number → r.ID = p.ID) ∧
  (∀ p ∈ prs, ∀ q ∈ prs, p.Number = q.Number → p.ID = q.ID)

/-- The pull requests of a stream that come before the first one updated
strictly before `since`. -/
def beforeStale (since : Time) (prs : List gogithub.PullRequest) : List gogithub.PullRequest :=
  prs.takeWhile fun pr => decide (since.nanos ≤ pr.UpdatedAt.nanos)

/-- Table `pulls` was `before` and is `after`, and what lies between is the
saving of the pull requests `prs` and of nothing else: every row of `after` was
in `before` or holds one of `prs` (its id, its number and its JSON text); every
pull request of `prs` has a row under its id, holding a pull request of `prs`
with that id; and the rows of `before` under another id are still there. -/
def Persisted (before after : List Pull) (prs : List gogithub.PullRequest) : Prop :=
  (∀ r ∈ after, r ∈ before ∨ ∃ pr ∈ prs, r.ID = pr.ID ∧ r.Number = pr.Number ∧
    r.RawJSON = (convertPullRequest pr).marshal) ∧
  (∀ pr ∈ prs, ∃ r ∈ after, r.ID = pr.ID ∧ ∃ q ∈ prs, q.ID = pr.ID ∧ r.Number = q.Number ∧
    r.RawJSON = (convertPullRequest q).marshal) ∧
  (∀ r ∈ before, (∀ pr ∈ prs, pr.ID ≠ r.ID) → r ∈ after)

end github

/-! ## Package `internal/export` -/

namespace exporter

/-- The two meanings Go gives to the variable of a `for … range` statement:
one variable for the whole loop (language versions before 1.22), or a new
variable in each iteration (from 1.22 on). The language version is set by the
`go` directive of the module file, which is not among the sources. -/
inductive LoopVar where
  | perLoop
  | perIteration
deriving DecidableEq, Repr

/-- The value read, once the loop over `items` has ended, through a pointer
into the loop variable taken in the iteration over `current`: the item of that
iteration when each iteration has its own variable, the last item of the
slice when all iterations share one. -/
def rangeVarAfterLoop {α : Type} (loopVar : LoopVar) (items : List α) (current : α) : α :=
  match loopVar with
  | LoopVar.perIteration => current
  | LoopVar.perLoop => items.getLast?.getD current

/-- The struct `ExportComment`. `UpdatedAt` is a `*time.Time`: `none` is the
nil pointer, `some t` a pointer through which `t` is read when the exported
comments are marshalled. -/
structure ExportComment where
  Type_ : String
  PRNumber : Int
  CommentID : Int
  Author : models.User
  Body : String
  FilePath : String
  Line : Option Int
  Side : String
  CodeContext : Option models.CodeContext
  Reactions : Option GoMap
  CreatedAt : Time
  UpdatedAt : Option Time
deriving DecidableEq, Repr

/-- The fields of `JSONLExporter`. -/
structure JSONLExporter where
  filename : String
  includeDiffs : Bool
deriving DecidableEq, Repr

/-- Members written for a `[]string` field tagged `omitempty`. -/
def omitEmptyStrings (k : String) (items : List String) : List (String × Json) :=
  omitEmptyArr k (items.map Json.str)

/-- `json.Marshal` of a `models.CodeContext`, following its struct tags. -/
def marshalCodeContext (cc : models.CodeContext) : Json :=
  Json.obj ([("diff_hunk", Json.str cc.DiffHunk)]
    ++ omitEmptyStrings "before_lines" cc.BeforeLines
    ++ omitEmptyStr "target_line" cc.TargetLine
    ++ omitEmptyStrings "after_lines" cc.AfterLines)

/-- Members written for the `*models.CodeContext` field tagged `omitempty`. -/
def omitEmptyCodeContext (k : String) (p : Option models.CodeContext) : List (String × Json) :=
  match p with
  | none => []
  | some cc => [(k, marshalCodeContext cc)]

/-- `json.Marshal` of an `ExportComment`, following its struct tags. -/
def ExportComment.marshal (c : ExportComment) : Json :=
  Json.obj ([("type", Json.str c.Type_), ("pr_number", Json.num c.PRNumber),
    ("comment_id", Json.num c.CommentID), ("author", c.Author.marshal),
    ("body", Json.str c.Body)]
    ++ omitEmptyStr "file_path" c.FilePath
    ++ omitEmptyPtrInt "line" c.Line
    ++ omitEmptyStr "side" c.Side
    ++ omitEmptyCodeContext "code_context" c.CodeContext
    ++ omitEmptyMap "reactions" c.Reactions
    ++ [("created_at", Json.time c.CreatedAt)]
    ++ omitEmptyPtrTime "updated_at" c.UpdatedAt)

/-- The method `JSONLExporter.getCommentType`. -/
def getCommentType (_e : JSONLExporter) (comment : models.Comment) : String :=
  if comment.Path ≠ "" then "code_comment" else "issue_comment"

/-- The body of the loop of `transformComments` for the iteration over
`comment`, in a loop over `comments`. -/
def transformComment (loopVar : LoopVar) (e : JSONLExporter) (comments : List models.Comment)
    (comment : models.Comment) : ExportComment :=
  let exportComment : ExportComment :=
    { Type_ := getCommentType e comment
      PRNumber := comment.PullNumber
      CommentID := comment.ID
      Author := comment.Author
      Body := comment.Body
      CreatedAt := comment.CreatedAt
      Reactions := comment.Reactions
      FilePath := ""
      Line := none
      Side := ""
      CodeContext := none
      UpdatedAt := none }
  let exportComment :=
    if comment.Path ≠ "" then
      let withPath :=
        { exportComment with FilePath := comment.Path, Line := comment.Line, Side := comment.Side }
      if e.includeDiffs && decide (comment.DiffHunk ≠ "") then
        { withPath with
          CodeContext := some { DiffHunk := comment.DiffHunk, BeforeLines := [], TargetLine := "",
                                AfterLines := [] } }
      else withPath
    else exportComment
  if !comment.UpdatedAt.Equal comment.CreatedAt then
    { exportComment with
      UpdatedAt := some (rangeVarAfterLoop loopVar comments comment).UpdatedAt }
  else exportComment

/-- The method `JSONLExporter.transformComments`. The assignment
`exportComment.UpdatedAt = &comment.UpdatedAt` stores a pointer into the loop
variable `comment`. -/
def transformComments (loopVar : LoopVar) (e : JSONLExporter) (comments : List models.Comment) :
    List ExportComment :=
  comments.map (transformComment loopVar e comments)

end exporter

/-! ## Sample inputs -/

namespace sample

/-- A page with no item and no further page. -/
def emptyPage {α : Type} : gogithub.ListResult α :=
  { items := [], resp := some { Response := some { StatusCode := 200 }, NextPage := 0 },
    err := none }

/-- A listed pull request of user `login` with number `number`, last updated
at instant `updatedAt`. -/
def pull (number updatedAt : Int) (login : String) : gogithub.PullRequest :=
  { ID := 1000 + number, Number := number, Title := "Fix", State := "open", CreatedAt := ⟨1⟩,
    UpdatedAt := ⟨updatedAt⟩, MergedAt := none, Additions := 3, Deletions := 1,
    ChangedFiles := 1, Comments := 0, ReviewComments := 0, Assignees := [],
    RequestedReviewers := [], Labels := [], User := some { Login := login, Type_ := "User" } }

/-- A repository with five pull requests, listed on three pages in the order
of their update times 30, 10 | 5, 40 | 50, and with no review, comment or
file. -/
def api : gogithub.Api :=
  { ListPullRequests := fun page =>
      if page = 0 then
        { items := [pull 1 30 "octocat", pull 2 10 "octocat"],
          resp := some { Response := some { StatusCode := 200 }, NextPage := 2 }, err := none }
      else if page = 2 then
        { items := [pull 3 5 "octocat", pull 4 40 "octocat"],
          resp := some { Response := some { StatusCode := 200 }, NextPage := 3 }, err := none }
      else
        { items := [pull 5 50 "octocat"],
          resp := some { Response := some { StatusCode := 200 }, NextPage := 0 }, err := none }
    GetPullRequest := fun number =>
      { item := pull number 30 "octocat",
        resp := some { Response := some { StatusCode := 200 }, NextPage := 0 }, err := none }
    ListReviews := fun _ _ => emptyPage
    ListIssueComments := fun _ _ => emptyPage
    ListReviewComments := fun _ _ => emptyPage
    ListFiles := fun _ _ => emptyPage }

/-- The pages `api` lists. -/
def pages : List (List gogithub.PullRequest) :=
  [[pull 1 30 "octocat", pull 2 10 "octocat"], [pull 3 5 "octocat", pull 4 40 "octocat"],
   [pull 5 50 "octocat"]]

def client : github.Client := { owner := "octo", repo := "demo" }

/-- A wall clock that shows the instant `1000 + n` at its reading number `n`:
later than every time of the sample repository, and later at each reading. -/
def clock (n : Nat) : Time := ⟨1000 + n⟩

/-- A comment of `octocat` on pull request 1, created and last updated at the
given instants, on file `path` when `path` is not empty. -/
def comment (id createdAt updatedAt : Int) (path : String) : models.Comment :=
  { ID := id, PullNumber := 1, ReviewID := none,
    Author := { Login := "octocat", Type_ := "User", IsBot := false }, Body := "Looks good",
    Path := path, Line := some 12, Side := "RIGHT", DiffHunk := "@@ -1 +1 @@",
    InReplyToID := none, Reactions := none, CreatedAt := ⟨createdAt⟩, UpdatedAt := ⟨updatedAt⟩ }

/-- A review of pull request 1. -/
def review : models.Review :=
  { ID := 5, PullNumber := 1, Reviewer := { Login := "octocat", Type_ := "User", IsBot := false },
    State := "APPROVED", SubmittedAt := ⟨3⟩, Body := "" }

/-- A file of pull request 1. -/
def file : models.File :=
  { PullNumber := 1, Filename := "main.go", Status := "modified", Additions := 3, Deletions := 1,
    Patch := "" }

/-- Pull request 1 as the list endpoint gives it, with a file, a review and a
comment whose reactions map is empty attached. -/
def pullWithChildren : models.PullRequest :=
  { github.convertPullRequest (pull 1 30 "octocat") with
    Files := [file]
    Reviews := [review]
    Comments := [{ comment 9 1 2 "main.go" with Reactions := some [] }] }

/-- A fetch that starts on a new database. -/
def run0 : github.Run := { store := cache.Store.fresh, listCalls := 0, saved := [] }

end sample

/-! ## More of package `strings`, and the bytes of a string -/

namespace strings

/-- Go `strings.ReplaceAll(s, old, new)` for an `old` and a `new` of one ASCII
character each, as in every call the program makes. -/
def ReplaceAll (s : String) (old new : Char) : String :=
  String.mk (s.data.map fun c => if c = old then new else c)

/-- Go `strings.Join(elems, sep)`. -/
def Join : List String → String → String
  | [], _ => ""
  | [a], _ => a
  | a :: b :: rest, sep => a ++ sep ++ Join (b :: rest) sep

/-- The pieces of `l` between the occurrences of `sep`. -/
def splitChars (sep : Char) : List Char → List (List Char)
  | [] => [[]]
  | c :: cs =>
    if c = sep then [] :: splitChars sep cs
    else
      match splitChars sep cs with
      | [] => [[c]]
      | piece :: pieces => (c :: piece) :: pieces

/-- Go `strings.Split(s, sep)` for a `sep` of one ASCII character. -/
def Split (s : String) (sep : Char) : List String :=
  (splitChars sep s.data).map String.mk

end strings

/-- The bytes of a Go string, each a number below 256. -/
abbrev Bytes := List Nat

/-- The UTF-8 encoding of one character. -/
def utf8Char (c : Char) : Bytes :=
  let v := c.toNat
  if v < 0x80 then [v]
  else if v < 0x800 then [0xC0 + v / 64, 0x80 + v % 64]
  else if v < 0x10000 then [0xE0 + v / 4096, 0x80 + v / 64 % 64, 0x80 + v % 64]
  else [0xF0 + v / 262144, 0x80 + v / 4096 % 64, 0x80 + v / 64 % 64, 0x80 + v % 64]

/-- The UTF-8 encoding of a list of characters. -/
def utf8Chars : List Char → Bytes
  | [] => []
  | c :: cs => utf8Char c ++ utf8Chars cs

/-- The bytes of a string: Go's `len(s)` is the length of this list and `s[:n]`
its first `n` elements. -/
def utf8 (s : String) : Bytes := utf8Chars s.data

/-- Go `strconv.FormatBool`. -/
def FormatBool (b : Bool) : String := if b then "true" else "false"

/-! ## Package `internal/export`: the JSONL record and the CSV exporter -/

namespace exporter

/-- The struct `ExportPullRequest`. -/
structure ExportPullRequest where
  Type_ : String
  Number : Int
  Title : String
  State : String
  Author : models.User
  Assignees : List models.User
  RequestedReviewers : List models.User
  Labels : List models.Label
  CreatedAt : Time
  UpdatedAt : Time
  MergedAt : Option Time
  Stats : models.PullRequestStats
  Files : List models.File
  Reviews : List models.Review
  Comments : List ExportComment
deriving DecidableEq, Repr

/-- The method `JSONLExporter.transformPR`. -/
def transformPR (loopVar : LoopVar) (e : JSONLExporter) (pr : models.PullRequest) :
    ExportPullRequest :=
  let exportPR : ExportPullRequest :=
    { Type_ := "pull"
      Number := pr.Number
      Title := pr.Title
      State := pr.State
      Author := pr.Author
      Assignees := pr.Assignees
      RequestedReviewers := pr.RequestedReviewers
      Labels := pr.Labels
      CreatedAt := pr.CreatedAt
      UpdatedAt := pr.UpdatedAt
      MergedAt := pr.MergedAt
      Stats := pr.Stats
      Reviews := pr.Reviews
      Comments := transformComments loopVar e pr.Comments
      Files := [] }
  if e.includeDiffs then
    { exportPR with Files := pr.Files }
  else
    { exportPR with
      Files := pr.Files.map fun file =>
        { PullNumber := 0
          Filename := file.Filename
          Status := file.Status
          Additions := file.Additions
          Deletions := file.Deletions
          Patch := "" } }

/-- The fields of `CSVExporter`. -/
structure CSVExporter where
  filename : String
  includeDiffs : Bool
deriving DecidableEq, Repr

/-- The header `CSVExporter.Export` builds. -/
def CSVExporter.header (e : CSVExporter) : List String :=
  let header :=
    ["number", "title", "state", "author", "author_type", "author_is_bot",
     "assignees", "requested_reviewers", "labels",
     "created_at", "updated_at", "merged_at",
     "additions", "deletions", "changed_files", "comments", "review_comments", "reviews",
     "review_states", "comment_authors", "file_paths"]
  if e.includeDiffs then header ++ ["diff_summary"] else header

/-- The first three statements of `escapeCsvValue`: the three calls of
`strings.ReplaceAll`. -/
def cleanCsvValue (value : String) : String :=
  let cleaned := strings.ReplaceAll value '\n' ' '
  let cleaned := strings.ReplaceAll cleaned '\t' ' '
  strings.ReplaceAll cleaned '\r' ' '

/-- The method `CSVExporter.escapeCsvValue`. The result is given by its bytes:
`len(cleaned)` counts bytes and `cleaned[:200]` keeps the first 200 bytes,
which need not end at the end of a character. -/
def escapeCsvValue (_e : CSVExporter) (value : String) : Bytes :=
  let cleaned := utf8 (cleanCsvValue value)
  if cleaned.length > 200 then cleaned.take 200 ++ utf8 "..." else cleaned

/-- The method `CSVExporter.serializeUsers`. -/
def serializeUsers (_e : CSVExporter) (users : List models.User) : String :=
  if users.length = 0 then ""
  else strings.Join (users.map fun user => user.Login) ";"

/-- The method `CSVExporter.serializeLabels`. -/
def serializeLabels (_e : CSVExporter) (labels : List models.Label) : String :=
  if labels.length = 0 then ""
  else strings.Join (labels.map fun label => label.Name) ";"

/-- The method `CSVExporter.formatOptionalTime`; `format` is
`t.Format("2006-01-02T15:04:05Z")`. -/
def formatOptionalTime (_e : CSVExporter) (format : Time → String) (t : Option Time) : String :=
  match t with
  | none => ""
  | some t => format t

/-- The statement `stateCount[state]++`. -/
def increment (stateCount : GoMap) (state : String) : GoMap :=
  stateCount.set state ((stateCount.get? state).getD 0 + 1)

/-- The method `CSVExporter.getReviewStates`. `rangeOrder` gives the order in
which a `for … range` statement visits the entries of a map, which Go leaves
open. -/
def getReviewStates (rangeOrder : {α : Type} → List α → List α) (_e : CSVExporter)
    (reviews : List models.Review) : String :=
  if reviews.length = 0 then ""
  else
    let stateCount : GoMap := reviews.foldl (fun m review => increment m review.State) []
    let states := (rangeOrder stateCount).map fun entry => entry.1 ++ ":" ++ Itoa entry.2
    strings.Join states ";"

/-- The statement `authorSet[login] = true`, the set held as the list of its
keys. -/
def addKey (authorSet : List String) (login : String) : List String :=
  if login ∈ authorSet then authorSet else authorSet ++ [login]

/-- The method `CSVExporter.getCommentAuthors`. -/
def getCommentAuthors (rangeOrder : {α : Type} → List α → List α) (_e : CSVExporter)
    (comments : List models.Comment) : String :=
  if comments.length = 0 then ""
  else
    let authorSet : List String :=
      comments.foldl (fun set comment => addKey set comment.Author.Login) []
    strings.Join (rangeOrder authorSet) ";"

/-- The method `CSVExporter.getFilePaths`. -/
def getFilePaths (_e : CSVExporter) (files : List models.File) : String :=
  if files.length = 0 then ""
  else strings.Join (files.map fun file => file.Filename) ";"

/-- The method `CSVExporter.getDiffSummary`. -/
def getDiffSummary (_e : CSVExporter) (files : List models.File) : String :=
  if files.length = 0 then ""
  else
    let summary := (files.filter fun file => decide (file.Patch ≠ "")).map fun file =>
      let lines := strings.Split file.Patch '\n'
      file.Filename ++ ":" ++ Itoa lines.length ++ "_lines"
    strings.Join summary ";"

/-- The method `CSVExporter.transformPRToRow`, each field given by its bytes.
`format` is `t.Format("2006-01-02T15:04:05Z")`. -/
def transformPRToRow (rangeOrder : {α : Type} → List α → List α) (format : Time → String)
    (e : CSVExporter) (pr : models.PullRequest) : List Bytes :=
  let row : List Bytes :=
    [utf8 (Itoa pr.Number),
     escapeCsvValue e pr.Title,
     utf8 pr.State,
     utf8 pr.Author.Login,
     utf8 pr.Author.Type_,
     utf8 (FormatBool pr.Author.IsBot),
     utf8 (serializeUsers e pr.Assignees),
     utf8 (serializeUsers e pr.RequestedReviewers),
     utf8 (serializeLabels e pr.Labels),
     utf8 (format pr.CreatedAt),
     utf8 (format pr.UpdatedAt),
     utf8 (formatOptionalTime e format pr.MergedAt),
     utf8 (Itoa pr.Stats.Additions),
     utf8 (Itoa pr.Stats.Deletions),
     utf8 (Itoa pr.Stats.ChangedFiles),
     utf8 (Itoa pr.Stats.Comments),
     utf8 (Itoa pr.Stats.ReviewComments),
     utf8 (Itoa pr.Stats.Reviews),
     utf8 (getReviewStates rangeOrder e pr.Reviews),
     utf8 (getCommentAuthors rangeOrder e pr.Comments),
     utf8 (getFilePaths e pr.Files)]
  if e.includeDiffs then row ++ [utf8 (getDiffSummary e pr.Files)] else row

/-- The records `CSVExporter.Export` hands to the CSV writer: the header, then
one row for each pull request. -/
def CSVExporter.Export (rangeOrder : {α : Type} → List α → List α) (format : Time → String)
    (e : CSVExporter) (prs : List models.PullRequest) : List (List Bytes) :=
  e.header.map utf8 :: prs.map (transformPRToRow rangeOrder format e)

end exporter

/-! ## Package `time`: the two date layouts the program uses -/

namespace time

/-- A calendar date. -/
structure Date where
  year : Nat
  month : Nat
  day : Nat
deriving DecidableEq, Repr

/-- The value of a decimal digit. -/
def digitValue (c : Char) : Nat := c.toNat - 48

/-- The decimal digit of the last figure of `n`. -/
def digitChar (n : Nat) : Char := Char.ofNat (48 + n % 10)

/-- Whether `year` is a leap year. -/
def isLeap (year : Nat) : Bool :=
  year % 4 == 0 && (year % 100 != 0 || year % 400 == 0)

/-- The number of days of `month` in `year`. -/
def daysIn (month year : Nat) : Nat :=
  if month = 2 then (if isLeap year then 29 else 28)
  else if month = 4 ∨ month = 6 ∨ month = 9 ∨ month = 11 then 30
  else 31

/-- Go `time.Parse("2006-01-02", value)`, `none` for an error: the value is
four digits, a hyphen, two digits, a hyphen and two digits, with nothing
before or after, the month is between 1 and 12 and the day is a day of that
month. -/
def ParseDate (value : String) : Option Date :=
  match value.data with
  | [y1, y2, y3, y4, s1, m1, m2, s2, d1, d2] =>
    if y1.isDigit && y2.isDigit && y3.isDigit && y4.isDigit && s1 == '-' &&
        m1.isDigit && m2.isDigit && s2 == '-' && d1.isDigit && d2.isDigit then
      let year := 1000 * digitValue y1 + 100 * digitValue y2 + 10 * digitValue y3 + digitValue y4
      let month := 10 * digitValue m1 + digitValue m2
      let day := 10 * digitValue d1 + digitValue d2
      if month < 1 ∨ 12 < month then none
      else if day < 1 ∨ daysIn month year < day then none
      else some { year := year, month := month, day := day }
    else none
  | _ => none

/-- Go `date.Format("2006-01")` for a parsed date: the year on four digits, a
hyphen, the month on two digits. -/
def FormatYearMonth (date : Date) : String :=
  String.mk [digitChar (date.year / 1000), digitChar (date.year / 100),
    digitChar (date.year / 10), digitChar date.year, '-',
    digitChar (date.month / 10), digitChar date.month]

end time

/-! ## Package `internal/ui` -/

namespace ui

/-- The struct `FilenameOptions`. -/
structure FilenameOptions where
  PRNumber : Int
  Limit : Int
  All : Bool
  Since : String
deriving DecidableEq, Repr

/-- The function `GenerateFilename`. -/
def GenerateFilename (repo format : String) (options : FilenameOptions) : String :=
  let cleanRepo := strings.ReplaceAll repo '/' '-'
  let base := cleanRepo ++ "-prs"
  if options.PRNumber > 0 then
    cleanRepo ++ "-pr-" ++ Itoa options.PRNumber ++ "." ++ format
  else
    let parts : List String := []
    let parts :=
      if options.Limit > 0 && !options.All then parts ++ ["recent-" ++ Itoa options.Limit]
      else parts
    let parts :=
      if options.Since ≠ "" then
        match time.ParseDate options.Since with
        | some date => parts ++ [time.FormatYearMonth date]
        | none => parts ++ ["filtered"]
      else parts
    let base := if parts.length > 0 then base ++ "-" ++ strings.Join parts "-" else base
    base ++ "." ++ format

end ui

/-! ## The counting loop of the review-state histogram, and more sample inputs -/

namespace exporter

/-- What the counting loop of `getReviewStates` has reached after the states
`seen`: distinct keys, each state seen mapped to the number of times it was
seen, and values that add up to the number of states seen. -/
def Counts (m : GoMap) (seen : List String) : Prop :=
  (m.map Prod.fst).Nodup ∧
  (∀ k, GoMap.get? m k = if k ∈ seen then some (seen.count k : Int) else none) ∧
  (m.map Prod.snd).sum = seen.length

end exporter

namespace sample

/-- A review of pull request 1 in state `state`. -/
def reviewIn (id : Int) (state : String) : models.Review :=
  { ID := id, PullNumber := 1, Reviewer := { Login := "octocat", Type_ := "User", IsBot := false },
    State := state, SubmittedAt := ⟨3⟩, Body := "" }

/-- A title of 67 characters of three bytes each. -/
def kanaTitle : String := String.mk (List.replicate 67 'あ')

end sample

/-! ## File sizes, the analyzer service and the client constructor -/

namespace ui

/-- The number of low bits of `b` that do not fit the 53-bit significand of a
`float64`; the first argument bounds the count (an `int64` has 64 bits). -/
def excessBits : Nat → Nat → Nat
  | 0, _ => 0
  | fuel + 1, b => if b < 2 ^ 53 then 0 else excessBits fuel (b / 2) + 1

/-- The conversion `float64(bytes)` of a non-negative `int64`: the nearest
integer with at most 53 significant bits, a tie going to the one whose last
kept bit is zero. Integers below `2^53` are kept as they are. -/
def float64OfNat (b : Nat) : Nat :=
  let e := excessBits 64 b
  let q := b / 2 ^ e
  let r := b % 2 ^ e
  if 2 * r > 2 ^ e ∨ (2 * r = 2 ^ e ∧ q % 2 = 1) then (q + 1) * 2 ^ e else q * 2 ^ e

/-- The quotient `num / den` in tenths as the verb `%.1f` rounds it: to the
nearest tenth, a tie going to the even digit (`strconv` rounds the exact
decimal expansion half to even). -/
def roundTenths (num den : Nat) : Nat :=
  let q := 10 * num / den
  let r := 10 * num % den
  if 2 * r > den ∨ (2 * r = den ∧ q % 2 = 1) then q + 1 else q

/-- The text of `fmt.Sprintf("%.1f", x)` for the non-negative `x` of `tenths`
tenths. -/
def formatTenths (tenths : Nat) : String :=
  toString (tenths / 10) ++ "." ++ toString (tenths % 10)

/-- The function `FormatFileSize`. `float64(bytes)/KB` is a division by a power
of two, which is exact; the value formatted is `float64OfNat bytes / unit`. -/
def FormatFileSize (bytes : Int) : String :=
  let KB : Int := 1024
  let MB : Int := KB * 1024
  let GB : Int := MB * 1024
  if bytes < KB then
    Itoa bytes ++ " B"
  else if bytes < MB then
    formatTenths (roundTenths (float64OfNat bytes.toNat) KB.toNat) ++ " KB"
  else if bytes < GB then
    formatTenths (roundTenths (float64OfNat bytes.toNat) MB.toNat) ++ " MB"
  else
    formatTenths (roundTenths (float64OfNat bytes.toNat) GB.toNat) ++ " GB"

end ui


/-! ## Package `internal/config`, and `NewClient` -/

namespace config

structure GitHubConfig where
  Token : String
  APIURL : String
deriving DecidableEq, Repr

structure CacheConfig where
  Location : String
  MaxAgeDays : Int
deriving DecidableEq, Repr

structure ExportConfig where
  DefaultFormat : String
  IncludeRawJSON : Bool
deriving DecidableEq, Repr

structure FetchConfig where
  BatchSize : Int
  RateLimitBuffer : Int
deriving DecidableEq, Repr

/-- The struct `Config`. -/
structure Config where
  GitHub : GitHubConfig
  Cache : CacheConfig
  Export : ExportConfig
  Fetch : FetchConfig
deriving DecidableEq, Repr

end config

namespace github

open cache

/-- The block of `NewClient` that sets `githubClient.BaseURL`: the error of
`BaseURL.Parse` when the configured API URL is neither empty nor the default
one and is rejected, `none` otherwise. `urlParse` is `BaseURL.Parse`, giving
the error of a URL it rejects and `none` for one it accepts. -/
def setBaseURL (urlParse : String → Option GoError) (cfg : config.Config) : Option GoError :=
  if cfg.GitHub.APIURL ≠ "" ∧ cfg.GitHub.APIURL ≠ "https://api.github.com" then
    let baseURL := cfg.GitHub.APIURL
    let baseURL := if !strings.HasSuffix baseURL "/" then baseURL ++ "/" else baseURL
    urlParse baseURL
  else none

/-- The function `NewClient`. The HTTP client built from the token is not part
of the `Client` modelled. -/
def NewClient (urlParse : String → Option GoError) (cfg : config.Config) (_store : cache.Store)
    (repoPath : String) : Except GoError Client :=
  let parts := strings.Split repoPath '/'
  match parts with
  | [owner, repo] =>
    match setBaseURL urlParse cfg with
    | some err => Except.error (GoError.wrap "parsing GitHub API URL: " err)
    | none => Except.ok { owner := owner, repo := repo }
  | _ =>
    Except.error
      (GoError.plain ("invalid repository format: " ++ repoPath ++ " (expected owner/repo)"))

end github

namespace sample

/-- The configuration `DefaultConfig` builds, with a token. -/
def config : config.Config :=
  { GitHub := { Token := "token", APIURL := "https://api.github.com" }
    Cache := { Location := "/home/octo/.pr-analyzer", MaxAgeDays := 90 }
    Export := { DefaultFormat := "jsonl", IncludeRawJSON := false }
    Fetch := { BatchSize := 100, RateLimitBuffer := 100 } }

end sample

/-! ## Package `internal/analyzer` -/

namespace analyzer

open cache

/-- The struct `AnalyzeOptions`. -/
structure AnalyzeOptions where
  Repo : String
  Format : String
  Limit : Int
  All : Bool
  IncludeDiffs : Bool
  Refetch : Bool
  Since : String
  PRNumber : Int
  Output : String
deriving DecidableEq, Repr

/-- The loop `for _, pr := range prs` of `loadDataFromCache`: the reviews, the
comments and the files of each pull request are read from the cache and set on
it; the first read that fails ends the call with its error. -/
def loadChildren (s : Store) : List models.PullRequest → Except GoError (List models.PullRequest)
  | [] => Except.ok []
  | pr :: rest =>
    match GetReviews s pr.Number with
    | Except.error e =>
      Except.error (GoError.wrap ("loading reviews for PR " ++ Itoa pr.Number ++ ": ") e)
    | Except.ok reviews =>
      match GetComments s pr.Number with
      | Except.error e =>
        Except.error (GoError.wrap ("loading comments for PR " ++ Itoa pr.Number ++ ": ") e)
      | Except.ok comments =>
        match GetFiles s pr.Number with
        | Except.error e =>
          Except.error (GoError.wrap ("loading files for PR " ++ Itoa pr.Number ++ ": ") e)
        | Except.ok files =>
          match loadChildren s rest with
          | Except.error e => Except.error e
          | Except.ok loaded =>
            Except.ok ({ pr with Reviews := reviews, Comments := comments, Files := files }
              :: loaded)

/-- The method `Service.loadDataFromCache`, on the store of the service. -/
def loadDataFromCache (s : Store) (opts : AnalyzeOptions) :
    Except GoError (List models.PullRequest) :=
  match GetPullRequests s opts.Repo Time.zero with
  | Except.error e => Except.error (GoError.wrap "loading PRs from cache: " e)
  | Except.ok prs =>
    let prs :=
      if !opts.All && decide (opts.Limit > 0) && decide ((prs.length : Int) > opts.Limit) then
        prs.take opts.Limit.toNat
      else prs
    loadChildren s prs

end analyzer

namespace sample

/-- The store after `SavePullRequest` of each pull request of `prs`, in order,
on a new database. -/
def saved (prs : List gogithub.PullRequest) : cache.Store :=
  prs.foldl (fun s pr =>
    match cache.SavePullRequest Char.toLower clock s (github.convertPullRequest pr) with
    | Except.ok s1 => s1
    | Except.error _ => s) cache.Store.fresh

/-- A cache of three pull requests, numbers 1, 2 and 4, updated at the
instants 30, 10 and 40. -/
def cached : cache.Store := saved [pull 1 30 "octocat", pull 2 10 "octocat", pull 4 40 "octocat"]

/-- A cache that holds pull request number 2 of another repository, whose id is
2002: the one database file serves every repository, and table `pulls` has no
column for the repository. -/
def otherRepo : cache.Store := saved [{ pull 2 7 "hubot" with ID := 2002 }]

/-- The numbers of the pull requests a call returned, none for an error. -/
def numbers (result : Except GoError (List models.PullRequest)) : List Int :=
  match result with
  | Except.ok prs => prs.map fun pr => pr.Number
  | Except.error _ => []

/-- Options of a run on `octo/demo` with no limit and no filter. -/
def options : analyzer.AnalyzeOptions :=
  { Repo := "octo/demo", Format := "jsonl", Limit := 0, All := false, IncludeDiffs := false,
    Refetch := false, Since := "", PRNumber := 0, Output := "" }

end sample

namespace analyzer

open cache

/-- What `loadDataFromCache` makes of a cached pull request `pr`: the pull
request `loaded`, equal to `pr` in every field other than `Reviews`, `Comments`
and `Files`, which hold what `GetReviews`, `GetComments` and `GetFiles` return
for the number of `pr`. -/
def Loaded (s : Store) (pr loaded : models.PullRequest) : Prop :=
  GetReviews s pr.Number = Except.ok loaded.Reviews ∧
  GetComments s pr.Number = Except.ok loaded.Comments ∧
  GetFiles s pr.Number = Except.ok loaded.Files ∧
  loaded = { pr with Reviews := loaded.Reviews, Comments := loaded.Comments,
                     Files := loaded.Files }

end analyzer

namespace sample

/-- A list call that fails with `err` before any HTTP response is received:
the call returns a nil `*github.Response`. -/
def failedList {α : Type} (err : GoError) : gogithub.ListResult α :=
  { items := [], resp := none, err := some err }

/-- An API whose calls to the pull-request endpoints fail with `err` without
an HTTP response, as when the host cannot be reached. -/
def unreachable (err : GoError) : gogithub.Api :=
  { ListPullRequests := fun _ => failedList err
    GetPullRequest := fun number =>
      { item := pull number 30 "octocat", resp := none, err := some err }
    ListReviews := fun _ _ => failedList err
    ListIssueComments := fun _ _ => failedList err
    ListReviewComments := fun _ _ => failedList err
    ListFiles := fun _ _ => failedList err }

end sample

namespace strings

/-- Go `strings.ReplaceAll(s, old, new)` on the bytes of `s`, for an `old` and a
`new` of one byte each. -/
def ReplaceAllBytes (s : Bytes) (old new : Nat) : Bytes :=
  s.map fun b => if b = old then new else b

end strings

namespace exporter

/-- The method `CSVExporter.escapeCsvValue` on a Go string given by its bytes.
A Go string is a sequence of bytes that need not be valid UTF-8, as the result
of `escapeCsvValue` itself may not be; `\n`, `\t`, `\r`, the space and `.` are
the bytes 10, 9, 13, 32 and 46. -/
def escapeCsvBytes (_e : CSVExporter) (value : Bytes) : Bytes :=
  let cleaned := strings.ReplaceAllBytes value 10 32
  let cleaned := strings.ReplaceAllBytes cleaned 9 32
  let cleaned := strings.ReplaceAllBytes cleaned 13 32
  if cleaned.length > 200 then cleaned.take 200 ++ [46, 46, 46] else cleaned

end exporter

/-! # Theorems -/

/-! ## Reading back what `json.Marshal` wrote -/

theorem lookup_cons_self (k : String) (v : Json) (ms : List (String × Json)) :
    List.lookup k ((k, v) :: ms) = some v := by
  simp [List.lookup]

theorem lookup_cons_ne (k k0 : String) (v : Json) (ms : List (String × Json)) (h : k ≠ k0) :
    List.lookup k ((k0, v) :: ms) = List.lookup k ms := by
  have hb : (k == k0) = false := by simpa using h
  simp [List.lookup, hb]

theorem lookup_omitEmptyStr_ne (k k0 s : String) (ms : List (String × Json)) (h : k ≠ k0) :
    List.lookup k (omitEmptyStr k0 s ++ ms) = List.lookup k ms := by
  unfold omitEmptyStr
  split_ifs <;> simp [lookup_cons_ne, h]

theorem lookup_omitEmptyPtrInt_ne (k k0 : String) (p : Option Int) (ms : List (String × Json))
    (h : k ≠ k0) : List.lookup k (omitEmptyPtrInt k0 p ++ ms) = List.lookup k ms := by
  cases p <;> simp [omitEmptyPtrInt, lookup_cons_ne, h]

theorem lookup_omitEmptyPtrTime_ne (k k0 : String) (p : Option Time) (ms : List (String × Json))
    (h : k ≠ k0) : List.lookup k (omitEmptyPtrTime k0 p ++ ms) = List.lookup k ms := by
  cases p <;> simp [omitEmptyPtrTime, lookup_cons_ne, h]

theorem lookup_omitEmptyArr_ne (k k0 : String) (items : List Json) (ms : List (String × Json))
    (h : k ≠ k0) : List.lookup k (omitEmptyArr k0 items ++ ms) = List.lookup k ms := by
  unfold omitEmptyArr
  split_ifs <;> simp [lookup_cons_ne, h]

theorem lookup_omitEmptyArr_last (k k0 : String) (items : List Json) (h : k ≠ k0) :
    List.lookup k (omitEmptyArr k0 items) = none := by
  have := lookup_omitEmptyArr_ne k k0 items [] h
  simpa using this

theorem lookup_omitEmptyMap_ne (k k0 : String) (m : Option GoMap) (ms : List (String × Json))
    (h : k ≠ k0) : List.lookup k (omitEmptyMap k0 m ++ ms) = List.lookup k ms := by
  rcases m with _ | _ | ⟨e, es⟩ <;> simp [omitEmptyMap, lookup_cons_ne, h]

theorem readString_omitEmptyStr (k s : String) (ms : List (String × Json))
    (h : List.lookup k ms = none) :
    readString (List.lookup k (omitEmptyStr k s ++ ms)) = some s := by
  unfold omitEmptyStr
  split_ifs with hs
  · simp [h, readString, hs]
  · simp [lookup_cons_self, readString]

theorem readPtrInt_omitEmptyPtrInt (k : String) (p : Option Int) (ms : List (String × Json))
    (h : List.lookup k ms = none) :
    readPtrInt (List.lookup k (omitEmptyPtrInt k p ++ ms)) = some p := by
  cases p <;> simp [omitEmptyPtrInt, h, readPtrInt, lookup_cons_self]

theorem readPtrTime_omitEmptyPtrTime (k : String) (p : Option Time) (ms : List (String × Json))
    (h : List.lookup k ms = none) :
    readPtrTime (List.lookup k (omitEmptyPtrTime k p ++ ms)) = some p := by
  cases p <;> simp [omitEmptyPtrTime, h, readPtrTime, lookup_cons_self]

theorem lookup_nil (k : String) : List.lookup k ([] : List (String × Json)) = none := rfl

theorem andThen_some {α β : Type} (a : α) (f : α → Option β) : andThen (some a) f = f a := rfl

theorem readString_str (s : String) : readString (some (Json.str s)) = some s := rfl

theorem readInt_num (n : Int) : readInt (some (Json.num n)) = some n := rfl

theorem readBool_bool (b : Bool) : readBool (some (Json.bool b)) = some b := rfl

theorem readTime_time (t : Time) : readTime (some (Json.time t)) = some t := rfl

theorem readStruct_obj {α : Type} (zero : α) (f : Json → Option α) (ms : List (String × Json)) :
    readStruct zero f (some (Json.obj ms)) = f (Json.obj ms) := rfl

theorem readSlice_arr {α : Type} (f : Json → Option α) (items : List Json) :
    readSlice f (some (Json.arr items)) = readAll f items := rfl

theorem readAll_map {α : Type} (f : Json → Option α) (g : α → Json) (t : α → α)
    (h : ∀ a, f (g a) = some (t a)) (as : List α) :
    readAll f (as.map g) = some (as.map t) := by
  induction as with
  | nil => rfl
  | cons a rest ih => simp [readAll, h, ih]

theorem readSlice_arr_map {α : Type} (f : Json → Option α) (g : α → Json) (t : α → α)
    (h : ∀ a, f (g a) = some (t a)) (as : List α) :
    readSlice f (some (Json.arr (as.map g))) = some (as.map t) := by
  rw [readSlice_arr]
  exact readAll_map f g t h as

theorem readSlice_omitEmptyArr {α : Type} (f : Json → Option α) (g : α → Json) (t : α → α)
    (h : ∀ a, f (g a) = some (t a)) (k : String) (as : List α) (ms : List (String × Json))
    (hk : List.lookup k ms = none) :
    readSlice f (List.lookup k (omitEmptyArr k (as.map g) ++ ms)) = some (as.map t) := by
  unfold omitEmptyArr
  cases as with
  | nil => simp [hk, readSlice]
  | cons a rest =>
    simp only [List.map_cons, List.isEmpty_cons, Bool.false_eq_true, if_false, List.cons_append,
      List.nil_append, lookup_cons_self, readSlice_arr]
    exact readAll_map f g t h (a :: rest)

namespace models

theorem user_round_trip (u : User) : User.unmarshal u.marshal = some u := by
  simp [User.marshal, User.unmarshal, Json.member, andThen_some, lookup_cons_self,
    lookup_cons_ne, readString_str, readBool_bool]

theorem label_round_trip (l : Label) : Label.unmarshal l.marshal = some l := by
  simp [Label.marshal, Label.unmarshal, Json.member, andThen_some, lookup_cons_self,
    lookup_cons_ne, readString_str]

theorem stats_round_trip (s : PullRequestStats) :
    PullRequestStats.unmarshal s.marshal = some s := by
  simp [PullRequestStats.marshal, PullRequestStats.unmarshal, Json.member, andThen_some,
    lookup_cons_self, lookup_cons_ne, readInt_num]

/-- Reading a file back gives the file with `PullNumber` at its zero value. -/
theorem file_round_trip (f : File) :
    File.unmarshal f.marshal = some { f with PullNumber := 0 } := by
  have hp := readString_omitEmptyStr "patch" f.Patch [] rfl
  simp only [List.append_nil] at hp
  simp [File.marshal, File.unmarshal, Json.member, andThen_some, lookup_cons_self,
    lookup_cons_ne, readString_str, readInt_num, hp]

end models
theorem readStruct_user (u : models.User) :
    readStruct models.User.zero models.User.unmarshal (some u.marshal) = some u := by
  rw [show u.marshal = Json.obj _ from rfl, readStruct_obj]
  exact models.user_round_trip u

theorem readStruct_stats (s : models.PullRequestStats) :
    readStruct models.PullRequestStats.zero models.PullRequestStats.unmarshal (some s.marshal)
      = some s := by
  rw [show s.marshal = Json.obj _ from rfl, readStruct_obj]
  exact models.stats_round_trip s

theorem GoMap.get?_set (m : GoMap) (k k0 : String) (v : Int) :
    (m.set k v).get? k0 = if k = k0 then some v else m.get? k0 := by
  induction m with
  | nil => simp [GoMap.set, GoMap.get?]
  | cons e rest ih =>
    obtain ⟨k1, v1⟩ := e
    by_cases h1 : k1 = k
    · subst h1
      by_cases h3 : k1 = k0 <;> simp [GoMap.set, GoMap.get?, h3]
    · by_cases h2 : k1 = k0
      · subst h2
        have : ¬ k = k1 := fun h => h1 h.symm
        simp [GoMap.set, GoMap.get?, h1, this]
      · simp [GoMap.set, GoMap.get?, h1, h2, ih]

theorem readEntries_map (es : GoMap) (m : GoMap) :
    readEntries (es.map fun e => (e.1, Json.num e.2)) m
      = some (es.foldl (fun acc e => acc.set e.1 e.2) m) := by
  induction es generalizing m with
  | nil => rfl
  | cons e rest ih => simp [readEntries, ih]

theorem GoMap.get?_foldl_set (es : GoMap) (hes : (es.map Prod.fst).Nodup) (m : GoMap) (k : String) :
    (es.foldl (fun acc e => acc.set e.1 e.2) m).get? k
      = match es.get? k with
        | some v => some v
        | none => m.get? k := by
  induction es generalizing m with
  | nil => simp [GoMap.get?]
  | cons e rest ih =>
    obtain ⟨k1, v1⟩ := e
    simp only [List.map_cons, List.nodup_cons] at hes
    rw [List.foldl_cons, ih hes.2]
    by_cases h : k1 = k
    · subst h
      have hnone : GoMap.get? rest k1 = none := by
        have hk := hes.1
        clear ih hes
        induction rest with
        | nil => rfl
        | cons e2 r2 ih2 =>
          obtain ⟨k2, v2⟩ := e2
          simp only [List.map_cons, List.mem_cons, not_or] at hk
          have : ¬ k2 = k1 := fun h => hk.1 h.symm
          simp [GoMap.get?, this, ih2 hk.2]
      simp [GoMap.get?, hnone, GoMap.get?_set]
    · simp [GoMap.get?, h, GoMap.get?_set]

/-- Reading back the member written for a map gives the reread map. -/
theorem readMap_omitEmptyMap (k : String) (m : Option GoMap) (ms : List (String × Json))
    (hk : List.lookup k ms = none) :
    readMap (List.lookup k (omitEmptyMap k m ++ ms)) = some (rereadMap m) := by
  rcases m with _ | _ | ⟨e, es⟩
  · simp [omitEmptyMap, hk, readMap, rereadMap]
  · simp [omitEmptyMap, hk, readMap, rereadMap]
  · simp only [omitEmptyMap, List.cons_append, List.nil_append, lookup_cons_self, readMap,
      readEntries_map, Option.map_some', rereadMap]

/-- A map whose entries have distinct keys is reread with the same entries. -/
theorem mapGet_rereadMap (m : Option GoMap) (hm : ∀ es, m = some es → (es.map Prod.fst).Nodup)
    (key : String) : mapGet (rereadMap m) key = mapGet m key := by
  rcases m with _ | _ | ⟨e, es⟩
  · rfl
  · rfl
  · simp only [mapGet, rereadMap]
    rw [GoMap.get?_foldl_set _ (hm _ rfl)]
    cases GoMap.get? (e :: es) key <;> simp [GoMap.get?]

namespace models

/-- Reading a review back gives the review with `PullNumber` at its zero value. -/
theorem review_round_trip (r : Review) :
    Review.unmarshal r.marshal = some { r with PullNumber := 0 } := by
  have hb := readString_omitEmptyStr "body" r.Body [] rfl
  simp only [List.append_nil] at hb
  simp [Review.marshal, Review.unmarshal, Json.member, andThen_some, lookup_cons_self,
    lookup_cons_ne, readString_str, readInt_num, readTime_time, readStruct_user, hb]

/-- Reading a comment back gives the comment with its reactions reread. -/
theorem comment_round_trip (c : Comment) :
    Comment.unmarshal c.marshal = some { c with Reactions := rereadMap c.Reactions } := by
  have hm1 := readMap_omitEmptyMap "reactions" c.Reactions
    [("created_at", Json.time c.CreatedAt), ("updated_at", Json.time c.UpdatedAt)]
    (by simp [lookup_cons_ne, lookup_nil])
  simp only [Comment.marshal, Comment.unmarshal, Json.member, List.append_assoc, List.cons_append,
    List.nil_append]
  simp (disch := simp [lookup_cons_ne, lookup_omitEmptyStr_ne, lookup_omitEmptyPtrInt_ne,
      lookup_omitEmptyMap_ne, lookup_nil])
    only [andThen_some, lookup_cons_self, lookup_cons_ne, lookup_omitEmptyStr_ne,
    lookup_omitEmptyPtrInt_ne, lookup_omitEmptyMap_ne, readString_str, readInt_num, readTime_time,
    readStruct_user, readString_omitEmptyStr, readPtrInt_omitEmptyPtrInt, hm1, ne_eq,
    not_false_eq_true]

/-- Reading a pull request back gives the pull request, its attached children
as they are read back. -/
theorem pullRequest_round_trip (pr : PullRequest) :
    PullRequest.unmarshal pr.marshal = some { pr with
      Files := pr.Files.map fun f => { f with PullNumber := 0 }
      Reviews := pr.Reviews.map fun r => { r with PullNumber := 0 }
      Comments := pr.Comments.map fun c => { c with Reactions := rereadMap c.Reactions } } := by
  have hc := readSlice_omitEmptyArr Comment.unmarshal Comment.marshal _
    comment_round_trip "comments" pr.Comments [] rfl
  simp only [List.append_nil] at hc
  simp only [PullRequest.marshal, PullRequest.unmarshal, Json.member, List.append_assoc,
    List.cons_append, List.nil_append]
  simp (disch := simp [lookup_cons_ne, lookup_omitEmptyArr_ne, lookup_omitEmptyPtrTime_ne,
      lookup_omitEmptyArr_last, lookup_nil])
    only [andThen_some, lookup_cons_self, lookup_cons_ne, lookup_omitEmptyArr_ne,
    lookup_omitEmptyArr_last,
    lookup_omitEmptyPtrTime_ne, readString_str, readInt_num, readTime_time,
    readStruct_user, readStruct_stats, readPtrTime_omitEmptyPtrTime,
    readSlice_arr_map _ _ _ user_round_trip, readSlice_arr_map _ _ _ label_round_trip,
    readSlice_omitEmptyArr _ _ _ file_round_trip,
    readSlice_omitEmptyArr _ _ _ review_round_trip, hc, List.map_id', ne_eq,
    not_false_eq_true]

end models

/-! ## Strings -/

namespace strings

theorem hasRun_iff (l sub : List Char) : hasRun l sub = true ↔ sub <:+: l := by
  induction l with
  | nil => simp [hasRun, List.isEmpty_iff]
  | cons c cs ih =>
    simp only [hasRun, Bool.or_eq_true, ih, List.isPrefixOf_iff_prefix, List.infix_cons_iff]

theorem Contains_iff (s substr : String) : Contains s substr = true ↔ substr.data <:+: s.data :=
  hasRun_iff _ _

theorem HasSuffix_iff (s suffix : String) :
    HasSuffix s suffix = true ↔ suffix.data <:+ s.data := by
  simp [HasSuffix, List.isSuffixOf_iff_suffix]

end strings


/-! ## The cache store -/

namespace cache

theorem mem_dbSave_self {ρ κ : Type} [DecidableEq κ] (key : ρ → κ) (table : List ρ) (row : ρ) :
    row ∈ dbSave key table row := by
  unfold dbSave
  split_ifs with h
  · simp only [List.any_eq_true, decide_eq_true_eq] at h
    obtain ⟨r, hr, hk⟩ := h
    exact List.mem_map.mpr ⟨r, hr, by simp [hk]⟩
  · simp

theorem mem_dbSave {ρ κ : Type} [DecidableEq κ] (key : ρ → κ) (table : List ρ) (row r : ρ)
    (h : r ∈ dbSave key table row) : r = row ∨ (r ∈ table ∧ key r ≠ key row) := by
  unfold dbSave at h
  split_ifs at h with hany
  · obtain ⟨r0, hr0, hr⟩ := List.mem_map.mp h
    by_cases hk : key r0 = key row
    · left; simp [hk] at hr; exact hr.symm
    · right; simp [hk] at hr; subst hr; exact ⟨hr0, hk⟩
  · rcases List.mem_append.mp h with h1 | h1
    · right
      refine ⟨h1, fun hk => hany ?_⟩
      simp only [List.any_eq_true, decide_eq_true_eq]
      exact ⟨r, h1, hk⟩
    · left; simpa using h1

theorem mem_dbSave_of_ne {ρ κ : Type} [DecidableEq κ] (key : ρ → κ) (table : List ρ) (row r : ρ)
    (hr : r ∈ table) (hk : key r ≠ key row) : r ∈ dbSave key table row := by
  unfold dbSave
  split_ifs
  · exact List.mem_map.mpr ⟨r, hr, by simp [hk]⟩
  · simp [hr]

theorem foldl_max_le (ids : List Int) (a : Int) :
    a ≤ ids.foldl max a ∧ ∀ x ∈ ids, x ≤ ids.foldl max a := by
  induction ids generalizing a with
  | nil => simp
  | cons b rest ih =>
    simp only [List.foldl_cons, List.mem_cons, forall_eq_or_imp]
    obtain ⟨h1, h2⟩ := ih (max a b)
    refine ⟨le_trans (le_max_left a b) h1, le_trans (le_max_right a b) h1, h2⟩

/-- The key the database chooses is above zero and is not in use. -/
theorem nextID_fresh (ids : List Int) : 0 < nextID ids ∧ nextID ids ∉ ids := by
  obtain ⟨h1, h2⟩ := foldl_max_le ids 0
  unfold nextID
  refine ⟨by omega, fun h => ?_⟩
  have := h2 _ h
  omega

/-- What a call of `savePull` that succeeds has made of the store: the row
`written` holds the text and the number of `row`, under the key of `row` when
that key is set; the other rows are the rows of another key that were there,
none of which has the number; the other tables are as they were. -/
theorem savePull_ok (clock : Nat → Time) (s s1 : Store) (row : Pull)
    (h : savePull clock s row = Except.ok s1) :
    ∃ written : Pull, written ∈ s1.pulls ∧ written.RawJSON = row.RawJSON ∧
      written.Number = row.Number ∧ written.AuthorIsBot = row.AuthorIsBot ∧
      (row.ID ≠ 0 → written.ID = row.ID) ∧
      (∀ r ∈ s1.pulls, r = written ∨ (r ∈ s.pulls ∧ r.ID ≠ written.ID)) ∧
      (∀ r ∈ s.pulls, r.ID ≠ written.ID → r ∈ s1.pulls) ∧
      (∀ r ∈ s.pulls, r.Number = row.Number → r.ID = written.ID) ∧
      s1.reviews = s.reviews ∧ s1.comments = s.comments ∧ s1.files = s.files ∧
      s1.syncMetadata = s.syncMetadata ∧ s1.botPatterns = s.botPatterns := by
  unfold savePull at h
  by_cases hid : row.ID = 0
  · rw [if_pos hid] at h
    by_cases hnum : (s.pulls.any fun r => decide (r.Number = row.Number)) = true
    · rw [if_pos hnum] at h
      cases h
    · rw [if_neg hnum] at h
      simp only [Except.ok.injEq] at h
      subst h
      simp only [List.any_eq_true, decide_eq_true_eq, not_exists, not_and] at hnum
      obtain ⟨_, hfresh⟩ := nextID_fresh (s.pulls.map fun r => r.ID)
      refine ⟨_, List.mem_append_right _ (List.mem_singleton_self _), rfl, rfl, rfl,
        fun h0 => absurd hid h0, ?_, ?_, ?_, rfl, rfl, rfl, rfl, rfl⟩
      · intro r hr
        rcases List.mem_append.mp hr with h1 | h1
        · right
          refine ⟨h1, fun heq => hfresh ?_⟩
          exact List.mem_map.mpr ⟨r, h1, heq⟩
        · left; exact List.mem_singleton.mp h1
      · intro r hr _
        exact List.mem_append_left _ hr
      · intro r hr hn
        exact absurd hn (hnum r hr)
  · rw [if_neg hid] at h
    by_cases hnum : (s.pulls.any fun r => decide (r.Number = row.Number ∧ r.ID ≠ row.ID)) = true
    · rw [if_pos hnum] at h
      cases h
    · rw [if_neg hnum] at h
      simp only [List.any_eq_true, decide_eq_true_eq, not_exists, not_and, not_not] at hnum
      by_cases hex : (s.pulls.any fun r => decide (r.ID = row.ID)) = true
      · rw [if_pos hex] at h
        simp only [Except.ok.injEq] at h
        subst h
        refine ⟨_, mem_dbSave_self (fun r : Pull => r.ID) _ _, rfl, rfl, rfl, fun _ => rfl,
          ?_, ?_, ?_, rfl, rfl, rfl, rfl, rfl⟩
        · intro r hr
          exact mem_dbSave _ _ _ _ hr
        · intro r hr hne
          exact mem_dbSave_of_ne _ _ _ _ hr hne
        · intro r hr hn
          exact hnum r hr hn
      · rw [if_neg hex] at h
        simp only [Except.ok.injEq] at h
        subst h
        refine ⟨_, mem_dbSave_self (fun r : Pull => r.ID) _ _, rfl, rfl, rfl, fun _ => rfl,
          ?_, ?_, ?_, rfl, rfl, rfl, rfl, rfl⟩
        · intro r hr
          exact mem_dbSave _ _ _ _ hr
        · intro r hr hne
          exact mem_dbSave_of_ne _ _ _ _ hr hne
        · intro r hr hn
          exact hnum r hr hn

/-- What a call of `SavePullRequest` that succeeds has made of the store. -/
theorem SavePullRequest_spec (unicodeToLower : Char → Char) (clock : Nat → Time) (s s1 : Store)
    (pr : models.PullRequest) (h : SavePullRequest unicodeToLower clock s pr = Except.ok s1) :
    pr.marshalError = none ∧
    ∃ written : Pull, written ∈ s1.pulls ∧ written.RawJSON = pr.marshal ∧
      written.Number = pr.Number ∧
      written.AuthorIsBot = isBot unicodeToLower s pr.Author.Login ∧
      (pr.ID ≠ 0 → written.ID = pr.ID) ∧
      (∀ r ∈ s1.pulls, r = written ∨ (r ∈ s.pulls ∧ r.ID ≠ written.ID)) ∧
      (∀ r ∈ s.pulls, r.ID ≠ written.ID → r ∈ s1.pulls) ∧
      (∀ r ∈ s.pulls, r.Number = pr.Number → r.ID = written.ID) ∧
      s1.reviews = s.reviews ∧ s1.comments = s.comments ∧ s1.files = s.files ∧
      s1.syncMetadata = s.syncMetadata ∧ s1.botPatterns = s.botPatterns := by
  unfold SavePullRequest at h
  cases hm : pr.marshalError with
  | some err => simp [hm] at h
  | none =>
    simp only [hm] at h
    exact ⟨rfl, savePull_ok clock _ s1 _ h⟩

end cache

namespace cache

theorem find?_eq_some_of_unique {ρ : Type} (p : ρ → Bool) (l : List ρ) (a : ρ) (ha : a ∈ l)
    (hp : p a = true) (huniq : ∀ b ∈ l, p b = true → b = a) : l.find? p = some a := by
  induction l with
  | nil => simp at ha
  | cons b rest ih =>
    by_cases hb : p b = true
    · have := huniq b (List.mem_cons_self _ _) hb
      subst this
      simp [List.find?, hb]
    · have hne : a ≠ b := fun h => hb (h ▸ hp)
      have ha2 : a ∈ rest := by
        rcases List.mem_cons.mp ha with h | h
        · exact absurd h hne
        · exact h
      simp only [Bool.not_eq_true] at hb
      simp only [List.find?, hb]
      exact ih ha2 (fun b hb2 => huniq b (List.mem_cons_of_mem _ hb2))

theorem decodeRows_mem {ρ α : Type} (raw : ρ → Json) (unmarshal : Json → Option α)
    (errFor : ρ → GoError) (rows : List ρ)
    (hall : ∀ r ∈ rows, (unmarshal (raw r)).isSome = true) :
    ∃ as, decodeRows raw unmarshal errFor rows = Except.ok as ∧
      ∀ r ∈ rows, ∀ a, unmarshal (raw r) = some a → a ∈ as := by
  induction rows with
  | nil => exact ⟨[], rfl, by simp⟩
  | cons row rest ih =>
    obtain ⟨as, has, hmem⟩ := ih (fun r hr => hall r (List.mem_cons_of_mem _ hr))
    have hrow := hall row (List.mem_cons_self _ _)
    obtain ⟨a0, ha0⟩ := Option.isSome_iff_exists.mp hrow
    refine ⟨a0 :: as, by simp [decodeRows, ha0, has], ?_⟩
    intro r hr a ha
    rcases List.mem_cons.mp hr with h | h
    · subst h
      rw [ha0] at ha
      simp only [Option.some.injEq] at ha
      simp [ha]
    · exact List.mem_cons_of_mem _ (hmem r h a ha)

end cache

/-! ## The client -/



namespace github

open cache

theorem saveEach_pulls {α : Type} (save : Store → α → Except GoError Store)
    (describe : α → String)
    (hsave : ∀ s a s1, save s a = Except.ok s1 → s1.pulls = s.pulls)
    (items : List α) (s : Store) : (saveEach save describe s items).1.pulls = s.pulls := by
  induction items generalizing s with
  | nil => rfl
  | cons item rest ih =>
    unfold saveEach
    cases h : save s item with
    | error e => rfl
    | ok s1 =>
      simp only
      rw [ih s1, hsave s item s1 h]

theorem fetchPages_pulls {α : Type} (c : Client) (list : Nat → gogithub.ListResult α)
    (save : Store → α → Except GoError Store) (describe : α → String)
    (hsave : ∀ s a s1, save s a = Except.ok s1 → s1.pulls = s.pulls)
    (fuel page : Nat) (s s1 : Store) (e : Exit)
    (h : fetchPages c list save describe fuel page s = some (s1, e)) : s1.pulls = s.pulls := by
  induction fuel generalizing page s with
  | zero => simp [fetchPages] at h
  | succ fuel ih =>
    unfold fetchPages at h
    have hframe := saveEach_pulls save describe hsave (list page).items s
    revert h
    cases (list page).err with
    | some err =>
      cases (list page).resp with
      | none => simp only [Option.some.injEq, Prod.mk.injEq]; rintro ⟨rfl, -⟩; rfl
      | some resp => simp only [Option.some.injEq, Prod.mk.injEq]; rintro ⟨rfl, -⟩; rfl
    | none =>
      rcases hse : saveEach save describe s (list page).items with ⟨s2, _ | e2⟩
      · rw [hse] at hframe
        simp only at hframe
        cases (list page).resp with
        | none => simp only [Option.some.injEq, Prod.mk.injEq]; rintro ⟨rfl, -⟩; exact hframe
        | some resp =>
          simp only
          split_ifs with hnp
          · simp only [Option.some.injEq, Prod.mk.injEq]; rintro ⟨rfl, -⟩; exact hframe
          · intro h
            rw [ih _ _ h, hframe]
      · rw [hse] at hframe
        simp only at hframe
        simp only [Option.some.injEq, Prod.mk.injEq]; rintro ⟨rfl, -⟩; exact hframe

theorem thenFetch_pulls (first : Option (Store × Exit)) (firstMsg : String)
    (second : Store → Option (Store × Exit)) (secondMsg : String) (s s2 : Store) (e : Exit)
    (h1 : ∀ s1 e1, first = some (s1, e1) → s1.pulls = s.pulls)
    (h2 : ∀ s1 s3 e3, second s1 = some (s3, e3) → s3.pulls = s1.pulls)
    (h : thenFetch first firstMsg second secondMsg = some (s2, e)) : s2.pulls = s.pulls := by
  unfold thenFetch at h
  rcases first with _ | ⟨s1, e1⟩
  · simp at h
  · have hs1 := h1 s1 e1 rfl
    cases e1 with
    | nil =>
      simp only at h
      rcases hsec : second s1 with _ | ⟨s3, e3⟩
      · rw [hsec] at h; simp at h
      · rw [hsec] at h
        simp only [Option.some.injEq, Prod.mk.injEq] at h
        rw [← h.1, h2 s1 s3 e3 hsec, hs1]
    | err e0 =>
      simp only [Option.some.injEq, Prod.mk.injEq] at h
      rw [← h.1, hs1]
    | panicked =>
      simp only [Option.some.injEq, Prod.mk.injEq] at h
      rw [← h.1, hs1]

theorem SaveReview_pulls (lower : Char → Char) (s s1 : Store) (r : models.Review)
    (h : SaveReview lower s r = Except.ok s1) : s1.pulls = s.pulls := by
  unfold SaveReview at h
  cases hm : r.marshalError with
  | some err => simp [hm] at h
  | none =>
    simp only [hm] at h
    split_ifs at h <;>
    · simp only [Except.ok.injEq] at h
      rw [← h]

theorem saveComment_keeps_pulls (clock : Nat → Time) (s : Store) (row : Comment) :
    (saveComment clock s row).pulls = s.pulls := by
  unfold saveComment
  split_ifs <;> rfl

theorem SaveComment_pulls (lower : Char → Char) (clock : Nat → Time) (s s1 : Store)
    (r : models.Comment) (h : SaveComment lower clock s r = Except.ok s1) :
    s1.pulls = s.pulls := by
  unfold SaveComment at h
  cases hm : r.marshalError with
  | some err => simp [hm] at h
  | none =>
    simp only [hm, Except.ok.injEq] at h
    rw [← h, saveComment_keeps_pulls]

theorem SaveFile_pulls (s s1 : Store) (r : models.File)
    (h : SaveFile s r = Except.ok s1) : s1.pulls = s.pulls := by
  unfold SaveFile at h
  simp only at h
  split_ifs at h <;>
  · simp only [Except.ok.injEq] at h
    rw [← h]

/-- Fetching the details of a pull request leaves table `pulls` as it is. -/
theorem fetchPRDetails_pulls (api : gogithub.Api) (c : Client) (lower : Char → Char)
    (clock : Nat → Time) (fuel : Nat) (number : Int) (s s1 : Store) (e : Exit)
    (h : fetchPRDetails api c lower clock fuel number s = some (s1, e)) :
    s1.pulls = s.pulls := by
  unfold fetchPRDetails at h
  rcases hrev : FetchReviews api c lower fuel number s with _ | ⟨s2, e2⟩
  · rw [hrev] at h; simp at h
  · rw [hrev] at h
    have hs2 : s2.pulls = s.pulls :=
      fetchPages_pulls _ _ _ _ (fun s a s1 => SaveReview_pulls lower s s1 _) _ _ _ _ _ hrev
    cases e2 with
    | nil =>
      simp only at h
      rw [← hs2]
      refine thenFetch_pulls _ _ _ _ s2 s1 e ?_ ?_ h
      · intro s3 e3 h3
        refine thenFetch_pulls _ _ _ _ s2 s3 e3 ?_ ?_ h3
        · intro s4 e4 h4
          exact fetchPages_pulls _ _ _ _
            (fun s a s1 => SaveComment_pulls lower clock s s1 _) _ _ _ _ _ h4
        · intro s4 s5 e5 h5
          exact fetchPages_pulls _ _ _ _
            (fun s a s1 => SaveComment_pulls lower clock s s1 _) _ _ _ _ _ h5
      · intro s3 s4 e4 h4
        exact fetchPages_pulls _ _ _ _ (fun s a s1 => SaveFile_pulls s s1 _) _ _ _ _ _ h4
    | err e0 =>
      simp only [Option.some.injEq, Prod.mk.injEq] at h
      rw [← h.1, hs2]
    | panicked =>
      simp only [Option.some.injEq, Prod.mk.injEq] at h
      rw [← h.1, hs2]

/-- A pull request whose times `json.Marshal` accepts, whose id is set and
whose number no row of another id holds is saved without error. -/
theorem SavePullRequest_ok (lower : Char → Char) (clock : Nat → Time) (s : Store)
    (pr : models.PullRequest) (hjson : pr.marshalError = none) (hid : pr.ID ≠ 0)
    (h : ∀ r ∈ s.pulls, r.Number = pr.Number → r.ID = pr.ID) :
    ∃ s1, SavePullRequest lower clock s pr = Except.ok s1 := by
  unfold SavePullRequest
  simp only [hjson]
  unfold savePull
  rw [if_neg hid, if_neg]
  · split_ifs <;> exact ⟨_, rfl⟩
  · simp only [List.any_eq_true, decide_eq_true_eq, not_exists, not_and, not_not]
    intro r hr hnum
    exact h r hr hnum

theorem Persisted_refl (table : List Pull) : Persisted table table [] :=
  ⟨fun _ hr => Or.inl hr, fun _ h => by simp at h, fun _ hr _ => hr⟩

theorem Persisted_trans (t0 t1 t2 : List Pull) (as bs : List gogithub.PullRequest)
    (h1 : Persisted t0 t1 as) (h2 : Persisted t1 t2 bs) : Persisted t0 t2 (as ++ bs) := by
  obtain ⟨a1, a2, a3⟩ := h1
  obtain ⟨b1, b2, b3⟩ := h2
  refine ⟨?_, ?_, ?_⟩
  · intro r hr
    rcases b1 r hr with h | ⟨pr, hpr, h⟩
    · rcases a1 r h with h0 | ⟨pr, hpr, h0⟩
      · exact Or.inl h0
      · exact Or.inr ⟨pr, List.mem_append_left _ hpr, h0⟩
    · exact Or.inr ⟨pr, List.mem_append_right _ hpr, h⟩
  · intro pr hpr
    by_cases hb : ∃ q ∈ bs, q.ID = pr.ID
    · obtain ⟨q, hq, hqid⟩ := hb
      obtain ⟨r, hr, hrid, q1, hq1, hq1id, hrest⟩ := b2 q hq
      exact ⟨r, hr, hrid.trans hqid, q1, List.mem_append_right _ hq1, hq1id.trans hqid, hrest⟩
    · have hpa : pr ∈ as := by
        rcases List.mem_append.mp hpr with h | h
        · exact h
        · exact absurd ⟨pr, h, rfl⟩ hb
      obtain ⟨r, hr, hrid, q1, hq1, hq1id, hrest⟩ := a2 pr hpa
      refine ⟨r, b3 r hr ?_, hrid, q1, List.mem_append_left _ hq1, hq1id, hrest⟩
      intro q hq hqid
      exact hb ⟨q, hq, hqid.trans hrid⟩
  · intro r hr hno
    exact b3 r (a3 r hr fun pr hpr => hno pr (List.mem_append_left _ hpr))
      fun pr hpr => hno pr (List.mem_append_right _ hpr)

/-- Saving one listed pull request is the saving of that pull request. -/
theorem Persisted_save (lower : Char → Char) (clock : Nat → Time) (s s1 : Store)
    (pr : gogithub.PullRequest) (hid : pr.ID ≠ 0)
    (h : SavePullRequest lower clock s (convertPullRequest pr) = Except.ok s1) :
    Persisted s.pulls s1.pulls [pr] := by
  obtain ⟨-, written, hmem, hraw, hnum, -, hwid, hrows, hkeep, -⟩ :=
    SavePullRequest_spec lower clock s s1 _ h
  have hwid2 : written.ID = pr.ID := hwid hid
  refine ⟨?_, ?_, ?_⟩
  · intro r hr
    rcases hrows r hr with h1 | ⟨h1, -⟩
    · subst h1
      exact Or.inr ⟨pr, by simp, hwid2, hnum, hraw⟩
    · exact Or.inl h1
  · intro q hq
    simp only [List.mem_singleton] at hq
    subst hq
    exact ⟨written, hmem, hwid2, q, by simp, rfl, hnum, hraw⟩
  · intro r hr hno
    exact hkeep r hr (fun heq => hno pr (by simp) (hwid2.symm.trans heq.symm))

end github

namespace github

open cache

theorem beforeStale_cons_pos (since : Time) (pr : gogithub.PullRequest)
    (rest : List gogithub.PullRequest) (h : since.nanos ≤ pr.UpdatedAt.nanos) :
    beforeStale since (pr :: rest) = pr :: beforeStale since rest := by
  simp [beforeStale, List.takeWhile_cons, h]

theorem beforeStale_cons_neg (since : Time) (pr : gogithub.PullRequest)
    (rest : List gogithub.PullRequest) (h : ¬ since.nanos ≤ pr.UpdatedAt.nanos) :
    beforeStale since (pr :: rest) = [] := by
  simp [beforeStale, List.takeWhile_cons, h]

theorem beforeStale_append_pos (since : Time) (items rest : List gogithub.PullRequest)
    (h : items.all (fun pr => decide (since.nanos ≤ pr.UpdatedAt.nanos)) = true) :
    beforeStale since (items ++ rest) = items ++ beforeStale since rest := by
  have htw : ∀ a ∈ items, decide (since.nanos ≤ a.UpdatedAt.nanos) = true := by
    simpa using h
  unfold beforeStale
  rw [List.takeWhile_append_of_pos htw]

theorem beforeStale_append_neg (since : Time) (items rest : List gogithub.PullRequest)
    (h : ¬ items.all (fun pr => decide (since.nanos ≤ pr.UpdatedAt.nanos)) = true) :
    beforeStale since (items ++ rest) = beforeStale since items := by
  unfold beforeStale
  rw [List.takeWhile_append]
  have hlen : ¬ (List.takeWhile (fun pr => decide (since.nanos ≤ pr.UpdatedAt.nanos))
      items).length = items.length := by
    intro hl
    apply h
    have := (List.takeWhile_eq_self_iff).mp
      (List.IsPrefix.eq_of_length (List.takeWhile_prefix _) hl)
    simpa using this
  simp [hlen]

/-- The loop over one page: when no save and no detail fetch of a pull request
before the first stale one fails, the loop saves those pull requests, in order,
and no other. -/
theorem fetchListed_spec (api : gogithub.Api) (c : Client) (lower : Char → Char)
    (clock : Nat → Time) (fuel : Nat) (since : Time) (hsince : since.IsZero = false)
    (prs later : List gogithub.PullRequest) (run : Run)
    (hagree : NumbersAgree run.store.pulls (beforeStale since prs ++ later))
    (hid : ∀ pr ∈ beforeStale since prs, pr.ID ≠ 0)
    (hjson : ∀ pr ∈ beforeStale since prs, (convertPullRequest pr).marshalError = none)
    (hdetails : ∀ pr ∈ beforeStale since prs, ∀ st, ∃ st1,
      fetchPRDetails api c lower clock fuel pr.Number st = some (st1, Exit.nil)) :
    ∃ run1, fetchListed api c lower clock fuel since prs run
        = some (run1, if prs.all (fun pr => decide (since.nanos ≤ pr.UpdatedAt.nanos)) = true
            then none else some Exit.nil) ∧
      run1.saved = run.saved ++ (beforeStale since prs).map convertPullRequest ∧
      run1.listCalls = run.listCalls ∧
      Persisted run.store.pulls run1.store.pulls (beforeStale since prs) ∧
      NumbersAgree run1.store.pulls later := by
  induction prs generalizing run with
  | nil =>
    refine ⟨run, by simp [fetchListed], by simp [beforeStale], rfl, ?_, ?_⟩
    · exact Persisted_refl _
    · simpa [beforeStale] using hagree
  | cons pr rest ih =>
    by_cases hfresh : since.nanos ≤ pr.UpdatedAt.nanos
    · rw [beforeStale_cons_pos since pr rest hfresh] at hagree hid hjson hdetails ⊢
      obtain ⟨hrows, hpair⟩ := hagree
      have hnb : (!since.IsZero && pr.UpdatedAt.Before since) = false := by
        simp [Time.Before, hfresh]
      have hprid : pr.ID ≠ 0 := hid pr (by simp)
      obtain ⟨s1, hs1⟩ := SavePullRequest_ok lower clock run.store (convertPullRequest pr)
        (hjson pr (by simp)) hprid (fun r hr => hrows r hr pr (by simp))
      obtain ⟨-, written, -, -, hnum, -, hwid, hs1rows, -⟩ :=
        SavePullRequest_spec lower clock run.store s1 _ hs1
      have hwid2 : written.ID = pr.ID := hwid hprid
      have hstep := Persisted_save lower clock run.store s1 pr hprid hs1
      obtain ⟨st1, hst1⟩ := hdetails pr (by simp) s1
      have hpulls := fetchPRDetails_pulls _ _ _ _ _ _ _ _ _ hst1
      obtain ⟨run1, hrun1, hsaved, hcalls, hpers, hag⟩ := ih
        { store := st1, listCalls := run.listCalls,
          saved := run.saved ++ [convertPullRequest pr] }
        (by
          refine ⟨?_, fun p hp q hq => hpair p (by simp at hp ⊢; tauto) q (by simp at hq ⊢; tauto)⟩
          intro r hr p hp hnum2
          simp only at hr
          rw [hpulls] at hr
          rcases hs1rows r hr with h1 | ⟨h1, -⟩
          · subst h1
            rw [hwid2]
            have hnum3 : pr.Number = p.Number := hnum.symm.trans hnum2
            exact hpair pr (by simp) p (by simp at hp ⊢; tauto) hnum3
          · exact hrows r h1 p (by simp at hp ⊢; tauto) hnum2)
        (fun p hp => hid p (by simp [hp]))
        (fun p hp => hjson p (by simp [hp]))
        (fun p hp => hdetails p (by simp [hp]))
      refine ⟨run1, ?_, ?_, ?_, ?_, hag⟩
      · unfold fetchListed
        simp only [hnb, Bool.false_eq_true, if_false, hs1, hst1, hrun1, List.all_cons, hfresh,
          decide_True, Bool.true_and]
      · simp [hsaved]
      · simp [hcalls]
      · have h2 : Persisted run.store.pulls st1.pulls [pr] := by
          rw [hpulls]
          exact hstep
        exact Persisted_trans _ _ _ [pr] _ h2 hpers
    · rw [beforeStale_cons_neg since pr rest hfresh] at hagree ⊢
      have hb : (!since.IsZero && pr.UpdatedAt.Before since) = true := by
        simp only [Time.Before, hsince, Bool.not_false, Bool.true_and, decide_eq_true_eq]
        omega
      refine ⟨run, ?_, ?_, rfl, Persisted_refl _, ?_⟩
      · unfold fetchListed
        simp [hb, hfresh]
      · simp
      · simpa using hagree

/-- The loop over the pages: when no list call fails and no save and no detail
fetch of a pull request before the first stale one fails, the loop saves those
pull requests and no other, and lists no page after the one that holds the
first stale pull request. -/
theorem fetchListPages_spec (api : gogithub.Api) (c : Client) (lower : Char → Char)
    (clock : Nat → Time) (fuel : Nat) (since : Time) (hsince : since.IsZero = false)
    (page : Nat) (pages : List (List gogithub.PullRequest))
    (hserves : gogithub.Serves api.ListPullRequests page pages)
    (bound : Nat) (hbound : pages.length ≤ bound) (run : Run)
    (hagree : NumbersAgree run.store.pulls (beforeStale since pages.flatten))
    (hid : ∀ pr ∈ beforeStale since pages.flatten, pr.ID ≠ 0)
    (hjson : ∀ pr ∈ beforeStale since pages.flatten,
      (convertPullRequest pr).marshalError = none)
    (hdetails : ∀ pr ∈ beforeStale since pages.flatten, ∀ st, ∃ st1,
      fetchPRDetails api c lower clock fuel pr.Number st = some (st1, Exit.nil)) :
    ∃ run1, fetchListPages api c lower clock fuel since bound page run
        = some (run1,
            if pages.flatten.all (fun pr => decide (since.nanos ≤ pr.UpdatedAt.nanos)) = true
            then none else some Exit.nil) ∧
      run1.saved = run.saved ++ (beforeStale since pages.flatten).map convertPullRequest ∧
      run1.listCalls = run.listCalls +
        min ((pages.takeWhile fun items =>
          items.all fun pr => decide (since.nanos ≤ pr.UpdatedAt.nanos)).length + 1)
          pages.length ∧
      Persisted run.store.pulls run1.store.pulls (beforeStale since pages.flatten) := by
  induction hserves generalizing bound run with
  | last page items r h =>
    obtain ⟨b, rfl⟩ : ∃ b, bound = b + 1 := ⟨bound - 1, by simp at hbound; omega⟩
    simp only [List.flatten_cons, List.flatten_nil, List.append_nil] at hagree hid hjson hdetails ⊢
    obtain ⟨run1, hrun1, hsaved, hcalls, hpers, -⟩ := fetchListed_spec api c lower clock fuel
      since hsince items [] { run with listCalls := run.listCalls + 1 } (by simpa using hagree)
      hid hjson hdetails
    refine ⟨run1, ?_, hsaved, ?_, hpers⟩
    · unfold fetchListPages
      simp only [h, hrun1]
      split_ifs <;> simp
    · rw [hcalls]
      simp only [List.length_singleton]
      have : 1 ≤ (List.takeWhile (fun items => items.all fun pr =>
        decide (since.nanos ≤ pr.UpdatedAt.nanos)) [items]).length + 1 := by omega
      omega
  | more page next items rest r h hnext hrest ih =>
    obtain ⟨b, rfl⟩ : ∃ b, bound = b + 1 := ⟨bound - 1, by simp at hbound; omega⟩
    simp only [List.flatten_cons] at hagree hid hjson hdetails ⊢
    by_cases hall : items.all (fun pr => decide (since.nanos ≤ pr.UpdatedAt.nanos)) = true
    · rw [beforeStale_append_pos since items _ hall] at hagree hid hjson hdetails ⊢
      have hself : beforeStale since items = items := by
        have := beforeStale_append_pos since items [] hall
        simpa [beforeStale] using this
      obtain ⟨run1, hrun1, hsaved, hcalls, hpers, hag⟩ := fetchListed_spec api c lower clock fuel
        since hsince items (beforeStale since rest.flatten)
        { run with listCalls := run.listCalls + 1 } (by rw [hself]; exact hagree)
        (fun pr hpr => hid pr (by rw [hself] at hpr; simp [hpr]))
        (fun pr hpr => hjson pr (by rw [hself] at hpr; simp [hpr]))
        (fun pr hpr => hdetails pr (by rw [hself] at hpr; simp [hpr]))
      rw [hself] at hsaved hpers
      obtain ⟨run2, hrun2, hsaved2, hcalls2, hpers2⟩ := ih b (by simp at hbound; omega) run1 hag
        (fun pr hpr => hid pr (by simp [hpr]))
        (fun pr hpr => hjson pr (by simp [hpr]))
        (fun pr hpr => hdetails pr (by simp [hpr]))
      refine ⟨run2, ?_, ?_, ?_, ?_⟩
      · unfold fetchListPages
        simp only [h, hrun1, hall, if_true, hnext, if_false, hrun2,
          List.all_append, Bool.true_and]
      · rw [hsaved2, hsaved]
        simp
      · rw [hcalls2, hcalls]
        simp only [List.takeWhile_cons, hall, if_true, List.length_cons]
        omega
      · exact Persisted_trans _ _ _ _ _ hpers hpers2
    · rw [beforeStale_append_neg since items _ hall] at hagree hid hjson hdetails ⊢
      obtain ⟨run1, hrun1, hsaved, hcalls, hpers, -⟩ := fetchListed_spec api c lower clock fuel
        since hsince items [] { run with listCalls := run.listCalls + 1 }
        (by simpa using hagree) hid hjson hdetails
      refine ⟨run1, ?_, hsaved, ?_, hpers⟩
      · unfold fetchListPages
        simp only [h, hrun1, hall, Bool.false_eq_true, if_false,
          List.all_append, Bool.and_eq_true, false_and]
      · rw [hcalls]
        simp only [List.takeWhile_cons, hall, Bool.false_eq_true, if_false, List.length_nil,
          List.length_cons]
        omega

theorem GetRepository_ne_empty (c : Client) : GetRepository c ≠ "" := by
  intro h
  have := congrArg String.length h
  simp only [GetRepository, String.length_append] at this
  have h1 : "/".length = 1 := rfl
  have h0 : "".length = 0 := rfl
  omega

end github


/-! ## Reactions -/


theorem GoMap.set_ne_nil (m : GoMap) (k : String) (v : Int) : GoMap.set m k v ≠ [] := by
  cases m with
  | nil => simp [GoMap.set]
  | cons e rest =>
    obtain ⟨k1, v1⟩ := e
    unfold GoMap.set
    split_ifs <;> simp


theorem mapGet_nonempty (l : GoMap) (k : String) :
    mapGet (if l.length = 0 then none else some l) k = GoMap.get? l k := by
  cases l with
  | nil => rfl
  | cons e rest => simp [mapGet]

namespace github

theorem get?_addReaction (m : GoMap) (k k0 : String) (n : Int) :
    GoMap.get? (addReaction m k n) k0 = if n > 0 ∧ k = k0 then some n else GoMap.get? m k0 := by
  unfold addReaction
  by_cases hc : n > 0 <;> simp [hc, GoMap.get?_set]

theorem addReaction_eq_nil (m : GoMap) (k : String) (n : Int) :
    addReaction m k n = [] ↔ n ≤ 0 ∧ m = [] := by
  unfold addReaction
  by_cases hc : n > 0
  · simp [hc, GoMap.set_ne_nil]
  · simp only [hc, if_false, iff_and_self]
    intro _
    omega

end github

/-! ## The JSONL exporter -/

namespace exporter

theorem transformComments_getElem? (loopVar : LoopVar) (e : JSONLExporter)
    (comments : List models.Comment) (i : Nat) :
    (transformComments loopVar e comments)[i]?
      = (comments[i]?).map (transformComment loopVar e comments) := by
  simp [transformComments]

theorem lookup_omitEmptyPtrTime_last (k k0 : String) (p : Option Time) (h : k ≠ k0) :
    List.lookup k (omitEmptyPtrTime k0 p) = none := by
  have := lookup_omitEmptyPtrTime_ne k k0 p [] h
  simpa using this

theorem lookup_omitEmptyCodeContext_ne (k k0 : String) (p : Option models.CodeContext)
    (ms : List (String × Json)) (h : k ≠ k0) :
    List.lookup k (omitEmptyCodeContext k0 p ++ ms) = List.lookup k ms := by
  cases p <;> simp [omitEmptyCodeContext, lookup_cons_ne, h]

/-- The members `file_path`, `line`, `side`, `code_context` and `updated_at` of
a marshalled exported comment. -/
theorem ExportComment.marshal_members (c : ExportComment) :
    (c.marshal.member "file_path" = if c.FilePath = "" then none else some (Json.str c.FilePath)) ∧
    (c.marshal.member "line" = c.Line.map Json.num) ∧
    (c.marshal.member "side" = if c.Side = "" then none else some (Json.str c.Side)) ∧
    (c.marshal.member "code_context" = c.CodeContext.map marshalCodeContext) ∧
    (c.marshal.member "updated_at" = c.UpdatedAt.map Json.time) := by
  simp only [ExportComment.marshal, Json.member, List.append_assoc, List.cons_append,
    List.nil_append]
  refine ⟨?_, ?_, ?_, ?_, ?_⟩
  · simp (disch := simp) only [lookup_cons_ne]
    unfold omitEmptyStr
    split_ifs <;> simp (disch := simp [lookup_cons_ne, lookup_omitEmptyStr_ne,
      lookup_omitEmptyPtrInt_ne, lookup_omitEmptyMap_ne, lookup_omitEmptyCodeContext_ne,
      lookup_omitEmptyPtrTime_last, lookup_nil]) only [lookup_cons_self, lookup_cons_ne,
      lookup_omitEmptyStr_ne, lookup_omitEmptyPtrInt_ne, lookup_omitEmptyMap_ne,
      lookup_omitEmptyCodeContext_ne, lookup_omitEmptyPtrTime_last, lookup_nil, List.nil_append,
      List.cons_append, ne_eq, not_false_eq_true]
  · cases c.Line <;> simp (disch := simp [lookup_cons_ne, lookup_omitEmptyStr_ne,
      lookup_omitEmptyPtrInt_ne, lookup_omitEmptyMap_ne, lookup_omitEmptyCodeContext_ne,
      lookup_omitEmptyPtrTime_last, lookup_nil]) only [omitEmptyPtrInt, Option.map, lookup_cons_self, lookup_cons_ne,
      lookup_omitEmptyStr_ne, lookup_omitEmptyPtrInt_ne, lookup_omitEmptyMap_ne,
      lookup_omitEmptyCodeContext_ne, lookup_omitEmptyPtrTime_last, lookup_nil, List.nil_append,
      List.cons_append, ne_eq, not_false_eq_true]
  · simp (disch := simp [lookup_cons_ne, lookup_omitEmptyStr_ne,
      lookup_omitEmptyPtrInt_ne, lookup_omitEmptyMap_ne, lookup_omitEmptyCodeContext_ne,
      lookup_omitEmptyPtrTime_last, lookup_nil]) only [lookup_cons_ne, lookup_omitEmptyStr_ne,
      lookup_omitEmptyPtrInt_ne, ne_eq, not_false_eq_true]
    unfold omitEmptyStr
    split_ifs <;> simp (disch := simp [lookup_cons_ne, lookup_omitEmptyStr_ne,
      lookup_omitEmptyPtrInt_ne, lookup_omitEmptyMap_ne, lookup_omitEmptyCodeContext_ne,
      lookup_omitEmptyPtrTime_last, lookup_nil]) only [lookup_cons_self, lookup_cons_ne,
      lookup_omitEmptyStr_ne, lookup_omitEmptyPtrInt_ne, lookup_omitEmptyMap_ne,
      lookup_omitEmptyCodeContext_ne, lookup_omitEmptyPtrTime_last, lookup_nil, List.nil_append,
      List.cons_append, ne_eq, not_false_eq_true]
  · cases c.CodeContext <;> simp (disch := simp [lookup_cons_ne, lookup_omitEmptyStr_ne,
      lookup_omitEmptyPtrInt_ne, lookup_omitEmptyMap_ne, lookup_omitEmptyCodeContext_ne,
      lookup_omitEmptyPtrTime_last, lookup_nil]) only [omitEmptyCodeContext, Option.map, lookup_cons_self, lookup_cons_ne,
      lookup_omitEmptyStr_ne, lookup_omitEmptyPtrInt_ne, lookup_omitEmptyMap_ne,
      lookup_omitEmptyCodeContext_ne, lookup_omitEmptyPtrTime_last, lookup_nil, List.nil_append,
      List.cons_append, ne_eq, not_false_eq_true]
  · cases c.UpdatedAt <;> simp (disch := simp [lookup_cons_ne, lookup_omitEmptyStr_ne,
      lookup_omitEmptyPtrInt_ne, lookup_omitEmptyMap_ne, lookup_omitEmptyCodeContext_ne,
      lookup_omitEmptyPtrTime_last, lookup_nil]) only [omitEmptyPtrTime, Option.map, lookup_cons_self, lookup_cons_ne,
      lookup_omitEmptyStr_ne, lookup_omitEmptyPtrInt_ne, lookup_omitEmptyMap_ne,
      lookup_omitEmptyCodeContext_ne, lookup_omitEmptyPtrTime_last, lookup_nil, List.nil_append,
      List.cons_append, ne_eq, not_false_eq_true]

end exporter

/-! ## Saving and reading back -/

namespace cache

/-- After a successful `SavePullRequest`, `GetPullRequest` for the number of
the pull request reads back what `json.Unmarshal` makes of its `RawJSON`. -/
theorem GetPullRequest_SavePullRequest (unicodeToLower : Char → Char) (clock : Nat → Time)
    (s s1 : Store) (pr : models.PullRequest)
    (hsave : SavePullRequest unicodeToLower clock s pr = Except.ok s1) :
    GetPullRequest s1 pr.Number = Except.ok { pr with
      Files := pr.Files.map fun f => { f with PullNumber := 0 }
      Reviews := pr.Reviews.map fun r => { r with PullNumber := 0 }
      Comments := pr.Comments.map fun c => { c with Reactions := rereadMap c.Reactions } } := by
  obtain ⟨-, written, hmem, hraw, hnum, -, -, hrows, -, hconf, -⟩ :=
    SavePullRequest_spec unicodeToLower clock s s1 pr hsave
  have hperm : (scanPulls s1).Perm s1.pulls := List.perm_insertionSort _ _
  unfold GetPullRequest
  rw [find?_eq_some_of_unique _ _ written (hperm.symm.subset hmem) (by simp [hnum])]
  · simp only [hraw, models.pullRequest_round_trip]
  · intro b hb hb2
    simp only [decide_eq_true_eq] at hb2
    rcases hrows b (hperm.subset hb) with h | ⟨h1, h2⟩
    · exact h
    · exact absurd (hconf b h1 hb2) h2

end cache

namespace exporter

/-- With a new loop variable in each iteration (Go 1.22 and later), the pointer
stored in `UpdatedAt` reads the update time of the comment of its own
iteration, and it is set exactly when that time is not the creation time. -/
theorem transformComments_updatedAt_perIteration (e : JSONLExporter)
    (comments : List models.Comment) (i : Nat) (c : models.Comment)
    (hc : comments[i]? = some c) :
    ∃ ec, (transformComments LoopVar.perIteration e comments)[i]? = some ec ∧
      (ec.UpdatedAt.isSome = true ↔ c.UpdatedAt.Equal c.CreatedAt = false) ∧
      (∀ t, ec.UpdatedAt = some t → t = c.UpdatedAt) := by
  refine ⟨transformComment LoopVar.perIteration e comments c, ?_, ?_, ?_⟩
  · rw [transformComments_getElem?, hc]
    rfl
  · unfold transformComment
    split_ifs <;> simp_all
  · intro t
    unfold transformComment
    split_ifs <;> simp_all [rangeVarAfterLoop]

/-- With one loop variable for the whole loop (Go before 1.22), every pointer
stored in `UpdatedAt` reads the update time of the last comment: of two
comments, the first updated at 2 and the second never updated after its
creation at 5, the first is exported with the update time 5. -/
theorem transformComments_updatedAt_perLoop :
    (transformComments LoopVar.perLoop ⟨"out.jsonl", false⟩
      [sample.comment 1 1 2 "", sample.comment 2 5 5 ""]).map (fun ec => ec.UpdatedAt)
      = [some ⟨5⟩, none] ∧
    (transformComments LoopVar.perIteration ⟨"out.jsonl", false⟩
      [sample.comment 1 1 2 "", sample.comment 2 5 5 ""]).map (fun ec => ec.UpdatedAt)
      = [some ⟨2⟩, none] := by
  decide

end exporter

/-! ## The CSV exporter, file names and dates -/

namespace strings

theorem splitChars_length (sep : Char) (l : List Char) :
    (splitChars sep l).length = l.count sep + 1 := by
  induction l with
  | nil => rfl
  | cons c cs ih =>
    unfold splitChars
    by_cases h : c = sep
    · subst h
      simp [ih]
    · have hb : (c == sep) = false := by simpa using h
      simp only [h, if_false]
      rcases hs : splitChars sep cs with _ | ⟨piece, pieces⟩
      · rw [hs] at ih
        simp at ih
      · rw [hs] at ih
        simp only [List.length_cons] at ih ⊢
        rw [List.count_cons, hb]
        simpa using ih

theorem Split_length (s : String) (sep : Char) :
    (Split s sep).length = s.data.count sep + 1 := by
  simp [Split, splitChars_length]

end strings

namespace exporter

theorem serializeUsers_eq (e : CSVExporter) (users : List models.User) :
    serializeUsers e users = strings.Join (users.map fun user => user.Login) ";" := by
  unfold serializeUsers
  cases users <;> simp [strings.Join]

theorem serializeLabels_eq (e : CSVExporter) (labels : List models.Label) :
    serializeLabels e labels = strings.Join (labels.map fun label => label.Name) ";" := by
  unfold serializeLabels
  cases labels <;> simp [strings.Join]

theorem getFilePaths_eq (e : CSVExporter) (files : List models.File) :
    getFilePaths e files = strings.Join (files.map fun file => file.Filename) ";" := by
  unfold getFilePaths
  cases files <;> simp [strings.Join]

end exporter

theorem utf8Char_mem (c : Char) (b : Nat) (h : b ∈ utf8Char c) :
    (b = c.toNat ∧ c.toNat < 128) ∨ 128 ≤ b := by
  unfold utf8Char at h
  simp only at h
  split_ifs at h with h1 h2 h3
  · simp only [List.mem_singleton] at h
    exact Or.inl ⟨h, h1⟩
  all_goals
    simp only [List.mem_cons, List.mem_singleton, List.not_mem_nil, or_false] at h
    right
    omega

theorem utf8Chars_mem (l : List Char) (b : Nat) (h : b ∈ utf8Chars l) :
    (∃ c ∈ l, b = c.toNat) ∨ 128 ≤ b := by
  induction l with
  | nil => simp [utf8Chars] at h
  | cons c cs ih =>
    simp only [utf8Chars, List.mem_append] at h
    rcases h with h | h
    · rcases utf8Char_mem c b h with ⟨h1, _⟩ | h1
      · exact Or.inl ⟨c, by simp, h1⟩
      · exact Or.inr h1
    · rcases ih h with ⟨c1, hc1, h1⟩ | h1
      · exact Or.inl ⟨c1, by simp [hc1], h1⟩
      · exact Or.inr h1

theorem char_eq_of_toNat (c : Char) (n : Nat) (h : n = c.toNat) : c = Char.ofNat n := by
  rw [h, Char.ofNat_toNat]

namespace exporter

theorem cleanCsvValue_data (value : String) :
    (cleanCsvValue value).data
      = value.data.map fun c => if c = '\n' ∨ c = '\t' ∨ c = '\r' then ' ' else c := by
  simp only [cleanCsvValue, strings.ReplaceAll, List.map_map]
  apply List.map_congr_left
  intro c _
  simp only [Function.comp]
  by_cases h1 : c = '\n'
  · subst h1; decide
  · by_cases h2 : c = '\t'
    · subst h2; decide
    · by_cases h3 : c = '\r'
      · subst h3; decide
      · simp [h1, h2, h3]

theorem cleanCsvValue_no_break (value : String) (c : Char) (hc : c ∈ (cleanCsvValue value).data) :
    c ≠ '\n' ∧ c ≠ '\t' ∧ c ≠ '\r' := by
  rw [cleanCsvValue_data] at hc
  obtain ⟨c0, _, h0⟩ := List.mem_map.mp hc
  split_ifs at h0 with h
  · subst h0; decide
  · subst h0
    simpa [not_or] using h

end exporter

theorem GoMap.keys_set (m : GoMap) (k : String) (v : Int) :
    (GoMap.set m k v).map Prod.fst
      = if k ∈ m.map Prod.fst then m.map Prod.fst else m.map Prod.fst ++ [k] := by
  induction m with
  | nil => simp [GoMap.set]
  | cons e rest ih =>
    obtain ⟨k1, v1⟩ := e
    unfold GoMap.set
    by_cases h : k1 = k
    · subst h
      simp
    · have h' : ¬ k = k1 := fun hk => h hk.symm
      simp only [h, if_false, List.map_cons, ih, List.mem_cons, h', false_or]
      split_ifs <;> simp

theorem GoMap.get?_eq_none_iff (m : GoMap) (k : String) :
    GoMap.get? m k = none ↔ k ∉ m.map Prod.fst := by
  induction m with
  | nil => simp [GoMap.get?]
  | cons e rest ih =>
    obtain ⟨k1, v1⟩ := e
    unfold GoMap.get?
    by_cases h : k1 = k
    · subst h
      simp
    · have h' : ¬ k = k1 := fun hk => h hk.symm
      simp [h, h', ih]

theorem GoMap.sum_set (m : GoMap) (k : String) (v : Int) :
    ((GoMap.set m k v).map Prod.snd).sum
      = (m.map Prod.snd).sum - (GoMap.get? m k).getD 0 + v := by
  induction m with
  | nil => simp [GoMap.set, GoMap.get?]
  | cons e rest ih =>
    obtain ⟨k1, v1⟩ := e
    unfold GoMap.set GoMap.get?
    by_cases h : k1 = k
    · subst h
      simp
      omega
    · simp only [h, if_false, List.map_cons, List.sum_cons, ih]
      omega

theorem GoMap.get?_of_mem (m : GoMap) (hm : (m.map Prod.fst).Nodup) (k : String) (v : Int)
    (h : (k, v) ∈ m) : GoMap.get? m k = some v := by
  induction m with
  | nil => simp at h
  | cons e rest ih =>
    obtain ⟨k1, v1⟩ := e
    simp only [List.map_cons, List.nodup_cons] at hm
    unfold GoMap.get?
    rcases List.mem_cons.mp h with h1 | h1
    · simp only [Prod.mk.injEq] at h1
      simp [h1.1, h1.2]
    · have hne : ¬ k1 = k := by
        intro hk
        apply hm.1
        rw [hk]
        exact List.mem_map.mpr ⟨(k, v), h1, rfl⟩
      simp [hne, ih hm.2 h1]

namespace exporter

theorem Counts.increment (m : GoMap) (seen : List String) (k : String) (h : Counts m seen) :
    Counts (increment m k) (seen ++ [k]) := by
  obtain ⟨hnd, hget, hsum⟩ := h
  have hmem : k ∈ m.map Prod.fst ↔ k ∈ seen := by
    have := GoMap.get?_eq_none_iff m k
    rw [hget k] at this
    by_cases hk : k ∈ seen
    · simp only [hk, if_true, reduceCtorEq, false_iff, not_not] at this
      exact ⟨fun _ => hk, fun _ => this⟩
    · simp only [hk, if_false, true_iff] at this
      exact ⟨fun h => absurd h this, fun h => absurd h hk⟩
  have hgetD : (GoMap.get? m k).getD 0 = (seen.count k : Int) := by
    rw [hget k]
    by_cases hk : k ∈ seen
    · simp [hk]
    · simp [hk, List.count_eq_zero_of_not_mem hk]
  refine ⟨?_, ?_, ?_⟩
  · unfold exporter.increment
    rw [GoMap.keys_set]
    split_ifs with hk
    · exact hnd
    · exact List.Nodup.append hnd (by simp) (by simpa using hk)
  · intro k0
    unfold exporter.increment
    rw [GoMap.get?_set, hgetD]
    by_cases hk : k = k0
    · subst hk
      simp
    · have hk' : ¬ k0 = k := fun h => hk h.symm
      have hb : (k == k0) = false := by simpa using hk
      simp only [hk, if_false, hget k0, List.mem_append, List.mem_singleton, hk', or_false,
        List.count_append, List.count_singleton, hb, Bool.false_eq_true, Nat.add_zero]
  · unfold exporter.increment
    rw [GoMap.sum_set, hgetD, hsum]
    simp
    omega

theorem Counts.foldl (l : List String) (m : GoMap) (seen : List String) (h : Counts m seen) :
    Counts (l.foldl exporter.increment m) (seen ++ l) := by
  induction l generalizing m seen with
  | nil => simpa using h
  | cons k rest ih =>
    have := ih (exporter.increment m k) (seen ++ [k]) (Counts.increment m seen k h)
    simpa using this

end exporter

namespace time

theorem digitChar_digitValue (c : Char) (h : c.isDigit = true) (n : Nat)
    (hn : n % 10 = digitValue c) : digitChar n = c := by
  have h1 : 48 ≤ c.toNat ∧ c.toNat ≤ 57 := by
    simp only [Char.isDigit, Bool.and_eq_true, decide_eq_true_eq] at h
    obtain ⟨ha, hb⟩ := h
    have ha' : (48 : UInt32).toNat ≤ c.val.toNat := ha
    have hb' : c.val.toNat ≤ (57 : UInt32).toNat := hb
    exact ⟨ha', hb'⟩
  unfold digitChar
  rw [hn]
  unfold digitValue
  have : 48 + (c.toNat - 48) = c.toNat := by omega
  rw [this, Char.ofNat_toNat]

theorem digitValue_le (c : Char) (h : c.isDigit = true) : digitValue c ≤ 9 := by
  simp only [Char.isDigit, Bool.and_eq_true, decide_eq_true_eq] at h
  obtain ⟨ha, hb⟩ := h
  have hb' : c.val.toNat ≤ (57 : UInt32).toNat := hb
  unfold digitValue
  have : c.toNat ≤ 57 := hb'
  omega

/-- A value `time.Parse` accepts for the layout `2006-01-02` starts with the
year and the month as `Format("2006-01")` writes them. -/
theorem FormatYearMonth_ParseDate (value : String) (date : Date)
    (h : ParseDate value = some date) :
    FormatYearMonth date = String.mk (value.data.take 7) := by
  unfold ParseDate at h
  split at h
  · rename_i y1 y2 y3 y4 s1 m1 m2 s2 d1 d2 hdata
    split_ifs at h with hshape
    simp only at h
    split_ifs at h
    simp only [Bool.and_eq_true, beq_iff_eq] at hshape
    obtain ⟨⟨⟨⟨⟨⟨⟨⟨⟨hy1, hy2⟩, hy3⟩, hy4⟩, hs1⟩, hm1⟩, hm2⟩, hs2⟩, hd1⟩, hd2⟩ := hshape
    simp only [Option.some.injEq] at h
    subst h
    have b1 := digitValue_le y1 hy1
    have b2 := digitValue_le y2 hy2
    have b3 := digitValue_le y3 hy3
    have b4 := digitValue_le y4 hy4
    have b5 := digitValue_le m1 hm1
    have b6 := digitValue_le m2 hm2
    simp only [FormatYearMonth, hdata, List.take]
    apply congrArg String.mk
    simp only [List.cons.injEq, and_true]
    refine ⟨?_, ?_, ?_, ?_, hs1.symm, ?_, ?_⟩
    · exact digitChar_digitValue y1 hy1 _ (by omega)
    · exact digitChar_digitValue y2 hy2 _ (by omega)
    · exact digitChar_digitValue y3 hy3 _ (by omega)
    · exact digitChar_digitValue y4 hy4 _ (by omega)
    · exact digitChar_digitValue m1 hm1 _ (by omega)
    · exact digitChar_digitValue m2 hm2 _ (by omega)
  · simp at h

end time

namespace ui

theorem recent_modifier (x : String) :
    "-prs-" ++ ("recent-" ++ x) = "-prs-recent-" ++ x := by
  rw [← String.append_assoc]
  exact congrArg (fun a => a ++ x) (by decide)

end ui

namespace time

theorem digitChar_isDigit (n : Nat) :
    (digitChar n).isDigit = true ∧ digitValue (digitChar n) = n % 10 := by
  unfold digitChar
  have h : n % 10 < 10 := Nat.mod_lt _ (by decide)
  generalize n % 10 = k at h
  interval_cases k <;> decide

/-- The date written as `Format("2006-01-02")` writes it. -/
theorem ParseDate_eq_some_iff (value : String) (date : Date) :
    ParseDate value = some date ↔
      (date.year ≤ 9999 ∧ 1 ≤ date.month ∧ date.month ≤ 12 ∧ 1 ≤ date.day ∧
        date.day ≤ daysIn date.month date.year ∧
        value = String.mk [digitChar (date.year / 1000), digitChar (date.year / 100),
          digitChar (date.year / 10), digitChar date.year, '-',
          digitChar (date.month / 10), digitChar date.month, '-',
          digitChar (date.day / 10), digitChar date.day]) := by
  constructor
  · intro h
    unfold ParseDate at h
    split at h
    · rename_i y1 y2 y3 y4 s1 m1 m2 s2 d1 d2 hdata
      split_ifs at h with hshape
      simp only at h
      split_ifs at h with hmonth hday
      simp only [Bool.and_eq_true, beq_iff_eq] at hshape
      obtain ⟨⟨⟨⟨⟨⟨⟨⟨⟨hy1, hy2⟩, hy3⟩, hy4⟩, hs1⟩, hm1⟩, hm2⟩, hs2⟩, hd1⟩, hd2⟩ := hshape
      simp only [Option.some.injEq] at h
      subst h
      have b1 := digitValue_le y1 hy1
      have b2 := digitValue_le y2 hy2
      have b3 := digitValue_le y3 hy3
      have b4 := digitValue_le y4 hy4
      have b5 := digitValue_le m1 hm1
      have b6 := digitValue_le m2 hm2
      have b7 := digitValue_le d1 hd1
      have b8 := digitValue_le d2 hd2
      simp only
      refine ⟨by omega, by omega, by omega, by omega, by omega, ?_⟩
      have hv : value = String.mk value.data := rfl
      rw [hv, hdata]
      apply congrArg String.mk
      simp only [List.cons.injEq, and_true]
      refine ⟨?_, ?_, ?_, ?_, hs1, ?_, ?_, hs2, ?_, ?_⟩
      · exact (digitChar_digitValue y1 hy1 _ (by omega)).symm
      · exact (digitChar_digitValue y2 hy2 _ (by omega)).symm
      · exact (digitChar_digitValue y3 hy3 _ (by omega)).symm
      · exact (digitChar_digitValue y4 hy4 _ (by omega)).symm
      · exact (digitChar_digitValue m1 hm1 _ (by omega)).symm
      · exact (digitChar_digitValue m2 hm2 _ (by omega)).symm
      · exact (digitChar_digitValue d1 hd1 _ (by omega)).symm
      · exact (digitChar_digitValue d2 hd2 _ (by omega)).symm
    · simp at h
  · rintro ⟨hy, hm1, hm2, hd1, hd2, hv⟩
    obtain ⟨year, month, day⟩ := date
    simp only at hy hm1 hm2 hd1 hd2 hv
    have hdays : daysIn month year ≤ 31 := by
      unfold daysIn
      split_ifs <;> omega
    subst hv
    unfold ParseDate
    simp only [(digitChar_isDigit _).1, (digitChar_isDigit _).2, beq_self_eq_true, Bool.and_self,
      if_true]
    have e1 : 1000 * (year / 1000 % 10) + 100 * (year / 100 % 10) + 10 * (year / 10 % 10)
        + year % 10 = year := by omega
    have e2 : 10 * (month / 10 % 10) + month % 10 = month := by omega
    have e3 : 10 * (day / 10 % 10) + day % 10 = day := by omega
    rw [e1, e2, e3]
    rw [if_neg (by omega), if_neg (by omega)]

end time

namespace exporter

/-- The truncation of `escapeCsvValue` counts bytes: a cleaned value of at most
200 bytes is returned as it is, a longer one is cut after its first 200 bytes
and followed by `...`, 203 bytes in all. -/
theorem escapeCsvValue_bytes (e : CSVExporter) (value : String) :
    ((utf8 (cleanCsvValue value)).length ≤ 200 →
      escapeCsvValue e value = utf8 (cleanCsvValue value)) ∧
    (200 < (utf8 (cleanCsvValue value)).length →
      escapeCsvValue e value = (utf8 (cleanCsvValue value)).take 200 ++ [46, 46, 46] ∧
      (escapeCsvValue e value).length = 203) := by
  have h46 : utf8 "..." = [46, 46, 46] := by decide
  unfold escapeCsvValue
  simp only [h46]
  constructor
  · intro h
    rw [if_neg (by omega)]
  · intro h
    rw [if_pos (by omega)]
    refine ⟨rfl, ?_⟩
    simp
    omega

end exporter

/-! ## File sizes, cache reads and the analyzer service -/

namespace ui

theorem excessBits_small (fuel b : Nat) (h : b < 2 ^ 53) : excessBits fuel b = 0 := by
  cases fuel with
  | zero => rfl
  | succ n =>
    have h1 : b < 9007199254740992 := h
    simp [excessBits, h1]

/-- An integer below `2^53` is a `float64`. -/
theorem float64OfNat_exact (b : Nat) (h : b < 2 ^ 53) : float64OfNat b = b := by
  simp [float64OfNat, excessBits_small 64 b h, Nat.mod_one]

/-- The tenths `%.1f` prints are nearest to the quotient, and even at a tie. -/
theorem roundTenths_nearest (num den : Nat) (hden : 0 < den) :
    2 * |(10 * num : Int) - den * roundTenths num den| ≤ den ∧
    (2 * |(10 * num : Int) - den * roundTenths num den| = den → roundTenths num den % 2 = 0) := by
  have hdm := Nat.div_add_mod (10 * num) den
  have hr := Nat.mod_lt (10 * num) hden
  generalize hq : 10 * num / den = q at hdm
  generalize hrem : 10 * num % den = r at hdm hr
  have hsucc : (den : Int) * ((q + 1 : Nat) : Int) = den * q + den := by push_cast; ring
  have hz : (10 * num : Int) = den * q + r := by exact_mod_cast hdm.symm
  unfold roundTenths
  simp only [hq, hrem]
  by_cases hup : 2 * r > den ∨ (2 * r = den ∧ q % 2 = 1)
  · rw [if_pos hup, hsucc, hz]
    have e : (den : Int) * q + r - (den * q + den) = r - den := by ring
    rw [e, abs_of_nonpos (by omega)]
    constructor
    · omega
    · intro h
      rcases hup with h1 | ⟨h1, h2⟩
      · omega
      · omega
  · rw [if_neg hup, hz]
    have e : (den : Int) * q + r - den * q = r := by ring
    rw [e, abs_of_nonneg (by omega)]
    constructor
    · omega
    · intro h
      have h1 : 2 * r = den := by omega
      have h2 : ¬ q % 2 = 1 := fun h2 => hup (Or.inr ⟨h1, h2⟩)
      omega

end ui

namespace cache

/-- When every row found holds a text `json.Unmarshal` accepts, the `Get*` loop
returns the values read, row by row. -/
theorem decodeRows_ok {ρ α : Type} (raw : ρ → Json) (unmarshal : Json → Option α)
    (errFor : ρ → GoError) (rows : List ρ)
    (hall : ∀ r ∈ rows, (unmarshal (raw r)).isSome = true) :
    ∃ as, decodeRows raw unmarshal errFor rows = Except.ok as ∧
      rows.map (fun r => unmarshal (raw r)) = as.map some := by
  induction rows with
  | nil => exact ⟨[], rfl, rfl⟩
  | cons row rest ih =>
    obtain ⟨as, has, hmap⟩ := ih (fun r hr => hall r (List.mem_cons_of_mem _ hr))
    obtain ⟨a0, ha0⟩ := Option.isSome_iff_exists.mp (hall row (List.mem_cons_self _ _))
    exact ⟨a0 :: as, by simp [decodeRows, ha0, has], by simp [ha0, hmap]⟩

/-- What the `Get*` loop returns without error is the values read, row by
row. -/
theorem decodeRows_eq_ok {ρ α : Type} (raw : ρ → Json) (unmarshal : Json → Option α)
    (errFor : ρ → GoError) (rows : List ρ) (as : List α)
    (h : decodeRows raw unmarshal errFor rows = Except.ok as) :
    rows.map (fun r => unmarshal (raw r)) = as.map some := by
  induction rows generalizing as with
  | nil =>
    simp only [decodeRows, Except.ok.injEq] at h
    subst h
    rfl
  | cons row rest ih =>
    simp only [decodeRows] at h
    cases ha : unmarshal (raw row) with
    | none => simp [ha] at h
    | some a =>
      simp only [ha] at h
      cases hrest : decodeRows raw unmarshal errFor rest with
      | error e => simp [hrest] at h
      | ok as1 =>
        simp only [hrest, Except.ok.injEq] at h
        subst h
        simp [ha, ih as1 hrest]

/-- Two lists read row by row agree on a key the reading keeps. -/
theorem map_key_of_map_some {ρ α κ : Type} (g : ρ → Option α) (key : ρ → κ) (key1 : α → κ)
    (rows : List ρ) (as : List α) (hmap : rows.map g = as.map some)
    (hkey : ∀ r ∈ rows, ∀ a, g r = some a → key r = key1 a) :
    rows.map key = as.map key1 := by
  induction rows generalizing as with
  | nil =>
    cases as with
    | nil => rfl
    | cons a as => simp at hmap
  | cons row rest ih =>
    cases as with
    | nil => simp at hmap
    | cons a as =>
      simp only [List.map_cons, List.cons.injEq] at hmap
      simp only [List.map_cons, List.cons.injEq]
      exact ⟨hkey row (List.mem_cons_self _ _) a hmap.1,
        ih as hmap.2 (fun r hr => hkey r (List.mem_cons_of_mem _ hr))⟩

end cache

namespace cache

theorem GetReviews_ok (s : Store) (hs : s.Readable) (n : Int) :
    ∃ rs, GetReviews s n = Except.ok rs := by
  obtain ⟨as, has, _⟩ := decodeRows_ok (fun r : Review => r.RawJSON) models.Review.unmarshal
    (fun r => GoError.wrap ("unmarshaling review " ++ Itoa r.ID ++ ": ") jsonError)
    ((s.reviews.filter (fun r => decide (r.PullNumber = n))).insertionSort
      (fun a b => a.ID ≤ b.ID))
    (fun r hr => hs.1 r
      (List.mem_filter.mp ((List.perm_insertionSort _ _).subset hr)).1)
  exact ⟨as, has⟩

theorem GetComments_ok (s : Store) (hs : s.Readable) (n : Int) :
    ∃ cs, GetComments s n = Except.ok cs := by
  obtain ⟨as, has, _⟩ := decodeRows_ok (fun r : Comment => r.RawJSON) models.Comment.unmarshal
    (fun r => GoError.wrap ("unmarshaling comment " ++ Itoa r.ID ++ ": ") jsonError)
    (((s.comments.filter (fun r => decide (r.PullNumber = n))).insertionSort
      (fun a b => a.ID ≤ b.ID)).insertionSort
      (fun a b => a.CreatedAt.nanos ≤ b.CreatedAt.nanos))
    (fun r hr => hs.2.1 r
      (List.mem_filter.mp ((List.perm_insertionSort _ _).subset
        ((List.perm_insertionSort _ _).subset hr))).1)
  exact ⟨as, has⟩

theorem GetFiles_ok (s : Store) (hs : s.Readable) (n : Int) :
    ∃ fs, GetFiles s n = Except.ok fs := by
  obtain ⟨as, has, _⟩ := decodeRows_ok (fun r : File => r.RawJSON) models.File.unmarshal
    (fun r => GoError.wrap ("unmarshaling file " ++ r.Filename ++ ": ") jsonError)
    ((s.files.filter (fun r => decide (r.PullNumber = n))).insertionSort
      (fun a b => a.Filename ≤ b.Filename))
    (fun r hr => hs.2.2 r
      (List.mem_filter.mp ((List.perm_insertionSort _ _).subset hr)).1)
  exact ⟨as, has⟩

end cache

namespace analyzer

open cache

/-- On a readable store the loop over the pull requests ends without error,
each pull request loaded. -/
theorem loadChildren_ok (s : Store) (hs : s.Readable) (prs : List models.PullRequest) :
    ∃ out, loadChildren s prs = Except.ok out ∧ List.Forall₂ (Loaded s) prs out := by
  induction prs with
  | nil => exact ⟨[], rfl, List.Forall₂.nil⟩
  | cons pr rest ih =>
    obtain ⟨out, hout, hall⟩ := ih
    obtain ⟨rs, hrs⟩ := GetReviews_ok s hs pr.Number
    obtain ⟨cs, hcs⟩ := GetComments_ok s hs pr.Number
    obtain ⟨fs, hfs⟩ := GetFiles_ok s hs pr.Number
    refine ⟨{ pr with Reviews := rs, Comments := cs, Files := fs } :: out, ?_, ?_⟩
    · simp [loadChildren, hrs, hcs, hfs, hout]
    · exact List.Forall₂.cons ⟨hrs, hcs, hfs, rfl⟩ hall

theorem Loaded_numbers (s : Store) (prs out : List models.PullRequest)
    (h : List.Forall₂ (Loaded s) prs out) :
    out.map (fun pr => pr.Number) = prs.map (fun pr => pr.Number) := by
  induction h with
  | nil => rfl
  | cons hhead _ ih =>
    simp only [List.map_cons, ih, List.cons.injEq, and_true]
    rw [hhead.2.2.2]

end analyzer

namespace sample

theorem cached_readable : cached.Readable := by
  have h1 : cached.reviews = [] := rfl
  have h2 : cached.comments = [] := rfl
  have h3 : cached.files = [] := rfl
  refine ⟨fun r hr => ?_, fun r hr => ?_, fun r hr => ?_⟩
  · rw [h1] at hr; simp at hr
  · rw [h2] at hr; simp at hr
  · rw [h3] at hr; simp at hr

theorem cached_pulls : cache.GetPullRequests cached "octo/demo" Time.zero
    = Except.ok [github.convertPullRequest (pull 4 40 "octocat"),
        github.convertPullRequest (pull 2 10 "octocat"),
        github.convertPullRequest (pull 1 30 "octocat")] := rfl

end sample

theorem andThen_eq_some {α β : Type} (x : Option α) (f : α → Option β) (b : β)
    (h : andThen x f = some b) : ∃ a, x = some a ∧ f a = some b := by
  cases x with
  | none => simp [andThen] at h
  | some a => exact ⟨a, rfl, h⟩

namespace models

/-- A review read from its JSON text has the owning pull-request number 0. -/
theorem review_unmarshal_PullNumber (j : Json) (r : Review) (h : Review.unmarshal j = some r) :
    r.PullNumber = 0 := by
  unfold Review.unmarshal at h
  split at h
  · obtain ⟨_, _, h⟩ := andThen_eq_some _ _ _ h
    obtain ⟨_, _, h⟩ := andThen_eq_some _ _ _ h
    obtain ⟨_, _, h⟩ := andThen_eq_some _ _ _ h
    obtain ⟨_, _, h⟩ := andThen_eq_some _ _ _ h
    obtain ⟨_, _, h⟩ := andThen_eq_some _ _ _ h
    simp only [Option.some.injEq] at h
    rw [← h]
  · simp at h

/-- A file read from its JSON text has the owning pull-request number 0. -/
theorem file_unmarshal_PullNumber (j : Json) (f : File) (h : File.unmarshal j = some f) :
    f.PullNumber = 0 := by
  unfold File.unmarshal at h
  split at h
  · obtain ⟨_, _, h⟩ := andThen_eq_some _ _ _ h
    obtain ⟨_, _, h⟩ := andThen_eq_some _ _ _ h
    obtain ⟨_, _, h⟩ := andThen_eq_some _ _ _ h
    obtain ⟨_, _, h⟩ := andThen_eq_some _ _ _ h
    obtain ⟨_, _, h⟩ := andThen_eq_some _ _ _ h
    simp only [Option.some.injEq] at h
    rw [← h]
  · simp at h

end models

namespace cache

theorem mem_of_map_some {ρ α : Type} (g : ρ → Option α) (rows : List ρ) (as : List α)
    (hmap : rows.map g = as.map some) (a : α) (ha : a ∈ as) : ∃ r ∈ rows, g r = some a := by
  have h : some a ∈ as.map some := List.mem_map.mpr ⟨a, ha, rfl⟩
  rw [← hmap] at h
  obtain ⟨r, hr, hg⟩ := List.mem_map.mp h
  exact ⟨r, hr, hg⟩

/-- The row a successful `SaveReview` writes: it holds the pull-request number
and the JSON text of the review, and the other rows were there before. -/
theorem SaveReview_rows (unicodeToLower : Char → Char) (s s1 : Store) (review : models.Review)
    (h : SaveReview unicodeToLower s review = Except.ok s1) :
    review.marshalError = none ∧
    ∃ w ∈ s1.reviews, w.PullNumber = review.PullNumber ∧ w.RawJSON = review.marshal ∧
      ∀ r ∈ s1.reviews, r = w ∨ r ∈ s.reviews := by
  unfold SaveReview at h
  cases hm : review.marshalError with
  | some err => simp [hm] at h
  | none =>
    simp only [hm] at h
    refine ⟨rfl, ?_⟩
    by_cases hz : review.ID = 0
    · rw [if_pos hz] at h
      simp only [Except.ok.injEq] at h
      subst h
      refine ⟨_, List.mem_append_right _ (List.mem_singleton_self _), rfl, rfl, ?_⟩
      intro r hr
      rcases List.mem_append.mp hr with h1 | h1
      · exact Or.inr h1
      · exact Or.inl (List.mem_singleton.mp h1)
    · rw [if_neg hz] at h
      simp only [Except.ok.injEq] at h
      subst h
      refine ⟨_, mem_dbSave_self (fun r : Review => r.ID) _ _, rfl, rfl, ?_⟩
      intro r hr
      rcases mem_dbSave _ _ _ _ hr with h1 | ⟨h1, _⟩
      · exact Or.inl h1
      · exact Or.inr h1

/-- The row a successful `SaveComment` writes. -/
theorem SaveComment_rows (unicodeToLower : Char → Char) (clock : Nat → Time) (s s1 : Store)
    (comment : models.Comment)
    (h : SaveComment unicodeToLower clock s comment = Except.ok s1) :
    comment.marshalError = none ∧
    ∃ w ∈ s1.comments, w.PullNumber = comment.PullNumber ∧ w.RawJSON = comment.marshal ∧
      ∀ r ∈ s1.comments, r = w ∨ r ∈ s.comments := by
  unfold SaveComment at h
  cases hm : comment.marshalError with
  | some err => simp [hm] at h
  | none =>
    simp only [hm, Except.ok.injEq] at h
    refine ⟨rfl, ?_⟩
    subst h
    unfold saveComment
    by_cases hz : comment.ID = 0
    · rw [if_pos hz]
      refine ⟨_, List.mem_append_right _ (List.mem_singleton_self _), rfl, rfl, ?_⟩
      intro r hr
      rcases List.mem_append.mp hr with h1 | h1
      · exact Or.inr h1
      · exact Or.inl (List.mem_singleton.mp h1)
    · rw [if_neg hz]
      by_cases hex : (s.comments.any fun r => decide (r.ID = comment.ID)) = true
      · rw [if_pos hex]
        refine ⟨_, mem_dbSave_self (fun r : Comment => r.ID) _ _, rfl, rfl, ?_⟩
        intro r hr
        rcases mem_dbSave _ _ _ _ hr with h1 | ⟨h1, _⟩
        · exact Or.inl h1
        · exact Or.inr h1
      · rw [if_neg hex]
        refine ⟨_, mem_dbSave_self (fun r : Comment => r.ID) _ _, rfl, rfl, ?_⟩
        intro r hr
        rcases mem_dbSave _ _ _ _ hr with h1 | ⟨h1, _⟩
        · exact Or.inl h1
        · exact Or.inr h1

/-- The row a successful `SaveFile` writes. -/
theorem SaveFile_rows (s s1 : Store) (file : models.File)
    (h : SaveFile s file = Except.ok s1) :
    ∃ w ∈ s1.files, w.PullNumber = file.PullNumber ∧ w.RawJSON = file.marshal ∧
      ∀ r ∈ s1.files, r = w ∨ r ∈ s.files := by
  unfold SaveFile at h
  simp only at h
  by_cases hz : file.PullNumber = 0 ∨ file.Filename = ""
  · rw [if_pos hz] at h
    by_cases hex : (s.files.any fun r => decide ((r.PullNumber, r.Filename)
        = (file.PullNumber, file.Filename))) = true
    · rw [if_pos hex] at h
      cases h
    · rw [if_neg hex] at h
      simp only [Except.ok.injEq] at h
      subst h
      refine ⟨_, List.mem_append_right _ (List.mem_singleton_self _), rfl, rfl, ?_⟩
      intro r hr
      rcases List.mem_append.mp hr with h1 | h1
      · exact Or.inr h1
      · exact Or.inl (List.mem_singleton.mp h1)
  · rw [if_neg hz] at h
    simp only [Except.ok.injEq] at h
    subst h
    refine ⟨_, mem_dbSave_self (fun r : File => (r.PullNumber, r.Filename)) _ _, rfl, rfl, ?_⟩
    intro r hr
    rcases mem_dbSave _ _ _ _ hr with h1 | ⟨h1, _⟩
    · exact Or.inl h1
    · exact Or.inr h1

/-- A review whose time `json.Marshal` accepts is saved without error. -/
theorem SaveReview_ok (unicodeToLower : Char → Char) (s : Store) (review : models.Review)
    (h : review.marshalError = none) :
    ∃ s1, SaveReview unicodeToLower s review = Except.ok s1 := by
  unfold SaveReview
  simp only [h]
  split_ifs <;> exact ⟨_, rfl⟩

/-- A comment whose times `json.Marshal` accepts is saved without error. -/
theorem SaveComment_ok (unicodeToLower : Char → Char) (clock : Nat → Time) (s : Store)
    (comment : models.Comment) (h : comment.marshalError = none) :
    ∃ s1, SaveComment unicodeToLower clock s comment = Except.ok s1 := by
  unfold SaveComment
  simp only [h]
  exact ⟨_, rfl⟩

/-- A file with a pull-request number and a name is saved without error. -/
theorem SaveFile_ok (s : Store) (file : models.File) (hn : file.PullNumber ≠ 0)
    (hf : file.Filename ≠ "") : ∃ s1, SaveFile s file = Except.ok s1 := by
  unfold SaveFile
  simp only
  rw [if_neg (by simp [hn, hf])]
  exact ⟨_, rfl⟩

/-- A review saved is returned by `GetReviews` for its pull-request number,
with the owning pull-request number 0 and its other fields as saved. -/
theorem GetReviews_SaveReview (unicodeToLower : Char → Char) (s s1 : Store) (hs : s.Readable)
    (review : models.Review) (h : SaveReview unicodeToLower s review = Except.ok s1) :
    ∃ rs, GetReviews s1 review.PullNumber = Except.ok rs ∧
      { review with PullNumber := 0 } ∈ rs := by
  obtain ⟨-, w, hw, hnum, hraw, hrows⟩ := SaveReview_rows unicodeToLower s s1 review h
  obtain ⟨as, has, hmem⟩ := decodeRows_mem (fun r : Review => r.RawJSON) models.Review.unmarshal
    (fun r => GoError.wrap ("unmarshaling review " ++ Itoa r.ID ++ ": ") jsonError)
    ((s1.reviews.filter (fun r => decide (r.PullNumber = review.PullNumber))).insertionSort
      (fun a b => a.ID ≤ b.ID))
    (by
      intro r hr
      rw [(List.perm_insertionSort _ _).mem_iff] at hr
      rcases hrows r (List.mem_filter.mp hr).1 with h1 | h1
      · subst h1
        simp [hraw, models.review_round_trip]
      · exact hs.1 r h1)
  refine ⟨as, has, ?_⟩
  refine hmem w ((List.perm_insertionSort _ _).mem_iff.mpr
    (List.mem_filter.mpr ⟨hw, by simp [hnum]⟩)) _ ?_
  simp only [hraw]
  exact models.review_round_trip review

/-- A comment saved is returned by `GetComments` for its pull-request number,
its reactions read back as `rereadMap` gives them and its other fields as
saved. -/
theorem GetComments_SaveComment (unicodeToLower : Char → Char) (clock : Nat → Time)
    (s s1 : Store) (hs : s.Readable) (comment : models.Comment)
    (h : SaveComment unicodeToLower clock s comment = Except.ok s1) :
    ∃ cs, GetComments s1 comment.PullNumber = Except.ok cs ∧
      { comment with Reactions := rereadMap comment.Reactions } ∈ cs := by
  obtain ⟨-, w, hw, hnum, hraw, hrows⟩ := SaveComment_rows unicodeToLower clock s s1 comment h
  obtain ⟨as, has, hmem⟩ := decodeRows_mem (fun r : Comment => r.RawJSON)
    models.Comment.unmarshal
    (fun r => GoError.wrap ("unmarshaling comment " ++ Itoa r.ID ++ ": ") jsonError)
    (((s1.comments.filter (fun r => decide (r.PullNumber = comment.PullNumber))).insertionSort
      (fun a b => a.ID ≤ b.ID)).insertionSort
      (fun a b => a.CreatedAt.nanos ≤ b.CreatedAt.nanos))
    (by
      intro r hr
      rw [(List.perm_insertionSort _ _).mem_iff, (List.perm_insertionSort _ _).mem_iff] at hr
      rcases hrows r (List.mem_filter.mp hr).1 with h1 | h1
      · subst h1
        simp [hraw, models.comment_round_trip]
      · exact hs.2.1 r h1)
  refine ⟨as, has, ?_⟩
  refine hmem w ((List.perm_insertionSort _ _).mem_iff.mpr
    ((List.perm_insertionSort _ _).mem_iff.mpr
      (List.mem_filter.mpr ⟨hw, by simp [hnum]⟩))) _ ?_
  simp only [hraw]
  exact models.comment_round_trip comment

/-- A file saved is returned by `GetFiles` for its pull-request number, with
the owning pull-request number 0 and its other fields as saved. -/
theorem GetFiles_SaveFile (s s1 : Store) (hs : s.Readable) (file : models.File)
    (h : SaveFile s file = Except.ok s1) :
    ∃ fs, GetFiles s1 file.PullNumber = Except.ok fs ∧
      { file with PullNumber := 0 } ∈ fs := by
  obtain ⟨w, hw, hnum, hraw, hrows⟩ := SaveFile_rows s s1 file h
  obtain ⟨as, has, hmem⟩ := decodeRows_mem (fun r : File => r.RawJSON) models.File.unmarshal
    (fun r => GoError.wrap ("unmarshaling file " ++ r.Filename ++ ": ") jsonError)
    ((s1.files.filter (fun r => decide (r.PullNumber = file.PullNumber))).insertionSort
      (fun a b => a.Filename ≤ b.Filename))
    (by
      intro r hr
      rw [(List.perm_insertionSort _ _).mem_iff] at hr
      rcases hrows r (List.mem_filter.mp hr).1 with h1 | h1
      · subst h1
        simp [hraw, models.file_round_trip]
      · exact hs.2.2 r h1)
  refine ⟨as, has, ?_⟩
  refine hmem w ((List.perm_insertionSort _ _).mem_iff.mpr
    (List.mem_filter.mpr ⟨hw, by simp [hnum]⟩)) _ ?_
  simp only [hraw]
  exact models.file_round_trip file

end cache

namespace strings

theorem splitChars_ne_nil (sep : Char) (l : List Char) : splitChars sep l ≠ [] := by
  intro h
  have := splitChars_length sep l
  rw [h] at this
  simp at this

/-- A list split in one piece is that piece. -/
theorem splitChars_one (sep : Char) (l b : List Char) (h : splitChars sep l = [b]) : l = b := by
  induction l generalizing b with
  | nil =>
    simp only [splitChars, List.cons.injEq, and_true] at h
    exact h
  | cons c cs ih =>
    unfold splitChars at h
    by_cases hc : c = sep
    · simp only [hc, if_true, List.cons.injEq] at h
      exact absurd h.2 (splitChars_ne_nil sep cs)
    · simp only [hc, if_false] at h
      rcases hs : splitChars sep cs with _ | ⟨piece, pieces⟩
      · exact absurd hs (splitChars_ne_nil sep cs)
      · rw [hs] at h
        simp only [List.cons.injEq] at h
        obtain ⟨h1, h2⟩ := h
        subst h2
        rw [← h1, ih piece hs]

/-- A list split in two pieces is the two pieces with the separator
between. -/
theorem splitChars_two (sep : Char) (l a b : List Char) (h : splitChars sep l = [a, b]) :
    l = a ++ sep :: b := by
  induction l generalizing a with
  | nil => simp [splitChars] at h
  | cons c cs ih =>
    unfold splitChars at h
    by_cases hc : c = sep
    · simp only [hc, if_true, List.cons.injEq] at h
      obtain ⟨h1, h2⟩ := h
      subst h1
      rw [hc, splitChars_one sep cs b h2]
      rfl
    · simp only [hc, if_false] at h
      rcases hs : splitChars sep cs with _ | ⟨piece, pieces⟩
      · exact absurd hs (splitChars_ne_nil sep cs)
      · rw [hs] at h
        simp only [List.cons.injEq] at h
        obtain ⟨h1, h2⟩ := h
        subst h2
        rw [← h1, ih piece hs]
        rfl

/-- Replacing an ASCII character by another in a string replaces its byte in
the bytes of the string. -/
theorem utf8Chars_replace (l : List Char) (old new : Char) (hold : old.toNat < 128)
    (hnew : new.toNat < 128) :
    utf8Chars (l.map fun c => if c = old then new else c)
      = ReplaceAllBytes (utf8Chars l) old.toNat new.toNat := by
  induction l with
  | nil => rfl
  | cons c cs ih =>
    simp only [List.map_cons, utf8Chars, ih, ReplaceAllBytes, List.map_append]
    congr 1
    by_cases h : c = old
    · subst h
      simp [utf8Char, hold, hnew]
    · simp only [h, if_false]
      have hid : (utf8Char c).map (fun b => if b = old.toNat then new.toNat else b)
          = (utf8Char c).map id := by
        apply List.map_congr_left
        intro b hb
        rcases utf8Char_mem c b hb with ⟨h1, _⟩ | h1
        · have hne : b ≠ old.toNat := by
            intro h2
            have h3 : c.toNat = old.toNat := by omega
            exact h ((char_eq_of_toNat c _ rfl).trans (char_eq_of_toNat old _ h3).symm)
          simp [hne]
        · have hne : b ≠ old.toNat := by omega
          simp [hne]
      rw [hid, List.map_id]

theorem utf8_ReplaceAll (s : String) (old new : Char) (hold : old.toNat < 128)
    (hnew : new.toNat < 128) :
    utf8 (ReplaceAll s old new) = ReplaceAllBytes (utf8 s) old.toNat new.toNat := by
  simp only [utf8, ReplaceAll]
  exact utf8Chars_replace s.data old new hold hnew

end strings

namespace exporter

/-- The method on a string is the method on the bytes of the string. -/
theorem escapeCsvValue_eq_bytes (e : CSVExporter) (value : String) :
    escapeCsvValue e value = escapeCsvBytes e (utf8 value) := by
  have h : utf8 (cleanCsvValue value)
      = strings.ReplaceAllBytes (strings.ReplaceAllBytes
          (strings.ReplaceAllBytes (utf8 value) 10 32) 9 32) 13 32 := by
    simp only [cleanCsvValue]
    rw [strings.utf8_ReplaceAll _ '\r' ' ' (by decide) (by decide),
      strings.utf8_ReplaceAll _ '\t' ' ' (by decide) (by decide),
      strings.utf8_ReplaceAll _ '\n' ' ' (by decide) (by decide)]
    rfl
  have h46 : utf8 "..." = [46, 46, 46] := by decide
  simp only [escapeCsvValue, escapeCsvBytes, h, h46]

/-- The three replacements together, byte by byte. -/
theorem replaced_eq_map (value : Bytes) :
    strings.ReplaceAllBytes (strings.ReplaceAllBytes
        (strings.ReplaceAllBytes value 10 32) 9 32) 13 32
      = value.map fun b => if b = 10 ∨ b = 9 ∨ b = 13 then 32 else b := by
  simp only [strings.ReplaceAllBytes, List.map_map]
  apply List.map_congr_left
  intro b _
  simp only [Function.comp]
  by_cases h1 : b = 10
  · subst h1; decide
  · by_cases h2 : b = 9
    · subst h2; decide
    · by_cases h3 : b = 13
      · subst h3; decide
      · simp [h1, h2, h3]

end exporter

/-! # The claims -/

namespace github

open cache

/-- C1, counterexample. The cache holds pull request number 2 of another
repository (id 2002). The fetch of the sample repository with threshold 10
meets, before the first stale pull request, the pull requests 1 (updated at 30)
and 2 (updated at 10, exactly the threshold): it saves the first, and the
second is not persisted, the call ending with the error
`saving PR 2: UNIQUE constraint failed: pulls.number`. -/
theorem FetchPullRequests_number_held_under_another_id :
    ∃ run1, FetchPullRequests sample.api sample.client Char.toLower sample.clock 3 ⟨10⟩ 0
        { sample.run0 with store := sample.otherRepo }
        = some (run1, Exit.err (GoError.wrap "saving PR 2: " ErrUniqueNumber)) ∧
      beforeStale ⟨10⟩ sample.pages.flatten
        = [sample.pull 1 30 "octocat", sample.pull 2 10 "octocat"] ∧
      sample.otherRepo.pulls.map (fun r => (r.ID, r.Number)) = [(2002, 2)] ∧
      run1.store.pulls.map (fun r => (r.ID, r.Number)) = [(2002, 2), (1001, 1)] ∧
      run1.listCalls = 1 :=
  ⟨_, rfl, by decide, by decide, by decide, rfl⟩

/-- C1, amended. Incremental fetch stops at the first stale pull request, when
nothing fails. For every sequence of pages the list endpoint serves without
error and every non-zero threshold `since`, let the fresh pull requests be those
that come, in stream order, before the first one updated strictly before
`since` (`beforeStale`). If each of them has a non-zero id, times that
`json.Marshal` accepts, a number that no cache row and no other fresh pull
request holds under another id, and a detail fetch that ends without error,
then `FetchPullRequests` with `prNumber ≤ 0` returns nil and has handed to
`SavePullRequest` exactly the fresh pull requests, in order; table `pulls`
holds afterwards, besides rows it held before, only rows of fresh pull
requests, one under the id of each (`Persisted`); and the list endpoint has
been called once for each page up to and including the one that holds the first
stale pull request. A pull request updated exactly at `since` is fresh. -/
theorem FetchPullRequests_stops_at_first_stale (api : gogithub.Api) (c : Client)
    (unicodeToLower : Char → Char) (clock : Nat → Time) (fuel : Nat) (since : Time)
    (prNumber : Int) (run : Run) (pages : List (List gogithub.PullRequest))
    (hnumber : prNumber ≤ 0) (hsince : since.IsZero = false)
    (hserves : gogithub.Serves api.ListPullRequests 0 pages) (hfuel : pages.length ≤ fuel)
    (hagree : NumbersAgree run.store.pulls (beforeStale since pages.flatten))
    (hid : ∀ pr ∈ beforeStale since pages.flatten, pr.ID ≠ 0)
    (hjson : ∀ pr ∈ beforeStale since pages.flatten,
      (convertPullRequest pr).marshalError = none)
    (hdetails : ∀ pr ∈ beforeStale since pages.flatten, ∀ st, ∃ st1,
      fetchPRDetails api c unicodeToLower clock fuel pr.Number st = some (st1, Exit.nil)) :
    ∃ run1, FetchPullRequests api c unicodeToLower clock fuel since prNumber run
        = some (run1, Exit.nil) ∧
      run1.saved = run.saved ++ (beforeStale since pages.flatten).map convertPullRequest ∧
      Persisted run.store.pulls run1.store.pulls (beforeStale since pages.flatten) ∧
      run1.listCalls = run.listCalls +
        min ((pages.takeWhile fun items =>
          items.all fun pr => decide (since.nanos ≤ pr.UpdatedAt.nanos)).length + 1)
          pages.length := by
  obtain ⟨run1, hrun1, hsaved, hcalls, hpers⟩ := fetchListPages_spec api c unicodeToLower clock
    fuel since hsince 0 pages hserves fuel hfuel run hagree hid hjson hdetails
  have hnot : ¬ prNumber > 0 := by omega
  unfold FetchPullRequests
  rw [if_neg hnot, hrun1]
  split_ifs with hall
  · simp only [SaveSyncMetadata, if_neg (GetRepository_ne_empty c)]
    exact ⟨_, rfl, hsaved, hpers, hcalls⟩
  · exact ⟨run1, rfl, hsaved, hpers, hcalls⟩

/-- Witness of C1: on the sample repository, with threshold 10, the fetch from
a new database saves the pull requests updated at 30 and at 10 and stops in
the second of the three pages. -/
theorem FetchPullRequests_stops_at_first_stale_witness :
    ∃ run1, FetchPullRequests sample.api sample.client Char.toLower sample.clock 3 ⟨10⟩ 0
        sample.run0 = some (run1, Exit.nil) ∧
      run1.saved = [convertPullRequest (sample.pull 1 30 "octocat"),
        convertPullRequest (sample.pull 2 10 "octocat")] ∧
      Persisted [] run1.store.pulls [sample.pull 1 30 "octocat", sample.pull 2 10 "octocat"] ∧
      run1.listCalls = 2 :=
  FetchPullRequests_stops_at_first_stale sample.api sample.client Char.toLower sample.clock 3
    ⟨10⟩ 0 sample.run0 sample.pages (by decide) (by decide)
    (gogithub.Serves.more 0 2 _ _ _ rfl (by decide)
      (gogithub.Serves.more 2 3 _ _ _ rfl (by decide) (gogithub.Serves.last 3 _ _ rfl)))
    (by decide)
    (by simp [NumbersAgree, sample.run0, Store.fresh, sample.pages, sample.pull, beforeStale])
    (by simp [sample.pages, sample.pull, beforeStale])
    (by simp [sample.pages, sample.pull, beforeStale]; decide)
    (fun _ _ st => ⟨st, rfl⟩)

end github

namespace cache

/-- C2, counterexample. The owning pull-request number of a review is not read
back: a review of pull request 1 saved on a new database is returned by
`GetReviews 1` with `PullNumber = 0`. -/
theorem review_pull_number_not_read_back :
    ∃ s1, SaveReview Char.toLower Store.fresh sample.review = Except.ok s1 ∧
      GetReviews s1 sample.review.PullNumber
        = Except.ok [{ sample.review with PullNumber := 0 }] ∧
      sample.review.PullNumber = 1 :=
  ⟨_, rfl, rfl, rfl⟩

/-- C2, amended. Saving a pull request, review, comment or file and loading it
back (`GetPullRequest` for its number, `GetReviews` / `GetComments` /
`GetFiles` for its pull-request number) yields, whenever the save succeeds, a
value equal to the saved one in every field other than the owning pull-request
number of a review and of a file, which is read back 0, also in the reviews and
files attached to a pull request, and other than the reactions of a comment,
also of a comment attached to a pull request: a nil or empty map is read back
nil and any other map with the same entries. The store is one whose rows of
reviews, comments and files were written by the `Save*` methods (`Readable`).
A review or comment whose times `json.Marshal` accepts is saved without error,
and so are a file with a non-zero pull-request number and a non-empty name, and
a pull request with a non-zero id, times `json.Marshal` accepts and a number
that no row holds under another id. -/
theorem cache_round_trip (unicodeToLower : Char → Char) (clock : Nat → Time) (s : Store)
    (hs : s.Readable) (pr : models.PullRequest) (review : models.Review)
    (comment : models.Comment) (file : models.File) :
    (∀ s1, SavePullRequest unicodeToLower clock s pr = Except.ok s1 →
      GetPullRequest s1 pr.Number = Except.ok { pr with
        Files := pr.Files.map fun f => { f with PullNumber := 0 }
        Reviews := pr.Reviews.map fun r => { r with PullNumber := 0 }
        Comments := pr.Comments.map fun c => { c with Reactions := rereadMap c.Reactions } }) ∧
    (∀ s1, SaveReview unicodeToLower s review = Except.ok s1 →
      ∃ rs, GetReviews s1 review.PullNumber = Except.ok rs ∧
        { review with PullNumber := 0 } ∈ rs) ∧
    (∀ s1, SaveComment unicodeToLower clock s comment = Except.ok s1 →
      ∃ cs, GetComments s1 comment.PullNumber = Except.ok cs ∧
        { comment with Reactions := rereadMap comment.Reactions } ∈ cs) ∧
    (∀ s1, SaveFile s file = Except.ok s1 →
      ∃ fs, GetFiles s1 file.PullNumber = Except.ok fs ∧ { file with PullNumber := 0 } ∈ fs) ∧
    (rereadMap none = none ∧ rereadMap (some []) = none ∧
      ∀ m, mapKeysDistinct m → ∀ key, mapGet (rereadMap m) key = mapGet m key) ∧
    (pr.marshalError = none → pr.ID ≠ 0 →
      (∀ r ∈ s.pulls, r.Number = pr.Number → r.ID = pr.ID) →
      ∃ s1, SavePullRequest unicodeToLower clock s pr = Except.ok s1) ∧
    (review.marshalError = none → ∃ s1, SaveReview unicodeToLower s review = Except.ok s1) ∧
    (comment.marshalError = none →
      ∃ s1, SaveComment unicodeToLower clock s comment = Except.ok s1) ∧
    (file.PullNumber ≠ 0 → file.Filename ≠ "" → ∃ s1, SaveFile s file = Except.ok s1) := by
  refine ⟨?_, ?_, ?_, ?_, ⟨rfl, rfl, ?_⟩, ?_, ?_, ?_, ?_⟩
  · intro s1 hsave
    exact GetPullRequest_SavePullRequest unicodeToLower clock s s1 pr hsave
  · intro s1 hsave
    exact GetReviews_SaveReview unicodeToLower s s1 hs review hsave
  · intro s1 hsave
    exact GetComments_SaveComment unicodeToLower clock s s1 hs comment hsave
  · intro s1 hsave
    exact GetFiles_SaveFile s s1 hs file hsave
  · intro m hm key
    refine mapGet_rereadMap _ ?_ key
    intro es hes
    rw [hes] at hm
    exact hm
  · exact github.SavePullRequest_ok unicodeToLower clock s pr
  · exact SaveReview_ok unicodeToLower s review
  · exact SaveComment_ok unicodeToLower clock s comment
  · exact SaveFile_ok s file

/-- Witness of C2 (amended): a pull request with a file, a review and a comment
with an empty reactions map, and the sample review, comment and file, each
saved on a new database and read back. -/
theorem cache_round_trip_witness :
    Store.fresh.Readable ∧
    (∃ s1, SavePullRequest Char.toLower sample.clock Store.fresh sample.pullWithChildren
        = Except.ok s1 ∧
      GetPullRequest s1 1 = Except.ok { sample.pullWithChildren with
        Files := [{ sample.file with PullNumber := 0 }]
        Reviews := [{ sample.review with PullNumber := 0 }]
        Comments := [{ sample.comment 9 1 2 "main.go" with Reactions := none }] }) ∧
    (∃ s1 rs, SaveReview Char.toLower Store.fresh sample.review = Except.ok s1 ∧
      GetReviews s1 1 = Except.ok rs ∧ { sample.review with PullNumber := 0 } ∈ rs) ∧
    (∃ s1 cs, SaveComment Char.toLower sample.clock Store.fresh
        { sample.comment 9 1 2 "main.go" with Reactions := some [("heart", 2)] }
        = Except.ok s1 ∧
      GetComments s1 1 = Except.ok cs ∧
      { sample.comment 9 1 2 "main.go" with Reactions := some [("heart", 2)] } ∈ cs) ∧
    (∃ s1 fs, SaveFile Store.fresh sample.file = Except.ok s1 ∧
      GetFiles s1 1 = Except.ok fs ∧ { sample.file with PullNumber := 0 } ∈ fs) := by
  have hfresh : Store.fresh.Readable := by simp [Store.Readable, Store.fresh]
  have h := cache_round_trip Char.toLower sample.clock Store.fresh hfresh
    sample.pullWithChildren sample.review
    { sample.comment 9 1 2 "main.go" with Reactions := some [("heart", 2)] } sample.file
  obtain ⟨hpr, hrev, hcom, hfil, -⟩ := h
  obtain ⟨rs, hrs, hrmem⟩ := hrev _ rfl
  obtain ⟨cs, hcs, hcmem⟩ := hcom _ rfl
  obtain ⟨fs, hfs, hfmem⟩ := hfil _ rfl
  exact ⟨hfresh, ⟨_, rfl, hpr _ rfl⟩, ⟨_, rs, rfl, hrs, hrmem⟩, ⟨_, cs, rfl, hcs, hcmem⟩,
    ⟨_, fs, rfl, hfs, hfmem⟩⟩

/-- C3, counterexample. With the single pattern `Bot`, the login `robot`
contains the pattern under case-insensitive comparison and `isBot` is false;
and with the seeded patterns, the login `X[BOT]` contains no pattern and does
not end in `[bot]`, and `isBot` is true. -/
theorem isBot_claim_fails :
    (isBot Char.toLower { Store.fresh with botPatterns := ["Bot"] } "robot" = false ∧
      (strings.ToLower Char.toLower "Bot").data <:+: (strings.ToLower Char.toLower "robot").data) ∧
    (isBot Char.toLower Store.fresh "X[BOT]" = true ∧
      ¬ "[bot]".data <:+ "X[BOT]".data ∧
      ∀ p ∈ Store.fresh.botPatterns,
        ¬ (strings.ToLower Char.toLower p).data <:+: (strings.ToLower Char.toLower "X[BOT]").data) := by
  decide


/-- C3, amended. `isBot(login)` is true if and only if the lower-cased login
contains some pattern of the store, as stored, as a substring, or the
lower-cased login ends in `[bot]`. For patterns stored in lower case, as all
seeded patterns are, the first condition is containment under case-insensitive
comparison. -/
theorem isBot_iff_lowered (unicodeToLower : Char → Char) (s : Store) (login : String) :
    isBot unicodeToLower s login = true ↔
      (∃ p ∈ s.botPatterns, p.data <:+: (strings.ToLower unicodeToLower login).data) ∨
        "[bot]".data <:+ (strings.ToLower unicodeToLower login).data := by
  unfold isBot
  simp only [Bool.if_true_left, Bool.or_eq_true, List.any_eq_true, strings.Contains_iff,
    strings.HasSuffix_iff, Bool.decide_eq_true, decide_eq_true_eq]


/-- C4, the code at a failing input. The pull request of author
`dependabot[bot]`, converted from the API payload and saved on a new database:
`isBot` is true of the login and the row of table `pulls` holds
`AuthorIsBot = true`, and the pull request read back by `GetPullRequest` has
`Author.IsBot = false`. -/
theorem bot_flag_not_in_user_record :
    ∃ s1 got, SavePullRequest Char.toLower sample.clock Store.fresh
        (github.convertPullRequest (sample.pull 7 30 "dependabot[bot]")) = Except.ok s1 ∧
      GetPullRequest s1 7 = Except.ok got ∧
      got.Author.Login = "dependabot[bot]" ∧
      isBot Char.toLower Store.fresh "dependabot[bot]" = true ∧
      s1.pulls.map (fun row => row.AuthorIsBot) = [true] ∧
      got.Author.IsBot = false :=
  ⟨_, _, rfl, GetPullRequest_SavePullRequest Char.toLower sample.clock Store.fresh _
      (github.convertPullRequest (sample.pull 7 30 "dependabot[bot]")) rfl, rfl,
    by decide, by decide, rfl⟩

end cache

namespace github

open cache

/-- C5. Error translation by HTTP status: for every underlying error `err` and
response status `s`, `handleError` returns the authentication-failure error
when `s = 401`, the rate-limit-or-forbidden error when `s = 403`, the error
`repository not found: <owner>/<repo>` when `s = 404`, and for every other
status the error `GitHub API error: …` that wraps `err`. -/
theorem handleError_by_status (c : Client) (err : GoError) (s : Int) :
    (s = 401 → handleError c err (some ⟨s⟩)
      = GoError.plain "GitHub authentication failed: please check your token") ∧
    (s = 403 → handleError c err (some ⟨s⟩)
      = GoError.plain "GitHub API rate limit exceeded or forbidden access") ∧
    (s = 404 → (handleError c err (some ⟨s⟩)).Error
      = "repository not found: " ++ c.owner ++ "/" ++ c.repo ∧
      (handleError c err (some ⟨s⟩)).Unwrap = none) ∧
    (s ≠ 401 → s ≠ 403 → s ≠ 404 →
      (handleError c err (some ⟨s⟩)).Unwrap = some err ∧
      (handleError c err (some ⟨s⟩)).Error = "GitHub API error: " ++ err.Error) := by
  refine ⟨?_, ?_, ?_, ?_⟩
  · rintro rfl
    rfl
  · rintro rfl
    rfl
  · rintro rfl
    exact ⟨rfl, rfl⟩
  · intro h1 h2 h3
    simp [handleError, h1, h2, h3, GoError.Unwrap, GoError.Error]

/-- Witness of C5: status 500. -/
theorem handleError_by_status_witness :
    (500 : Int) ≠ 401 ∧ (500 : Int) ≠ 403 ∧ (500 : Int) ≠ 404 ∧
      (handleError sample.client (GoError.plain "boom") (some ⟨500⟩)).Unwrap
        = some (GoError.plain "boom") ∧
      (handleError sample.client (GoError.plain "boom") (some ⟨500⟩)).Error
        = "GitHub API error: " ++ (GoError.plain "boom").Error :=
  ⟨by decide, by decide, by decide,
    (handleError_by_status sample.client (GoError.plain "boom") 500).2.2.2
      (by decide) (by decide) (by decide)⟩

/-- C6, the code at failing inputs. On the sample repository and a new
database, a fetch with `prNumber = 0` whose threshold makes it meet a stale
pull request (threshold 100: the first one listed; threshold 10: the third)
returns nil and the table of sync metadata is still empty. A fetch that meets
no stale pull request (threshold 5) returns nil with the row of `octo/demo`
stamped with the current time (the reading of the clock then taken, its
sixteenth), and a single-PR fetch saves no row. -/
theorem FetchPullRequests_stale_return_skips_sync_metadata :
    (∃ run1, FetchPullRequests sample.api sample.client Char.toLower sample.clock 3 ⟨100⟩ 0 sample.run0
        = some (run1, Exit.nil) ∧
      run1.store.syncMetadata = [] ∧ run1.saved = []) ∧
    (∃ run1, FetchPullRequests sample.api sample.client Char.toLower sample.clock 3 ⟨10⟩ 0 sample.run0
        = some (run1, Exit.nil) ∧
      run1.store.syncMetadata = [] ∧ run1.saved.map (fun pr => pr.Number) = [1, 2]) ∧
    (∃ run1, FetchPullRequests sample.api sample.client Char.toLower sample.clock 3 ⟨5⟩ 0 sample.run0
        = some (run1, Exit.nil) ∧
      run1.store.syncMetadata = [(⟨"octo/demo", sample.clock 15, 0, 0, 0, 0⟩ : SyncMetadata)] ∧
      run1.saved.map (fun pr => pr.Number) = [1, 2, 3, 4, 5]) ∧
    (∃ run1, FetchPullRequests sample.api sample.client Char.toLower sample.clock 3 ⟨5⟩ 7 sample.run0
        = some (run1, Exit.nil) ∧
      run1.store.syncMetadata = [] ∧ run1.saved.map (fun pr => pr.Number) = [7]) :=
  ⟨⟨_, rfl, rfl, rfl⟩, ⟨_, rfl, rfl, rfl⟩, ⟨_, rfl, rfl, rfl⟩, ⟨_, rfl, rfl, rfl⟩⟩

/-- C7, counterexample. A payload whose `+1` count is `-1`, a non-zero count,
is converted to the nil map, which has no entry for `+1`. -/
theorem convertReactions_negative_count :
    convertReactions (some ⟨-1, 0, 0, 0, 0, 0, 0, 0⟩) = none ∧
      mapGet (convertReactions (some ⟨-1, 0, 0, 0, 0, 0, 0, 0⟩)) "+1" = none ∧
      (⟨-1, 0, 0, 0, 0, 0, 0, 0⟩ : gogithub.Reactions).PlusOne ≠ 0 := by
  decide


/-- C7, amended. `convertReactions` returns a map that has an entry for a
reaction kind exactly when the count of that kind is positive, with the count
as its value, and no entry for any other key; the result is the nil map when
the payload is absent or no count is positive, and never an empty non-nil
map. -/
theorem convertReactions_sparse (r : gogithub.Reactions) :
    (∀ kc ∈ reactionKinds,
      mapGet (convertReactions (some r)) kc.1 = if kc.2 r > 0 then some (kc.2 r) else none) ∧
    (∀ k, k ∉ reactionKinds.map Prod.fst → mapGet (convertReactions (some r)) k = none) ∧
    (convertReactions (some r) = none ↔ ∀ kc ∈ reactionKinds, kc.2 r ≤ 0) ∧
    convertReactions (some r) ≠ some [] ∧
    convertReactions none = none := by
  refine ⟨?_, ?_, ?_, ?_, rfl⟩
  · intro kc hkc
    simp only [convertReactions, mapGet_nonempty, get?_addReaction]
    simp only [reactionKinds, List.mem_cons, List.mem_singleton, List.not_mem_nil, or_false] at hkc
    rcases hkc with h | h | h | h | h | h | h | h <;> subst h <;> simp [GoMap.get?]
  · intro k hk
    simp only [reactionKinds, List.map_cons, List.map_nil, List.mem_cons, List.mem_singleton,
      List.not_mem_nil, or_false, not_or] at hk
    obtain ⟨h1, h2, h3, h4, h5, h6, h7, h8⟩ := hk
    simp only [convertReactions, mapGet_nonempty, get?_addReaction]
    simp [GoMap.get?, Ne.symm h1, Ne.symm h2, Ne.symm h3, Ne.symm h4, Ne.symm h5, Ne.symm h6,
      Ne.symm h7, Ne.symm h8]
  · simp only [convertReactions, List.length_eq_zero, ite_eq_left_iff, reduceCtorEq, imp_false,
      not_not, addReaction_eq_nil, reactionKinds, List.mem_cons, List.mem_singleton,
      List.not_mem_nil, or_false, forall_eq_or_imp, forall_eq, not_lt, and_true]
    tauto
  · simp only [convertReactions, List.length_eq_zero]
    split_ifs with h
    · simp
    · simpa using h


end github

namespace exporter

/-- C8. JSONL comment type tag: for every comment, at every position of every
list, the exported comment has type `code_comment` if and only if the file
path of the comment is non-empty, and `issue_comment` otherwise; and the
export of a comment with no file path has no file path, no line, no side and
no code context (in the struct and among the members of its JSON object),
whatever line, side and diff hunk the comment carries. -/
theorem jsonl_comment_type_tag (loopVar : LoopVar) (e : JSONLExporter)
    (comments : List models.Comment) (i : Nat) (c : models.Comment)
    (hc : comments[i]? = some c) :
    ∃ ec, (transformComments loopVar e comments)[i]? = some ec ∧
      (ec.Type_ = "code_comment" ↔ c.Path ≠ "") ∧
      (ec.Type_ = "issue_comment" ↔ c.Path = "") ∧
      (c.Path = "" →
        ec.FilePath = "" ∧ ec.Line = none ∧ ec.Side = "" ∧ ec.CodeContext = none ∧
        ec.marshal.member "file_path" = none ∧ ec.marshal.member "line" = none ∧
        ec.marshal.member "side" = none ∧ ec.marshal.member "code_context" = none) := by
  refine ⟨transformComment loopVar e comments c, ?_, ?_, ?_, ?_⟩
  · rw [transformComments_getElem?, hc]
    rfl
  · unfold transformComment
    split_ifs <;> simp_all [getCommentType]
  · unfold transformComment
    split_ifs <;> simp_all [getCommentType]
  · intro hpath
    obtain ⟨h1, h2, h3, h4, -⟩ := ExportComment.marshal_members (transformComment loopVar e comments c)
    rw [h1, h2, h3, h4]
    unfold transformComment
    split_ifs <;> simp_all


/-- Witness of C8: a comment without file path that carries a line, a side and
a diff hunk. -/
theorem jsonl_comment_type_tag_witness :
    [sample.comment 1 1 1 ""][0]? = some (sample.comment 1 1 1 "") ∧
    ∃ ec, (transformComments LoopVar.perLoop ⟨"out.jsonl", true⟩ [sample.comment 1 1 1 ""])[0]?
        = some ec ∧
      (ec.Type_ = "code_comment" ↔ (sample.comment 1 1 1 "").Path ≠ "") ∧
      (ec.Type_ = "issue_comment" ↔ (sample.comment 1 1 1 "").Path = "") ∧
      ((sample.comment 1 1 1 "").Path = "" →
        ec.FilePath = "" ∧ ec.Line = none ∧ ec.Side = "" ∧ ec.CodeContext = none ∧
        ec.marshal.member "file_path" = none ∧ ec.marshal.member "line" = none ∧
        ec.marshal.member "side" = none ∧ ec.marshal.member "code_context" = none) :=
  ⟨rfl, jsonl_comment_type_tag LoopVar.perLoop ⟨"out.jsonl", true⟩ [sample.comment 1 1 1 ""] 0
    (sample.comment 1 1 1 "") rfl⟩

/-- C9. JSONL code context: for every comment with a file path and either
value of `IncludeDiffs`, the exported comment carries a code context (in the
struct and as member `code_context` of its JSON object) if and only if
`IncludeDiffs` is true and the diff hunk of the comment is non-empty, and the
diff hunk of the context, when there is one, is that of the comment. -/
theorem jsonl_code_context (loopVar : LoopVar) (e : JSONLExporter)
    (comments : List models.Comment) (i : Nat) (c : models.Comment)
    (hc : comments[i]? = some c) (hpath : c.Path ≠ "") :
    ∃ ec, (transformComments loopVar e comments)[i]? = some ec ∧
      (ec.CodeContext.isSome = true ↔ e.includeDiffs = true ∧ c.DiffHunk ≠ "") ∧
      ((ec.marshal.member "code_context").isSome = true ↔
        e.includeDiffs = true ∧ c.DiffHunk ≠ "") ∧
      (∀ cc, ec.CodeContext = some cc → cc.DiffHunk = c.DiffHunk) := by
  refine ⟨transformComment loopVar e comments c, ?_, ?_, ?_, ?_⟩
  · rw [transformComments_getElem?, hc]
    rfl
  · unfold transformComment
    split_ifs <;> simp_all
  · obtain ⟨-, -, -, h4, -⟩ := ExportComment.marshal_members (transformComment loopVar e comments c)
    rw [h4]
    unfold transformComment
    split_ifs <;> simp_all
  · intro cc
    unfold transformComment
    split_ifs <;> simp_all
    all_goals (intro h; rw [← h])


/-- Witness of C9: a comment on `main.go`. -/
theorem jsonl_code_context_witness :
    [sample.comment 1 1 1 "main.go"][0]? = some (sample.comment 1 1 1 "main.go") ∧
    (sample.comment 1 1 1 "main.go").Path ≠ "" ∧
    ∃ ec, (transformComments LoopVar.perLoop ⟨"out.jsonl", true⟩
        [sample.comment 1 1 1 "main.go"])[0]? = some ec ∧
      (ec.CodeContext.isSome = true ↔
        (⟨"out.jsonl", true⟩ : JSONLExporter).includeDiffs = true ∧
          (sample.comment 1 1 1 "main.go").DiffHunk ≠ "") ∧
      ((ec.marshal.member "code_context").isSome = true ↔
        (⟨"out.jsonl", true⟩ : JSONLExporter).includeDiffs = true ∧
          (sample.comment 1 1 1 "main.go").DiffHunk ≠ "") ∧
      (∀ cc, ec.CodeContext = some cc → cc.DiffHunk = (sample.comment 1 1 1 "main.go").DiffHunk) :=
  ⟨rfl, by decide, jsonl_code_context LoopVar.perLoop ⟨"out.jsonl", true⟩
    [sample.comment 1 1 1 "main.go"] 0 (sample.comment 1 1 1 "main.go") rfl (by decide)⟩

end exporter

namespace exporter

/-- C11. JSONL files and patches: for every pull request and either value of
`IncludeDiffs`, `transformPR` exports a files list of the same length and
order as the files of the pull request, each file with the filename, status,
additions and deletions of its source; the patch is the source patch when
`IncludeDiffs` is true and empty for every file when it is false. -/
theorem transformPR_files (loopVar : LoopVar) (e : JSONLExporter) (pr : models.PullRequest) :
    (transformPR loopVar e pr).Files.length = pr.Files.length ∧
    (transformPR loopVar e pr).Files.map
        (fun f => (f.Filename, f.Status, f.Additions, f.Deletions))
      = pr.Files.map (fun f => (f.Filename, f.Status, f.Additions, f.Deletions)) ∧
    (transformPR loopVar e pr).Files.map (fun f => f.Patch)
      = pr.Files.map (fun f => if e.includeDiffs = true then f.Patch else "") := by
  unfold transformPR
  cases h : e.includeDiffs <;> simp [Function.comp_def]

/-- C12. CSV header and row shape: the header is the fixed list of 21 columns,
with `diff_summary` appended as a 22nd column if and only if `IncludeDiffs` is
true, and the row `transformPRToRow` builds for a pull request has as many
fields as the header. -/
theorem csv_header_and_row_shape (rangeOrder : {α : Type} → List α → List α)
    (format : Time → String) (e : CSVExporter) (pr : models.PullRequest) :
    e.header =
      ["number", "title", "state", "author", "author_type", "author_is_bot", "assignees",
       "requested_reviewers", "labels", "created_at", "updated_at", "merged_at", "additions",
       "deletions", "changed_files", "comments", "review_comments", "reviews", "review_states",
       "comment_authors", "file_paths"] ++ (if e.includeDiffs = true then ["diff_summary"] else []) ∧
    e.header.length = (if e.includeDiffs = true then 22 else 21) ∧
    ("diff_summary" ∈ e.header ↔ e.includeDiffs = true) ∧
    (transformPRToRow rangeOrder format e pr).length = e.header.length := by
  unfold CSVExporter.header transformPRToRow
  cases h : e.includeDiffs <;> simp

/-- C13. CSV title is a single line: for every title, no byte of the value
`escapeCsvValue` returns is a newline, a tab or a carriage return; before the
truncation each such character of the title is replaced by one space and
every other character is left as it is, and the first 200 bytes of the result
are those of the title so cleaned. -/
theorem escapeCsvValue_single_line (e : CSVExporter) (title : String) :
    (∀ b ∈ escapeCsvValue e title, b ≠ 10 ∧ b ≠ 9 ∧ b ≠ 13) ∧
    (cleanCsvValue title).data
      = (title.data.map fun c => if c = '\n' ∨ c = '\t' ∨ c = '\r' then ' ' else c) ∧
    (escapeCsvValue e title).take 200 = (utf8 (cleanCsvValue title)).take 200 := by
  have hbytes : ∀ b ∈ utf8 (cleanCsvValue title), b ≠ 10 ∧ b ≠ 9 ∧ b ≠ 13 := by
    intro b hb
    rcases utf8Chars_mem _ b hb with ⟨c, hc, h⟩ | h
    · obtain ⟨h1, h2, h3⟩ := cleanCsvValue_no_break title c hc
      refine ⟨?_, ?_, ?_⟩ <;> intro hb0 <;> subst hb0
      · exact h1 (char_eq_of_toNat c 10 h)
      · exact h2 (char_eq_of_toNat c 9 h)
      · exact h3 (char_eq_of_toNat c 13 h)
    · omega
  refine ⟨?_, cleanCsvValue_data title, ?_⟩
  · intro b hb
    unfold escapeCsvValue at hb
    simp only at hb
    split_ifs at hb with hlen
    · rcases List.mem_append.mp hb with h | h
      · exact hbytes b (List.mem_of_mem_take h)
      · have : b = 46 := by
          have h46 : utf8 "..." = [46, 46, 46] := by decide
          rw [h46] at h
          simpa using h
        omega
    · exact hbytes b hb
  · unfold escapeCsvValue
    simp only
    split_ifs with hlen
    · rw [List.take_append_of_le_length (by simp; omega)]
      simp
    · rfl

set_option maxRecDepth 100000 in
/-- C14, the code at a failing input. A title of 67 characters, each of three
bytes, is 201 bytes long: `escapeCsvValue` cuts it after 200 bytes, in the
middle of the last character, and appends `...`, 203 bytes in all. -/
theorem escapeCsvValue_cuts_short_title :
    sample.kanaTitle.length = 67 ∧
    (utf8 sample.kanaTitle).length = 201 ∧
    (escapeCsvValue ⟨"out.csv", false⟩ sample.kanaTitle).length = 203 ∧
    escapeCsvValue ⟨"out.csv", false⟩ sample.kanaTitle
      = utf8 (String.mk (List.replicate 66 'あ')) ++ [0xE3, 0x81] ++ utf8 "..." := by
  decide

/-- C15. CSV multi-valued fields keep input order: the fields `assignees`,
`requested_reviewers`, `labels` and `file_paths` of the row of a pull request
are the assignee logins, the requested-reviewer logins, the label names and
the file names, in the order of the record, joined with `;`; the join of no
element is the empty string. -/
theorem csv_multi_valued_fields (rangeOrder : {α : Type} → List α → List α)
    (format : Time → String) (e : CSVExporter) (pr : models.PullRequest) :
    (e.header[6]? = some "assignees" ∧
      (transformPRToRow rangeOrder format e pr)[6]?
        = some (utf8 (strings.Join (pr.Assignees.map fun user => user.Login) ";"))) ∧
    (e.header[7]? = some "requested_reviewers" ∧
      (transformPRToRow rangeOrder format e pr)[7]?
        = some (utf8 (strings.Join (pr.RequestedReviewers.map fun user => user.Login) ";"))) ∧
    (e.header[8]? = some "labels" ∧
      (transformPRToRow rangeOrder format e pr)[8]?
        = some (utf8 (strings.Join (pr.Labels.map fun label => label.Name) ";"))) ∧
    (e.header[20]? = some "file_paths" ∧
      (transformPRToRow rangeOrder format e pr)[20]?
        = some (utf8 (strings.Join (pr.Files.map fun file => file.Filename) ";"))) ∧
    strings.Join [] ";" = "" ∧
    (∀ a b : String, ∀ rest : List String,
      strings.Join (a :: b :: rest) ";" = a ++ ";" ++ strings.Join (b :: rest) ";") ∧
    (∀ a : String, strings.Join [a] ";" = a) := by
  unfold CSVExporter.header transformPRToRow
  cases h : e.includeDiffs <;>
    simp [serializeUsers_eq, serializeLabels_eq, getFilePaths_eq, strings.Join]

/-- C16. CSV review-state histogram: whatever the order in which the `range`
statement visits the map, `getReviewStates` returns the `;`-join of entries
`state:count` with exactly one entry for each distinct state of the reviews,
the count being the number of reviews in that state, and the counts add up to
the number of reviews; no review gives the empty string. -/
theorem getReviewStates_histogram (rangeOrder : {α : Type} → List α → List α)
    (hrange : ∀ {α : Type} (l : List α), (rangeOrder l).Perm l)
    (e : CSVExporter) (reviews : List models.Review) :
    (∃ entries : List (String × Int),
      getReviewStates rangeOrder e reviews
        = strings.Join (entries.map fun entry => entry.1 ++ ":" ++ Itoa entry.2) ";" ∧
      (entries.map Prod.fst).Nodup ∧
      (∀ state, state ∈ entries.map Prod.fst ↔ ∃ review ∈ reviews, review.State = state) ∧
      (∀ entry ∈ entries,
        entry.2 = ((reviews.filter fun review => decide (review.State = entry.1)).length : Int)) ∧
      (entries.map Prod.snd).sum = reviews.length) ∧
    getReviewStates rangeOrder e [] = "" := by
  refine ⟨?_, rfl⟩
  have hcounts : Counts ((reviews.map fun r => r.State).foldl increment [])
      (reviews.map fun r => r.State) := by
    have := Counts.foldl (reviews.map fun r => r.State) [] []
      ⟨by simp, fun k => by simp [GoMap.get?], by simp⟩
    simpa using this
  rw [List.foldl_map] at hcounts
  obtain ⟨hnd, hget, hsum⟩ := hcounts
  generalize hm : List.foldl (fun m r => increment m r.State) [] reviews = m at hnd hget hsum
  have hperm := hrange m
  refine ⟨if reviews.length = 0 then [] else rangeOrder m, ?_, ?_, ?_, ?_, ?_⟩
  · unfold getReviewStates
    split_ifs with h
    · rfl
    · simp only [hm]
  · split_ifs
    · simp
    · exact ((hperm.map Prod.fst).nodup_iff).mpr hnd
  · intro state
    have hkey : state ∈ m.map Prod.fst ↔ ∃ review ∈ reviews, review.State = state := by
      have h1 := GoMap.get?_eq_none_iff m state
      rw [hget state] at h1
      by_cases hs : state ∈ reviews.map fun r => r.State
      · simp only [hs, if_true, reduceCtorEq, false_iff, not_not] at h1
        simp only [List.mem_map] at hs
        exact ⟨fun _ => hs, fun _ => h1⟩
      · simp only [hs, if_false, true_iff] at h1
        simp only [List.mem_map] at hs
        exact ⟨fun h => absurd h h1, fun h => absurd h hs⟩
    split_ifs with h
    · have : reviews = [] := List.length_eq_zero.mp h
      subst this
      simp
    · rw [(hperm.map Prod.fst).mem_iff]
      exact hkey
  · intro entry hentry
    split_ifs at hentry with h
    · simp at hentry
    · have hin : entry ∈ m := hperm.mem_iff.mp hentry
      have hg := GoMap.get?_of_mem m hnd entry.1 entry.2 hin
      rw [hget entry.1] at hg
      split_ifs at hg with hs
      simp only [Option.some.injEq] at hg
      rw [← hg, List.count_eq_countP, List.countP_map, List.countP_eq_length_filter]
      congr 2
  · split_ifs with h
    · simp [h]
    · rw [(hperm.map Prod.snd).sum_eq, hsum]
      simp

/-- Witness of C16: three reviews in two states, the map visited in reverse
order. -/
theorem getReviewStates_histogram_witness :
    (∀ {α : Type} (l : List α), (List.reverse l).Perm l) ∧
    getReviewStates (fun l => l.reverse) ⟨"out.csv", false⟩
        [sample.reviewIn 1 "APPROVED", sample.reviewIn 2 "COMMENTED",
         sample.reviewIn 3 "APPROVED"] = "COMMENTED:1;APPROVED:2" ∧
    ∃ entries : List (String × Int),
      getReviewStates (fun l => l.reverse) ⟨"out.csv", false⟩
          [sample.reviewIn 1 "APPROVED", sample.reviewIn 2 "COMMENTED",
           sample.reviewIn 3 "APPROVED"]
        = strings.Join (entries.map fun entry => entry.1 ++ ":" ++ Itoa entry.2) ";" ∧
      (entries.map Prod.snd).sum = 3 := by
  refine ⟨fun l => List.reverse_perm l, by decide, ?_⟩
  obtain ⟨⟨entries, h1, _, _, _, h5⟩, _⟩ := getReviewStates_histogram (fun l => l.reverse)
    (fun l => List.reverse_perm l) ⟨"out.csv", false⟩
    [sample.reviewIn 1 "APPROVED", sample.reviewIn 2 "COMMENTED", sample.reviewIn 3 "APPROVED"]
  exact ⟨entries, h1, by simpa using h5⟩

/-- C17. CSV diff summary: `getDiffSummary` returns the `;`-join, in input
order, of one entry `<filename>:<N>_lines` for exactly the files whose patch
is not empty, `N` being one more than the number of newline characters of the
patch. -/
theorem getDiffSummary_lines (e : CSVExporter) (files : List models.File) :
    getDiffSummary e files = strings.Join
      ((files.filter fun file => decide (file.Patch ≠ "")).map fun file =>
        file.Filename ++ ":" ++ Itoa ((file.Patch.data.count '\n' + 1 : Nat) : Int) ++ "_lines")
      ";" := by
  unfold getDiffSummary
  cases files with
  | nil => simp [strings.Join]
  | cons f rest => simp [strings.Split_length]

end exporter

namespace ui

/-- C18. Filename for a specific PR: for every repo, format and options with
`PRNumber = N > 0`, `GenerateFilename` returns `<repo>-pr-<N>.<fmt>`, the repo
with every `/` replaced by `-`, whatever `Limit`, `All` and `Since` are. -/
theorem GenerateFilename_specific_pr (repo format : String) (options : FilenameOptions)
    (h : options.PRNumber > 0) :
    GenerateFilename repo format options
      = strings.ReplaceAll repo '/' '-' ++ "-pr-" ++ Itoa options.PRNumber ++ "." ++ format ∧
    (strings.ReplaceAll repo '/' '-').data = repo.data.map (fun c => if c = '/' then '-' else c) := by
  refine ⟨?_, rfl⟩
  unfold GenerateFilename
  simp [h]

/-- Witness of C18: pull request 123 of `owner/repo`, with a limit and a since
date set as well. -/
theorem GenerateFilename_specific_pr_witness :
    (123 : Int) > 0 ∧
    GenerateFilename "owner/repo" "jsonl" ⟨123, 50, true, "2024-01-15"⟩
      = "owner-repo-pr-123.jsonl" :=
  ⟨by decide, (GenerateFilename_specific_pr "owner/repo" "jsonl" ⟨123, 50, true, "2024-01-15"⟩
    (by decide)).1.trans (by decide)⟩

/-- C19. Filename limit modifier: for every repo, format and options with
`PRNumber ≤ 0` and an empty `Since`, `GenerateFilename` returns
`<repo>-prs-recent-<L>.<fmt>` when `Limit = L > 0` and `All` is false, and
`<repo>-prs.<fmt>` otherwise. -/
theorem GenerateFilename_limit (repo format : String) (options : FilenameOptions)
    (hpr : options.PRNumber ≤ 0) (hsince : options.Since = "") :
    GenerateFilename repo format options
      = if options.Limit > 0 ∧ options.All = false then
          strings.ReplaceAll repo '/' '-' ++ "-prs-recent-" ++ Itoa options.Limit ++ "." ++ format
        else strings.ReplaceAll repo '/' '-' ++ "-prs." ++ format := by
  have hnot : ¬ options.PRNumber > 0 := by omega
  unfold GenerateFilename
  by_cases hl : options.Limit > 0 ∧ options.All = false
  · simp [hnot, hsince, hl.1, hl.2, strings.Join, String.append_assoc]
    rw [recent_modifier]
  · have hb : (decide (options.Limit > 0) && !options.All) = false := by
      rcases Classical.not_and_iff_or_not_not.mp hl with h | h
      · simp [h]
      · simp at h; simp [h]
    simp only [hnot, if_false, hsince, ne_eq, not_true_eq_false, hb, Bool.false_eq_true, hl,
      List.length_nil, gt_iff_lt, Nat.lt_irrefl, String.append_assoc]
    rfl

/-- Witness of C19: a limit of 50 on `owner/repo`. -/
theorem GenerateFilename_limit_witness :
    (0 : Int) ≤ 0 ∧ ("" : String) = "" ∧
    GenerateFilename "owner/repo" "csv" ⟨0, 50, false, ""⟩ = "owner-repo-prs-recent-50.csv" :=
  ⟨by decide, rfl, (GenerateFilename_limit "owner/repo" "csv" ⟨0, 50, false, ""⟩
    (by decide) rfl).trans (by decide)⟩

/-- C20. Filename since modifier: for every repo, format and options with
`PRNumber ≤ 0` and no limit modifier, when `time.Parse` accepts `Since` as a
date of layout `2006-01-02` the file name is `<repo>-prs-<YYYY-MM>.<fmt>`,
`<YYYY-MM>` being the first seven characters of `Since`; for a non-empty
`Since` it rejects the modifier is `filtered`. The dates it accepts are the
calendar dates written on four, two and two digits. -/
theorem GenerateFilename_since (repo format : String) (options : FilenameOptions)
    (hpr : options.PRNumber ≤ 0) (hlimit : ¬ (options.Limit > 0 ∧ options.All = false)) :
    (∀ date, time.ParseDate options.Since = some date →
      GenerateFilename repo format options
        = strings.ReplaceAll repo '/' '-' ++ "-prs-" ++ String.mk (options.Since.data.take 7)
            ++ "." ++ format) ∧
    (options.Since ≠ "" → time.ParseDate options.Since = none →
      GenerateFilename repo format options
        = strings.ReplaceAll repo '/' '-' ++ "-prs-filtered" ++ "." ++ format) ∧
    (∀ date, time.ParseDate options.Since = some date ↔
      (date.year ≤ 9999 ∧ 1 ≤ date.month ∧ date.month ≤ 12 ∧ 1 ≤ date.day ∧
        date.day ≤ time.daysIn date.month date.year ∧
        options.Since = String.mk [time.digitChar (date.year / 1000),
          time.digitChar (date.year / 100), time.digitChar (date.year / 10),
          time.digitChar date.year, '-', time.digitChar (date.month / 10),
          time.digitChar date.month, '-', time.digitChar (date.day / 10),
          time.digitChar date.day])) := by
  have hnot : ¬ options.PRNumber > 0 := by omega
  have hb : (decide (options.Limit > 0) && !options.All) = false := by
    rcases Classical.not_and_iff_or_not_not.mp hlimit with h | h
    · simp [h]
    · simp at h; simp [h]
  refine ⟨?_, ?_, fun date => time.ParseDate_eq_some_iff _ date⟩
  · intro date hdate
    have hne : options.Since ≠ "" := by
      intro h
      rw [h] at hdate
      simp [time.ParseDate] at hdate
    unfold GenerateFilename
    simp [hnot, hb, hne, hdate, strings.Join, String.append_assoc,
      time.FormatYearMonth_ParseDate _ _ hdate]
  · intro hne hnone
    unfold GenerateFilename
    simp [hnot, hb, hne, hnone, strings.Join, String.append_assoc]

/-- Witness of C20: the since date `2024-01-15`. -/
theorem GenerateFilename_since_witness :
    (0 : Int) ≤ 0 ∧ ¬ ((0 : Int) > 0 ∧ false = false) ∧
    time.ParseDate "2024-01-15" = some ⟨2024, 1, 15⟩ ∧
    GenerateFilename "owner/repo" "jsonl" ⟨0, 0, false, "2024-01-15"⟩
      = "owner-repo-prs-2024-01.jsonl" :=
  ⟨by decide, by decide, by decide,
    ((GenerateFilename_since "owner/repo" "jsonl" ⟨0, 0, false, "2024-01-15"⟩ (by decide)
      (by decide)).1 ⟨2024, 1, 15⟩ (by decide)).trans (by decide)⟩

end ui

namespace ui

/-- C21 (as stated, refuted). With a limit of 50 and the since date
`2024-01-15`, and no PR number, the file name carries both modifiers:
`owner-repo-prs-recent-50-2024-01.csv`, not `owner-repo-prs-recent-50.csv`. -/
theorem GenerateFilename_limit_does_not_hide_since :
    GenerateFilename "owner/repo" "csv" ⟨0, 50, false, "2024-01-15"⟩
      = "owner-repo-prs-recent-50-2024-01.csv" ∧
    GenerateFilename "owner/repo" "csv" ⟨0, 50, false, "2024-01-15"⟩
      ≠ "owner-repo-prs-recent-50.csv" := by
  decide

/-- C21 (amended). Filename modifiers: a PR number above zero gives
`<repo>-pr-<N>.<fmt>` whatever the other options are; without one, the limit
modifier does not take the place of the since modifier: with `Limit = L > 0`,
`All` false and a `Since` that `time.Parse` accepts, the file name is
`<repo>-prs-recent-<L>-<YYYY-MM>.<fmt>`, and with a non-empty `Since` it
rejects, `<repo>-prs-recent-<L>-filtered.<fmt>`. -/
theorem GenerateFilename_modifiers (repo format : String) (options : FilenameOptions) :
    (options.PRNumber > 0 →
      GenerateFilename repo format options
        = strings.ReplaceAll repo '/' '-' ++ "-pr-" ++ Itoa options.PRNumber ++ "." ++ format) ∧
    (options.PRNumber ≤ 0 → options.Limit > 0 → options.All = false →
      (∀ date, time.ParseDate options.Since = some date →
        GenerateFilename repo format options
          = strings.ReplaceAll repo '/' '-' ++ "-prs-recent-" ++ Itoa options.Limit ++ "-"
              ++ String.mk (options.Since.data.take 7) ++ "." ++ format) ∧
      (options.Since ≠ "" → time.ParseDate options.Since = none →
        GenerateFilename repo format options
          = strings.ReplaceAll repo '/' '-' ++ "-prs-recent-" ++ Itoa options.Limit
              ++ "-filtered" ++ "." ++ format)) := by
  refine ⟨?_, ?_⟩
  · intro hpr
    unfold GenerateFilename
    simp [hpr, String.append_assoc]
  · intro hpr hl hall
    have hnot : ¬ options.PRNumber > 0 := by omega
    refine ⟨?_, ?_⟩
    · intro date hdate
      have hne : options.Since ≠ "" := by
        intro h
        rw [h] at hdate
        simp [time.ParseDate] at hdate
      unfold GenerateFilename
      simp [hnot, hl, hall, hne, hdate, strings.Join, String.append_assoc,
        time.FormatYearMonth_ParseDate _ _ hdate]
      rw [recent_modifier]
    · intro hne hnone
      unfold GenerateFilename
      simp [hnot, hl, hall, hne, hnone, strings.Join, String.append_assoc]
      rw [recent_modifier]

/-- Witness of C21 (amended): a limit of 50 with the since date `2024-01-15`. -/
theorem GenerateFilename_modifiers_witness :
    GenerateFilename "owner/repo" "csv" ⟨0, 50, false, "2024-01-15"⟩
      = "owner-repo-prs-recent-50-2024-01.csv" :=
  ((((GenerateFilename_modifiers "owner/repo" "csv" ⟨0, 50, false, "2024-01-15"⟩).2
    (by decide) (by decide) rfl).1) ⟨2024, 1, 15⟩ (by decide)).trans (by decide)

/-- C22 (as stated, refuted). For the byte count `2^53 + 3·2^28 − 1`,
`float64(bytes)` is `bytes + 1`, whose quotient by `1024^3` is `8388608.75`
exactly: `FormatFileSize` prints `8388608.8 GB`, which is more than `0.05` away
from the byte count divided by the unit, while `8388608.7` is within `0.05`. -/
theorem FormatFileSize_rounds_the_float :
    FormatFileSize 9007200060047359 = "8388608.8 GB" ∧
    float64OfNat 9007200060047359 = 9007200060047360 ∧
    2 * |(10 * 9007200060047359 : Int) - 1024 ^ 3 * 83886088| > 1024 ^ 3 ∧
    2 * |(10 * 9007200060047359 : Int) - 1024 ^ 3 * 83886087| < 1024 ^ 3 := by
  refine ⟨by decide, by decide, by decide, by decide⟩

/-- C22 (amended). File size units: a byte count below 1024 is printed as its
decimal followed by ` B`; from 1024 on the unit is ` KB`, from `1024^2` on
` MB`, from `1024^3` on ` GB`, and the number printed is `float64(b)` divided
by the unit in tenths, rounded to the nearest tenth with a tie going to the
even digit, where `float64(b)` is `b` for every `b` below `2^53`; 500, 1536,
2621440 and 5368709120 give `500 B`, `1.5 KB`, `2.5 MB` and `5.0 GB`, and 1280
gives `1.2 KB`. -/
theorem FormatFileSize_units (b : Int) (hb : 0 ≤ b) :
    (b < 1024 → FormatFileSize b = Itoa b ++ " B") ∧
    (1024 ≤ b → b < 1024 ^ 2 →
      FormatFileSize b = formatTenths (roundTenths b.toNat 1024) ++ " KB") ∧
    (1024 ^ 2 ≤ b → b < 1024 ^ 3 →
      FormatFileSize b = formatTenths (roundTenths b.toNat (1024 ^ 2)) ++ " MB") ∧
    (1024 ^ 3 ≤ b →
      FormatFileSize b
        = formatTenths (roundTenths (float64OfNat b.toNat) (1024 ^ 3)) ++ " GB" ∧
      (b < 2 ^ 53 → float64OfNat b.toNat = b.toNat)) ∧
    (∀ num den : Nat, 0 < den →
      2 * |(10 * num : Int) - den * roundTenths num den| ≤ den ∧
      (2 * |(10 * num : Int) - den * roundTenths num den| = den →
        roundTenths num den % 2 = 0)) ∧
    (∀ tenths : Nat,
      formatTenths tenths = toString (tenths / 10) ++ "." ++ toString (tenths % 10)) ∧
    FormatFileSize 500 = "500 B" ∧ FormatFileSize 1536 = "1.5 KB" ∧
    FormatFileSize 2621440 = "2.5 MB" ∧ FormatFileSize 5368709120 = "5.0 GB" ∧
    FormatFileSize 1280 = "1.2 KB" := by
  have hexact : b < 2 ^ 53 → float64OfNat b.toNat = b.toNat := by
    intro h
    apply float64OfNat_exact
    have : (b.toNat : Int) = b := Int.toNat_of_nonneg hb
    have h2 : (b.toNat : Int) < 2 ^ 53 := by omega
    exact_mod_cast h2
  refine ⟨?_, ?_, ?_, ?_, roundTenths_nearest, fun _ => rfl, by decide, by decide, by decide,
    by decide, by decide⟩
  · intro h
    simp [FormatFileSize, h]
  · intro h1 h2
    have h3 : ¬ b < 1024 := by omega
    have h4 : b < 1024 * 1024 := by omega
    simp only [FormatFileSize]
    rw [if_neg h3, if_pos h4, hexact (by omega)]
    rfl
  · intro h1 h2
    have h3 : ¬ b < 1024 := by omega
    have h4 : ¬ b < 1024 * 1024 := by omega
    have h5 : b < 1024 * 1024 * 1024 := by omega
    simp only [FormatFileSize]
    rw [if_neg h3, if_neg h4, if_pos h5, hexact (by omega)]
    rfl
  · intro h1
    have h3 : ¬ b < 1024 := by omega
    have h4 : ¬ b < 1024 * 1024 := by omega
    have h5 : ¬ b < 1024 * 1024 * 1024 := by omega
    refine ⟨?_, hexact⟩
    simp only [FormatFileSize]
    rw [if_neg h3, if_neg h4, if_neg h5]
    rfl

/-- Witness of C22 (amended): 1536 bytes. -/
theorem FormatFileSize_units_witness :
    (0 : Int) ≤ 1536 ∧ (1024 : Int) ≤ 1536 ∧ (1536 : Int) < 1024 ^ 2 ∧
    FormatFileSize 1536 = "1.5 KB" :=
  ⟨by decide, by decide, by decide,
    ((FormatFileSize_units 1536 (by decide)).2.1 (by decide) (by decide)).trans (by decide)⟩

end ui

namespace cache

/-- C23, the code at a failing input. The pull requests 1, 2 and 4, updated at
the instants 30, 10 and 40, are saved in this order on a new database, at clock
readings later than 40. `Save` stamps column `updated_at` of each row with the
time of the save (1001, 1004 and 1007), so `GetPullRequests` with the threshold
20 returns the pull requests 4, 2 and 1, with the update times 40, 10 and 30:
the pull request updated at 10, before the threshold, is returned, and the
order is that of the saves, latest first, not that of the update times. The
claim gives the pull requests 4 and 1. -/
theorem GetPullRequests_filters_and_orders_by_save_time :
    sample.cached = sample.saved [sample.pull 1 30 "octocat", sample.pull 2 10 "octocat",
      sample.pull 4 40 "octocat"] ∧
    sample.cached.pulls.map (fun r => (r.Number, r.UpdatedAt)) =
      [(1, ⟨1001⟩), (2, ⟨1004⟩), (4, ⟨1007⟩)] ∧
    (∃ prs, GetPullRequests sample.cached "octo/demo" ⟨20⟩ = Except.ok prs ∧
      prs.map (fun pr => (pr.Number, pr.UpdatedAt)) = [(4, ⟨40⟩), (2, ⟨10⟩), (1, ⟨30⟩)] ∧
      ¬ prs.Sorted (fun a b => b.UpdatedAt.nanos ≤ a.UpdatedAt.nanos) ∧
      ∃ pr ∈ prs, pr.UpdatedAt.nanos < 20) :=
  ⟨rfl, by decide, _, rfl, by decide, by decide, by decide⟩

end cache

namespace analyzer

open cache

/-- C24. Result-count limit: when the cache returns the list `prs` of its pull
requests and the rows of their children can be read, `loadDataFromCache`
returns without error the first `min(n, Limit)` pull requests of `prs`, in the
order of `prs`, when `All` is false and `Limit > 0`, and all of `prs`, in the
same order, when `All` is true or `Limit ≤ 0`; each pull request is returned
with its reviews, comments and files read from the cache and its other fields
as they are in `prs`. -/
theorem loadDataFromCache_limit (s : Store) (opts : AnalyzeOptions)
    (prs : List models.PullRequest) (hs : s.Readable)
    (hprs : GetPullRequests s opts.Repo Time.zero = Except.ok prs) :
    ∃ out, loadDataFromCache s opts = Except.ok out ∧
      (opts.All = false → opts.Limit > 0 →
        List.Forall₂ (Loaded s) (prs.take opts.Limit.toNat) out ∧
        out.map (fun pr => pr.Number) = (prs.take opts.Limit.toNat).map (fun pr => pr.Number) ∧
        out.length = min prs.length opts.Limit.toNat) ∧
      (opts.All = true ∨ opts.Limit ≤ 0 →
        List.Forall₂ (Loaded s) prs out ∧
        out.map (fun pr => pr.Number) = prs.map (fun pr => pr.Number) ∧
        out.length = prs.length) := by
  unfold loadDataFromCache
  simp only [hprs]
  by_cases hlim : opts.All = false ∧ opts.Limit > 0
  · obtain ⟨hall, hpos⟩ := hlim
    have hkept : (if (!opts.All && decide (opts.Limit > 0)
          && decide ((prs.length : Int) > opts.Limit)) = true
        then prs.take opts.Limit.toNat else prs) = prs.take opts.Limit.toNat := by
      by_cases hlen : (prs.length : Int) > opts.Limit
      · simp [hall, hpos, hlen]
      · have : prs.length ≤ opts.Limit.toNat := by omega
        simp [hlen, List.take_of_length_le this]
    rw [hkept]
    obtain ⟨out, hout, hloaded⟩ := loadChildren_ok s hs (prs.take opts.Limit.toNat)
    refine ⟨out, hout, fun _ _ => ⟨hloaded, Loaded_numbers s _ _ hloaded, ?_⟩, fun h => ?_⟩
    · rw [← hloaded.length_eq, List.length_take, Nat.min_comm]
    · rcases h with h | h
      · rw [hall] at h
        exact absurd h (by decide)
      · omega
  · have hkept : (if (!opts.All && decide (opts.Limit > 0)
          && decide ((prs.length : Int) > opts.Limit)) = true
        then prs.take opts.Limit.toNat else prs) = prs := by
      rcases Classical.not_and_iff_or_not_not.mp hlim with h | h
      · simp only [Bool.not_eq_false] at h
        simp [h]
      · simp [h]
    rw [hkept]
    obtain ⟨out, hout, hloaded⟩ := loadChildren_ok s hs prs
    refine ⟨out, hout, fun h1 h2 => absurd ⟨h1, h2⟩ hlim, fun _ =>
      ⟨hloaded, Loaded_numbers s _ _ hloaded, hloaded.length_eq.symm⟩⟩

/-- Witness of C24: the cache of the pull requests 1, 2 and 4, saved in this
order, which `GetPullRequests` returns latest save first, with a limit of 2. -/
theorem loadDataFromCache_limit_witness :
    sample.cached.Readable ∧
    sample.numbers (GetPullRequests sample.cached "octo/demo" Time.zero) = [4, 2, 1] ∧
    ∃ out, loadDataFromCache sample.cached { sample.options with Limit := 2 } = Except.ok out ∧
      out.map (fun pr => pr.Number) = [4, 2] ∧ out.length = 2 := by
  obtain ⟨out, hout, hlim, _⟩ := loadDataFromCache_limit sample.cached
    { sample.options with Limit := 2 } _ sample.cached_readable sample.cached_pulls
  obtain ⟨_, hnum, hlen⟩ := hlim rfl (by decide)
  exact ⟨sample.cached_readable, by decide, out, hout, hnum, hlen⟩

end analyzer

namespace cache

/-- C25 (as stated, refuted). A review and a file of pull request 7, saved on a
new database, are returned by `GetReviews 7` and `GetFiles 7` with the owning
pull-request number 0. -/
theorem child_records_read_back_without_owner :
    (∃ s1, SaveReview Char.toLower Store.fresh { sample.review with PullNumber := 7 }
        = Except.ok s1 ∧
      GetReviews s1 7 = Except.ok [{ sample.review with PullNumber := 0 }]) ∧
    (∃ s1, SaveFile Store.fresh { sample.file with PullNumber := 7 } = Except.ok s1 ∧
      GetFiles s1 7 = Except.ok [{ sample.file with PullNumber := 0 }]) ∧
    (0 : Int) ≠ 7 :=
  ⟨⟨_, rfl, rfl⟩, ⟨_, rfl, rfl⟩, by decide⟩

/-- C25 (amended). Child records across the cache: on a store whose rows can
be read, a review and a file that `SaveReview` and `SaveFile` save without
error with owning pull-request number `n` are returned by `GetReviews n` and
`GetFiles n` with every other field as saved; the owning pull-request number of
every record `GetReviews` and `GetFiles` return is 0, the field being left out
of the stored JSON text, and the records returned for `n` are read from the
rows whose column `pull_number` is `n`. A review whose time `json.Marshal`
accepts, and a file with a non-zero pull-request number and a non-empty name,
are saved without error. -/
theorem child_records_by_pull_number (unicodeToLower : Char → Char) (s : Store)
    (hs : s.Readable) (review : models.Review) (file : models.File) :
    (∀ s1, SaveReview unicodeToLower s review = Except.ok s1 →
      ∃ rs, GetReviews s1 review.PullNumber = Except.ok rs ∧
        { review with PullNumber := 0 } ∈ rs) ∧
    (∀ s1, SaveFile s file = Except.ok s1 →
      ∃ fs, GetFiles s1 file.PullNumber = Except.ok fs ∧ { file with PullNumber := 0 } ∈ fs) ∧
    (∀ n rs, GetReviews s n = Except.ok rs → ∀ r ∈ rs, r.PullNumber = 0 ∧
      ∃ row ∈ s.reviews, row.PullNumber = n ∧ models.Review.unmarshal row.RawJSON = some r) ∧
    (∀ n fs, GetFiles s n = Except.ok fs → ∀ f ∈ fs, f.PullNumber = 0 ∧
      ∃ row ∈ s.files, row.PullNumber = n ∧ models.File.unmarshal row.RawJSON = some f) ∧
    (review.marshalError = none → ∃ s1, SaveReview unicodeToLower s review = Except.ok s1) ∧
    (file.PullNumber ≠ 0 → file.Filename ≠ "" → ∃ s1, SaveFile s file = Except.ok s1) := by
  refine ⟨fun s1 h => GetReviews_SaveReview unicodeToLower s s1 hs review h,
    fun s1 h => GetFiles_SaveFile s s1 hs file h, ?_, ?_,
    SaveReview_ok unicodeToLower s review, SaveFile_ok s file⟩
  · intro n rs h r hr
    obtain ⟨row, hrow, hg⟩ := mem_of_map_some _ _ _ (decodeRows_eq_ok _ _ _ _ _ h) r hr
    obtain ⟨hmem, hn⟩ := List.mem_filter.mp ((List.perm_insertionSort _ _).subset hrow)
    exact ⟨models.review_unmarshal_PullNumber _ _ hg, row, hmem, by simpa using hn, hg⟩
  · intro n fs h f hf
    obtain ⟨row, hrow, hg⟩ := mem_of_map_some _ _ _ (decodeRows_eq_ok _ _ _ _ _ h) f hf
    obtain ⟨hmem, hn⟩ := List.mem_filter.mp ((List.perm_insertionSort _ _).subset hrow)
    exact ⟨models.file_unmarshal_PullNumber _ _ hg, row, hmem, by simpa using hn, hg⟩

/-- Witness of C25 (amended): the sample review and file of pull request 1,
saved on a new database and read back. -/
theorem child_records_by_pull_number_witness :
    Store.fresh.Readable ∧
    (∃ s1 rs, SaveReview Char.toLower Store.fresh sample.review = Except.ok s1 ∧
      GetReviews s1 1 = Except.ok rs ∧ { sample.review with PullNumber := 0 } ∈ rs) ∧
    (∃ s1 fs, SaveFile Store.fresh sample.file = Except.ok s1 ∧
      GetFiles s1 1 = Except.ok fs ∧ { sample.file with PullNumber := 0 } ∈ fs) := by
  have hfresh : Store.fresh.Readable := by simp [Store.Readable, Store.fresh]
  obtain ⟨hrev, hfil, -⟩ := child_records_by_pull_number Char.toLower Store.fresh hfresh
    sample.review sample.file
  obtain ⟨rs, hrs, hrmem⟩ := hrev _ rfl
  obtain ⟨fs, hfs, hfmem⟩ := hfil _ rfl
  exact ⟨hfresh, ⟨_, rs, rfl, hrs, hrmem⟩, ⟨_, fs, rfl, hfs, hfmem⟩⟩

end cache

namespace github

open cache

/-- C26, the code at a failing input. When the list call or the get call fails
with an error `err` and returns no response object, `FetchPullRequests` reads
`resp.Response` of the nil `resp` and panics, for every `err`, clock, threshold
and state of the fetch: it does not return the error `GitHub API error: ` wrapping
`err`, which is what `handleError` gives for an absent HTTP response. -/
theorem FetchPullRequests_nil_response_panics (err : GoError) (clock : Nat → Time)
    (since : Time) (fuel : Nat) (run : Run) :
    FetchPullRequests (sample.unreachable err) sample.client Char.toLower clock (fuel + 1) since 0
        run = some ({ run with listCalls := run.listCalls + 1 }, Exit.panicked) ∧
    FetchPullRequests (sample.unreachable err) sample.client Char.toLower clock (fuel + 1) since 7
        run = some (run, Exit.panicked) ∧
    Exit.panicked ≠ Exit.err (GoError.wrap "GitHub API error: " err) ∧
    handleError sample.client err none = GoError.wrap "GitHub API error: " err := by
  refine ⟨?_, ?_, by simp, rfl⟩
  · simp [FetchPullRequests, fetchListPages, sample.unreachable, sample.failedList]
  · simp [FetchPullRequests, fetchSinglePR, sample.unreachable]

/-- C27. Repository identifier: for every string `repoPath`, `NewClient`
fails with the error `invalid repository format: <repoPath> (expected
owner/repo)` if and only if `repoPath` does not hold exactly one `/`; and
whenever `NewClient` succeeds, `GetRepository` of the client it returns is
`repoPath`. -/
theorem NewClient_repository (urlParse : String → Option GoError) (cfg : config.Config)
    (store : cache.Store) (repoPath : String) :
    (NewClient urlParse cfg store repoPath
        = Except.error (GoError.plain
            ("invalid repository format: " ++ repoPath ++ " (expected owner/repo)"))
      ↔ repoPath.data.count '/' ≠ 1) ∧
    (∀ c, NewClient urlParse cfg store repoPath = Except.ok c → GetRepository c = repoPath) := by
  have hlen := strings.Split_length repoPath '/'
  unfold NewClient
  simp only
  rcases hparts : strings.Split repoPath '/' with _ | ⟨owner, _ | ⟨repo, _ | ⟨x, rest⟩⟩⟩
  · rw [hparts] at hlen
    simp at hlen
  · rw [hparts] at hlen
    simp only [List.length_singleton] at hlen
    refine ⟨⟨fun _ => by omega, fun _ => rfl⟩, fun c h => by simp at h⟩
  · rw [hparts] at hlen
    simp only [List.length_cons, List.length_nil] at hlen
    have hcount : repoPath.data.count '/' = 1 := by omega
    have hsplit : strings.splitChars '/' repoPath.data = [owner.data, repo.data] := by
      have h := hparts
      unfold strings.Split at h
      rcases hs : strings.splitChars '/' repoPath.data with _ | ⟨a, _ | ⟨b, _ | ⟨x, rest⟩⟩⟩
      · rw [hs] at h; simp at h
      · rw [hs] at h; simp at h
      · rw [hs] at h
        simp only [List.map_cons, List.map_nil, List.cons.injEq, and_true] at h
        rw [← h.1, ← h.2]
      · rw [hs] at h; simp at h
    have hjoin := strings.splitChars_two '/' repoPath.data owner.data repo.data hsplit
    cases hb : setBaseURL urlParse cfg with
    | some err =>
      refine ⟨⟨fun h => by simp at h, fun h => absurd hcount h⟩, fun c h => by simp at h⟩
    | none =>
      refine ⟨⟨fun h => by simp at h, fun h => absurd hcount h⟩, fun c h => ?_⟩
      simp only [Except.ok.injEq] at h
      subst h
      simp only [GetRepository]
      apply String.ext
      rw [hjoin]
      simp [String.data_append]
  · rw [hparts] at hlen
    simp only [List.length_cons] at hlen
    refine ⟨⟨fun _ => by omega, fun _ => rfl⟩, fun c h => by simp at h⟩

/-- Witness of C27: the repository `owner/repo`. -/
theorem NewClient_repository_witness :
    NewClient (fun _ => none) sample.config cache.Store.fresh "owner/repo"
      = Except.ok { owner := "owner", repo := "repo" } ∧
    GetRepository { owner := "owner", repo := "repo" } = "owner/repo" :=
  ⟨rfl, (NewClient_repository (fun _ => none) sample.config cache.Store.fresh
    "owner/repo").2 _ rfl⟩

end github

namespace exporter

/-- C28. Title sanitization is idempotent: for every Go string, given by its
bytes, `escapeCsvValue` applied to the result of `escapeCsvValue` returns that
result, also when the value was cut after 200 bytes and given the `...`
marker; and for every string `s` the result of the method is the one computed
on the bytes of `s`. -/
theorem escapeCsvValue_idempotent (e : CSVExporter) :
    (∀ value : Bytes,
      escapeCsvBytes e (escapeCsvBytes e value) = escapeCsvBytes e value) ∧
    (∀ s : String, escapeCsvValue e s = escapeCsvBytes e (utf8 s)) ∧
    (∀ s : String, escapeCsvBytes e (escapeCsvValue e s) = escapeCsvValue e s) := by
  have hidem : ∀ value : Bytes,
      escapeCsvBytes e (escapeCsvBytes e value) = escapeCsvBytes e value := by
    intro value
    have hclean : ∀ l : Bytes,
        (l.map fun b => if b = 10 ∨ b = 9 ∨ b = 13 then 32 else b).map
            (fun b => if b = 10 ∨ b = 9 ∨ b = 13 then 32 else b)
          = l.map fun b => if b = 10 ∨ b = 9 ∨ b = 13 then 32 else b := by
      intro l
      rw [List.map_map]
      apply List.map_congr_left
      intro b _
      simp only [Function.comp]
      split_ifs <;> simp_all
    simp only [escapeCsvBytes, replaced_eq_map]
    generalize hc : (value.map fun b => if b = 10 ∨ b = 9 ∨ b = 13 then 32 else b) = cleaned
    have hcc : (cleaned.map fun b => if b = 10 ∨ b = 9 ∨ b = 13 then 32 else b) = cleaned := by
      rw [← hc]
      exact hclean value
    by_cases hlen : cleaned.length > 200
    · have hlen2 : (List.take 200 cleaned).length = 200 := by
        rw [List.length_take]
        omega
      have hmap : ((List.take 200 cleaned ++ [46, 46, 46]).map
          fun b => if b = 10 ∨ b = 9 ∨ b = 13 then 32 else b)
            = List.take 200 cleaned ++ [46, 46, 46] := by
        rw [List.map_append, List.map_take, hcc]
        rfl
      simp only [hlen, if_true, hmap]
      have hlong : (List.take 200 cleaned ++ [46, 46, 46]).length > 200 := by
        rw [List.length_append, hlen2]
        simp
      rw [if_pos hlong, List.take_append_of_le_length (by omega), List.take_take]
      simp
    · simp only [hlen, if_false, hcc]
  exact ⟨hidem, escapeCsvValue_eq_bytes e, fun s => by
    rw [escapeCsvValue_eq_bytes]
    exact hidem _⟩

end exporter

namespace analyzer

open cache

/-- C29. The exported set ignores the PR-number and since filters: for every
cache content, two option values that differ only in `PRNumber` and `Since`
make `loadDataFromCache` return the same result. On the cache of the pull
requests 1, 2 and 4, a run for the pull request number 2 first fetches that
pull request, which saves it anew, and then loads all three pull requests, the
one asked for first; with a limit of 2 it loads the pull requests 2 and 4. -/
theorem loadDataFromCache_ignores_filters (s : Store) (opts : AnalyzeOptions)
    (n1 n2 : Int) (since1 since2 : String) :
    loadDataFromCache s { opts with PRNumber := n1, Since := since1 }
      = loadDataFromCache s { opts with PRNumber := n2, Since := since2 } ∧
    ∃ run1, github.FetchPullRequests sample.api sample.client Char.toLower sample.clock 3
        Time.zero 2 { sample.run0 with store := sample.cached } = some (run1, github.Exit.nil) ∧
      sample.numbers (loadDataFromCache run1.store { sample.options with PRNumber := 2 })
        = [2, 4, 1] ∧
      sample.numbers (loadDataFromCache run1.store
        { sample.options with PRNumber := 2, Limit := 2 }) = [2, 4] :=
  ⟨rfl, _, rfl, by decide, by decide⟩

end analyzer

end PrAnalyzer
